import Mathlib

/-!
# Coroutine lowering in CIRGen

A shallow embedding of `clang/lib/CIR/CodeGen/CIRGenCoroutine.cpp`.

The functions of that file (`createCoroData`, `GetParamRef`,
`ParamReferenceReplacerRAII`, `emitBodyAndFallthrough`, `emitCoroutineBody`,
`memberCallExpressionCanThrow`, `emitSuspendExpression`, `emitSuspendExpr`,
`emitCoawaitExpr`, `emitCoyieldExpr`, `emitCoreturnStmt`, and the builtin-call
emitters) are translated line by line into state-passing Lean functions over a
record `CIRGenFunction`.  Their collaborators that live elsewhere (the AST, the
statement/expression engine `emitStmt`, the lexical-scope tracker, the
opaque-value table, `llvm::DenseMap`, the MLIR builder) are modelled just far
enough for the translated functions to run.

Three kinds of outcome are kept apart, as in the source:
* a call returns `mlir::success()`;
* a call returns `mlir::failure()`;
* the process aborts in `llvm_unreachable` or a failed `assert` (a `Fault`).
-/

namespace CIRGen

/-! ## Identities -/

/-- Identity of a declaration (`ValueDecl *`). -/
abbrev Decl := Nat

/-- An SSA value, named by the id of the operation defining it (`mlir::Value`). -/
abbrev Value := Nat

/-- Identity of a block (`mlir::Block *`). -/
abbrev BlockId := Nat

/-- Identity of an opaque placeholder expression (`OpaqueValueExpr *`). -/
abbrev OpaqueValueExpr := Nat

/-- The enum `cir::AwaitKind`. -/
inductive AwaitKind where
  | Init
  | User
  | Yield
  | Final
  deriving DecidableEq, Repr

/-- The type `mlir::LogicalResult`. -/
inductive LogicalResult where
  | success
  | failure
  deriving DecidableEq, Repr

/-- Counterpart of `LogicalResult::failed()`. -/
def LogicalResult.failed : LogicalResult → Bool
  | .success => false
  | .failure => true

/-- Ways in which the process aborts instead of returning: `llvm_unreachable`
with its message, a failed `assert` with its message (or its condition when the
source gives no message), and the use of a null or unset pointer. -/
inductive Fault where
  | unreachable (msg : String)
  | assertion (msg : String)
  | undefinedBehaviour (what : String)
  deriving DecidableEq, Repr

/-! ## The AST, as far as this file inspects it -/

/-- The enum `clang::CanThrowResult`. -/
inductive CanThrowResult where
  | CT_Cannot
  | CT_Dependent
  | CT_Can
  deriving DecidableEq, Repr

/-- What `memberCallExpressionCanThrow` reads from a `FunctionProtoType`. -/
structure FunctionProtoType where
  /-- The value of `isNoexceptExceptionSpec(Proto->getExceptionSpecType())`. -/
  isNoexceptExceptionSpec : Bool
  /-- The value of `Proto->canThrow()`. -/
  canThrow : CanThrowResult
  deriving DecidableEq, Repr

/-- Statement classes the file distinguishes among expressions. -/
inductive ExprClass where
  | DeclRefExpr (decl : Decl)
  /-- A member call; the payload is `getMethodDecl()->getType()->getAs<FunctionProtoType>()`. -/
  | CXXMemberCallExpr (proto : Option FunctionProtoType)
  | InitListExpr
  | ParenExpr
  /-- A reference to an opaque placeholder. -/
  | OpaqueValueExpr (ov : OpaqueValueExpr)
  | Other
  deriving DecidableEq, Repr

/-- The three evaluation kinds of the expression engine. -/
inductive TypeEvaluationKind where
  | TEK_Scalar
  | TEK_Complex
  | TEK_Aggregate
  deriving DecidableEq, Repr

/-- An expression without coroutine construct.  `children` are the child
pointers (null children are `none`).  `label` stands for the operations the
engine emits for it. -/
inductive Expr where
  | mk (label : Nat) (cls : ExprClass) (isVoidType : Bool)
       (evalKind : TypeEvaluationKind) (children : List (Option Expr))

namespace Expr

/-- Label of the operations the engine emits for the expression. -/
def label : Expr → Nat
  | .mk l _ _ _ _ => l

/-- Statement class of the expression. -/
def cls : Expr → ExprClass
  | .mk _ c _ _ _ => c

/-- Counterpart of `getType()->isVoidType()`. -/
def isVoidType : Expr → Bool
  | .mk _ _ v _ _ => v

/-- Counterpart of `getEvaluationKind(getType())`. -/
def evalKind : Expr → TypeEvaluationKind
  | .mk _ _ _ k _ => k

/-- Counterpart of `children()`. -/
def children : Expr → List (Option Expr)
  | .mk _ _ _ _ cs => cs

/-- Counterpart of `isa<InitListExpr>`. -/
def isInitListExpr (e : Expr) : Bool :=
  match e.cls with
  | .InitListExpr => true
  | _ => false

mutual

/-- The opaque placeholders the expression refers to, in source order. -/
def opaqueRefs : Expr → List OpaqueValueExpr
  | .mk _ (.OpaqueValueExpr ov) _ _ cs => ov :: opaqueRefsOfChildren cs
  | .mk _ (.DeclRefExpr _) _ _ cs => opaqueRefsOfChildren cs
  | .mk _ (.CXXMemberCallExpr _) _ _ cs => opaqueRefsOfChildren cs
  | .mk _ .InitListExpr _ _ cs => opaqueRefsOfChildren cs
  | .mk _ .ParenExpr _ _ cs => opaqueRefsOfChildren cs
  | .mk _ .Other _ _ cs => opaqueRefsOfChildren cs

/-- The opaque placeholders the children refer to. -/
def opaqueRefsOfChildren : List (Option Expr) → List OpaqueValueExpr
  | [] => []
  | none :: cs => opaqueRefsOfChildren cs
  | some c :: cs => opaqueRefs c ++ opaqueRefsOfChildren cs

end

/-- Counterpart of `Expr::IgnoreParens`: strips enclosing parentheses. -/
def IgnoreParens : Expr → Expr
  | .mk _ .ParenExpr _ _ [some sub] => IgnoreParens sub
  | e => e

end Expr

/-- A coroutine suspend expression (`CoroutineSuspendExpr`): the operand of a
`co_await` or `co_yield`, or a compiler-made initial or final suspend. -/
structure CoroutineSuspendExpr where
  CommonExpr : Expr
  OpaqueValue : OpaqueValueExpr
  ReadyExpr : Expr
  SuspendExpr : Expr
  ResumeExpr : Expr

/-- A variable declaration with its initializer (`VarDecl`). -/
structure VarDecl where
  decl : Decl
  Init : Expr

/-- The slot an aggregate result is evaluated into (`AggValueSlot`). -/
structure AggValueSlot where
  isIgnored : Bool
  deriving DecidableEq, Repr

/-- Statements.  `other` is any statement without coroutine construct, with
the verdict the engine reports for it; `seq` is two consecutive statements of
one compound statement and `scope` a nested statement with a lexical scope of
its own (a braced block, the body of an `if` or of a loop). -/
inductive Stmt where
  | other (label : Nat) (lowers : Bool)
  | DeclStmt (decls : List VarDecl) (lowers : Bool)
  | seq (first second : Stmt)
  | scope (body : Stmt)
  | whileTrue (body : Stmt)
  | CoreturnStmt (Operand : Option Expr) (PromiseCall : Stmt)
  | coawait (E : CoroutineSuspendExpr) (aggSlot : AggValueSlot) (ignoreResult : Bool)
  | coyield (E : CoroutineSuspendExpr) (aggSlot : AggValueSlot) (ignoreResult : Bool)

/-- The statement `CoroutineBodyStmt`, with the accessors the file calls. -/
structure CoroutineBodyStmt where
  Allocate : Expr
  ReturnStmtOnAllocFailure : Option Stmt
  ParamMoves : List Stmt
  PromiseDeclStmt : Stmt
  ReturnStmt : Option Stmt
  ReturnValue : Expr
  InitSuspendStmt : Stmt
  Body : Stmt
  ExceptionHandler : Option Stmt
  FallthroughHandler : Option Stmt
  FinalSuspendStmt : Stmt

/-! ## The intermediate representation and the function-lowering context -/

/-- Constants the file materialises through the builder. -/
inductive Constant where
  | nullPtr
  | uint32 (n : Nat)
  | bool (b : Bool)
  deriving DecidableEq, Repr

/-- Operations.  Regions are named by the block that holds their operations. -/
inductive OpKind where
  | constant (c : Constant)
  | call (callee : String) (args : List Value)
  | alloca (name : String)
  | store (val addr : Value)
  | load (addr : Value)
  | ifOp (cond : Value) (thenRegion : BlockId)
  | scopeOp (region : BlockId)
  | whileOp (region : BlockId)
  | await (kind : AwaitKind) (ready suspend resume : BlockId)
  | condition (cond : Value)
  | yield
  | br (dest : BlockId)
  /-- The operations the engine emits for a statement or expression; the
  operands are the values its opaque placeholders stand for. -/
  | lowered (label : Nat) (operands : List Value)
  /-- Initialisation of the return slot by `emitAnyExprToMem`. -/
  | exprToMem (label : Nat) (addr : Value)
  deriving DecidableEq, Repr

/-- An operation: its id (also the name of its result), the block it sits in
and what it is. -/
structure Op where
  id : Nat
  block : BlockId
  kind : OpKind
  deriving DecidableEq, Repr

/-- Where the builder inserts the next operation. -/
inductive InsertPoint where
  | atEnd (block : BlockId)
  | before (op : Op)
  deriving DecidableEq, Repr

/-- What happened, in the order it happened. -/
inductive Event where
  | created (op : Op)
  | failed (label : Nat)
  deriving DecidableEq, Repr

/-- The record `CGCoroData`.  `FinalSuspendInsPoint` has no initializer in the
source; `none` stands for the unset pointer.  `CoreturnCount` is `unsigned`. -/
structure CGCoroData where
  CurrentAwaitKind : AwaitKind := .Init
  CoroId : Option Value := none
  CoroBegin : Option Value := none
  FinalSuspendInsPoint : Option Op := none
  CoreturnCount : Nat := 0
  ExceptionHandler : Option Stmt := none

/-- The record `CIRGenFunction::CGCoroInfo`: an owning pointer to the data. -/
structure CGCoroInfo where
  Data : Option CGCoroData := none

/-- The map type `CIRGenFunction::DeclMapTy` (`llvm::DenseMap<const Decl *, Address>`). -/
abbrev DeclMapTy := List (Decl × Value)

/-- What the file uses of `CIRGenFunction::LexicalScope`. -/
structure LexicalScope where
  HasCoreturn : Bool := false
  EntryBlock : BlockId
  RetBlock : Option BlockId := none
  deriving DecidableEq, Repr

/-- The switches of `cir::MissingFeatures` the file asserts on. -/
structure MissingFeatures where
  generateDebugInfo : Bool := false
  unhandledException : Bool := false
  deriving DecidableEq, Repr

/-- The function-lowering context (`CIRGenFunction`), with the module, target
and builder state the file reaches through it. -/
structure CIRGenFunction where
  CurCoro : CGCoroInfo := {}
  LocalDeclMap : DeclMapTy := []
  currLexScope : LexicalScope
  OpaqueValues : List (OpaqueValueExpr × Value) := []
  ReturnValue : Option Value := none
  FnArgs : List Decl := []
  CurFnIsFuncOp : Bool := true
  CoroutineAttr : Bool := false
  globals : List String := []
  NewAlign : Nat := 128
  CharWidth : Nat := 8
  missing : MissingFeatures := {}
  ops : List Op := []
  insertPt : InsertPoint
  nextId : Nat := 0
  nextBlock : BlockId := 0
  trace : List Event := []

/-- Outcome of a call: it returns a value, or the process aborts.  Both carry
the context as it is at that moment. -/
inductive Res (α : Type) where
  | ok (val : α) (state : CIRGenFunction)
  | fault (f : Fault) (state : CIRGenFunction)

/-- A computation over the function-lowering context. -/
def M (α : Type) : Type := CIRGenFunction → Res α

namespace M

/-- Return a value without touching the context. -/
def ret {α : Type} (a : α) : M α := fun s => .ok a s

/-- Sequencing; an abort ends the computation. -/
def bind {α β : Type} (m : M α) (k : α → M β) : M β := fun s =>
  match m s with
  | .ok a s' => k a s'
  | .fault f s' => .fault f s'

/-- Abort. -/
def fail {α : Type} (f : Fault) : M α := fun s => .fault f s

/-- Read the context. -/
def get : M CIRGenFunction := fun s => .ok s s

/-- Change the context. -/
def modify (f : CIRGenFunction → CIRGenFunction) : M Unit := fun s => .ok () (f s)

/-- Counterpart of `assert(cond && msg)`. -/
def assert (cond : Bool) (msg : String) : M Unit :=
  if cond then ret () else fail (.assertion msg)

/-- The idiom `if (m.failed()) return mlir::failure(); k`. -/
def andThen (m : M LogicalResult) (k : M LogicalResult) : M LogicalResult :=
  bind m fun r => if r.failed then ret .failure else k

end M

instance : Monad M where
  pure := M.ret
  bind := M.bind

/-! ## `llvm::DenseMap`, as far as the file uses it -/

namespace DenseMap

/-- Counterpart of `find`: the value bound to the key, `none` for `end()`. -/
def find {V : Type} (m : List (Nat × V)) (k : Nat) : Option V :=
  m.lookup k

/-- Counterpart of `insert`: adds the pair when the key is absent and leaves
the map alone when the key is already bound (it does not overwrite). -/
def insert {V : Type} (m : List (Nat × V)) (k : Nat) (v : V) : List (Nat × V) :=
  match m.lookup k with
  | some _ => m
  | none => m ++ [(k, v)]

/-- Counterpart of `it->second = v` for the iterator that `find(k)` returned:
overwrites the value bound to the key. -/
def assign {V : Type} (m : List (Nat × V)) (k : Nat) (v : V) : List (Nat × V) :=
  m.map fun kv => if kv.1 = k then (kv.1, v) else kv

/-- Counterpart of `erase`: unbinds the key. -/
def erase {V : Type} (m : List (Nat × V)) (k : Nat) : List (Nat × V) :=
  m.filter fun kv => kv.1 ≠ k

end DenseMap

/-! ## The builder -/

/-- Counterpart of `isa<cir::AllocaOp>`. -/
def Op.isAlloca (o : Op) : Bool :=
  match o.kind with
  | .alloca _ => true
  | _ => false

/-- The operations of one block, in order. -/
def blockOps (ops : List Op) (b : BlockId) : List Op :=
  ops.filter fun o => o.block = b

/-- Puts `new` immediately before the operation `anchor`. -/
def insertBefore : List Op → Op → Op → List Op
  | [], _, new => [new]
  | x :: xs, anchor, new =>
    if x.id = anchor.id then new :: x :: xs else x :: insertBefore xs anchor new

/-- The block an insertion point lies in. -/
def InsertPoint.block : InsertPoint → BlockId
  | .atEnd b => b
  | .before o => o.block

/-- Puts an operation at an insertion point. -/
def insertOp (ops : List Op) (pt : InsertPoint) (new : Op) : List Op :=
  match pt with
  | .atEnd _ => ops ++ [new]
  | .before anchor => insertBefore ops anchor new

/-- Counterpart of `getBestAllocaInsertPoint`: right after the last alloca of
the block, or at the beginning of the block when it has none. -/
def getBestAllocaInsertPoint (ops : List Op) (b : BlockId) : InsertPoint :=
  match ((blockOps ops b).reverse.takeWhile fun o => !o.isAlloca).reverse with
  | [] => .atEnd b
  | o :: _ => .before o

/-- Counterpart of `builder.create<OpTy>` at a given insertion point; the
builder's own insertion point stays where it is. -/
def createOpAt (pt : InsertPoint) (k : OpKind) : M Op := fun s =>
  let op : Op := { id := s.nextId, block := pt.block, kind := k }
  .ok op { s with ops := insertOp s.ops pt op
                  nextId := s.nextId + 1
                  trace := s.trace ++ [.created op] }

/-- Counterpart of `builder.create<OpTy>`: the new operation. -/
def createOp (k : OpKind) : M Op := fun s => createOpAt s.insertPt k s

/-- Counterpart of `builder.create<OpTy>`: the result of the new operation. -/
def create (k : OpKind) : M Value :=
  M.bind (createOp k) fun op => M.ret op.id

/-- A block that no operation uses yet. -/
def freshBlock : M BlockId := fun s =>
  .ok s.nextBlock { s with nextBlock := s.nextBlock + 1 }

/-- Counterpart of `builder.setInsertionPoint` and its variants. -/
def setInsertionPoint (pt : InsertPoint) : M Unit :=
  M.modify fun s => { s with insertPt := pt }

/-- Counterpart of a block guarded by `mlir::OpBuilder::InsertionGuard`: the
insertion point of before the block is back once the block is left. -/
def withInsertionGuard {α : Type} (m : M α) : M α := fun s =>
  match m s with
  | .ok a s' => .ok a { s' with insertPt := s.insertPt }
  | .fault f s' => .fault f s'

/-- Runs a region-builder callback: its operations go to the end of the
region's block, and the builder then returns to where it was. -/
def inRegion {α : Type} (region : BlockId) (body : M α) : M α :=
  withInsertionGuard (M.bind (setInsertionPoint (.atEnd region)) fun _ => body)

/-- Counterpart of `builder.createBlock(region)`: a new block, which becomes
the insertion point. -/
def createBlock : M BlockId :=
  M.bind freshBlock fun b => M.bind (setInsertionPoint (.atEnd b)) fun _ => M.ret b

/-- Counterpart of `builder.create<cir::IfOp>` without else region. -/
def createIfOp (cond : Value) (thenBuilder : M Unit) : M Value :=
  M.bind freshBlock fun r =>
  M.bind (create (.ifOp cond r)) fun v =>
  M.bind (inRegion r thenBuilder) fun _ => M.ret v

/-- Counterpart of `builder.create<cir::AwaitOp>` with its three region
builders; what the resume builder computes is handed out. -/
def createAwaitOp {α : Type} (kind : AwaitKind) (readyBuilder suspendBuilder : M Unit)
    (resumeBuilder : M α) : M α :=
  M.bind freshBlock fun r1 =>
  M.bind freshBlock fun r2 =>
  M.bind freshBlock fun r3 =>
  M.bind (create (.await kind r1 r2 r3)) fun _ =>
  M.bind (inRegion r1 readyBuilder) fun _ =>
  M.bind (inRegion r2 suspendBuilder) fun _ =>
  inRegion r3 resumeBuilder

/-- Counterpart of `emitAlloca(name, ty, loc, alignment, ip)`. -/
def emitAlloca (name : String) (ip : InsertPoint) : M Value :=
  M.bind (createOpAt ip (.alloca name)) fun op => M.ret op.id

/-! ## Values of expressions -/

/-- The type `RValue`: a scalar (a null scalar is the ignored value), a
complex pair or the address of an aggregate. -/
inductive RValue where
  | scalar (v : Option Value)
  | complex (re im : Value)
  | aggregate (addr : Value)
  deriving DecidableEq, Repr

namespace RValue

/-- Counterpart of `RValue::isScalar`. -/
def isScalar : RValue → Bool
  | .scalar _ => true
  | _ => false

/-- Counterpart of `RValue::isAggregate`. -/
def isAggregate : RValue → Bool
  | .aggregate _ => true
  | _ => false

/-- Counterpart of `RValue::isIgnored`: a scalar with a null value. -/
def isIgnored : RValue → Bool
  | .scalar none => true
  | _ => false

/-- Counterpart of `RValue::getScalarVal`, with its assertion. -/
def getScalarVal : RValue → M (Option Value)
  | .scalar v => M.ret v
  | _ => M.fail (.assertion "Not a scalar!")

end RValue

/-- The type `LValue`; `none` is the default-constructed one. -/
abbrev LValue := Option Value

/-- The pair `LValueOrRValue` of the source, default-constructed. -/
structure LValueOrRValue where
  LV : LValue := none
  RV : RValue := .scalar none
  deriving DecidableEq, Repr

/-! ## The expression engine -/

/-- The values the opaque-value table binds the placeholders to, `none` when
one of them is unbound. -/
def lookupOpaqueValues (table : List (OpaqueValueExpr × Value)) :
    List OpaqueValueExpr → Option (List Value)
  | [] => some []
  | ov :: rest =>
    match DenseMap.find table ov, lookupOpaqueValues table rest with
    | some v, some vs => some (v :: vs)
    | _, _ => none

/-- Modelled from the spec: the lowering of one expression by the expression
engine (not in this file).  Each opaque placeholder the expression refers to is
resolved through the opaque-value table, and it is an invariant violation if
one has no binding; then the operations of the expression are emitted. -/
def lowerExpr (E : Expr) : M Value :=
  M.bind M.get fun s =>
  match lookupOpaqueValues s.OpaqueValues E.opaqueRefs with
  | some operands => create (.lowered E.label operands)
  | none => M.fail (.assertion "no mapping for opaque value!")

/-- Modelled from the spec: `emitScalarExpr` of the expression engine (not in
this file), the capability "lower this expression to a value".  It emits the
operations of the expression and returns their value, the null value for an
expression of type void. -/
def emitScalarExpr (E : Expr) : M (Option Value) :=
  M.bind (lowerExpr E) fun v =>
  M.ret (if E.isVoidType then none else some v)

/-- Modelled from the spec: `evaluateExprAsBool` of the expression engine. -/
def evaluateExprAsBool (E : Expr) : M Value :=
  lowerExpr E

/-- Modelled from the spec: `emitLValue` of the expression engine. -/
def emitLValue (E : Expr) : M LValue :=
  M.bind (lowerExpr E) fun v => M.ret (some v)

/-- Modelled from the spec: `emitAnyExpr` of the expression engine.  It
dispatches on the evaluation kind of the type; `ignoreResult` is only a hint
for aggregates, so a scalar expression hands back its value either way. -/
def emitAnyExpr (E : Expr) (_aggSlot : AggValueSlot) (_ignoreResult : Bool) : M RValue :=
  match E.evalKind with
  | .TEK_Scalar => M.bind (emitScalarExpr E) fun v => M.ret (.scalar v)
  | .TEK_Complex => M.bind (lowerExpr E) fun v => M.ret (.complex v v)
  | .TEK_Aggregate => M.bind (lowerExpr E) fun v => M.ret (.aggregate v)

/-- Modelled from the spec: `emitIgnoredExpr` of the expression engine. -/
def emitIgnoredExpr (E : Expr) : M Unit :=
  M.bind (emitAnyExpr E { isIgnored := true } true) fun _ => M.ret ()

/-- Modelled from the spec: `emitAnyExprToMem` of the expression engine. -/
def emitAnyExprToMem (E : Expr) (addr : Value) : M Unit :=
  M.bind (create (.exprToMem E.label addr)) fun _ => M.ret ()

/-! ## The lexical-scope tracker -/

/-- Counterpart of `currLexScope->hasCoreturn()`. -/
def hasCoreturn : M Bool := fun s => .ok s.currLexScope.HasCoreturn s

/-- Counterpart of `currLexScope->setCoreturn()`. -/
def setCoreturn : M Unit :=
  M.modify fun s => { s with currLexScope := { s.currLexScope with HasCoreturn := true } }

/-- Counterpart of `currLexScope->getEntryBlock()`. -/
def getEntryBlock : M BlockId := fun s => .ok s.currLexScope.EntryBlock s

/-- Modelled from the spec: `LexicalScope::getOrCreateRetBlock` (not in this
file), "create-or-reuse a shared return block". -/
def getOrCreateRetBlock : M BlockId := fun s =>
  match s.currLexScope.RetBlock with
  | some b => .ok b s
  | none =>
    .ok s.nextBlock { s with nextBlock := s.nextBlock + 1
                             currLexScope := { s.currLexScope with RetBlock := some s.nextBlock } }

/-- Modelled from the spec: a statement lowered in a lexical scope of its own
(the constructor and destructor of `LexicalScope`, not in this file).  The new
scope starts without a recorded `co_return`; when it is left, the scope that
was current before is current again. -/
def withLexicalScope {α : Type} (mkOp : BlockId → OpKind) (body : M α) : M α :=
  M.bind freshBlock fun b =>
  M.bind (create (mkOp b)) fun _ =>
  M.bind M.get fun s0 =>
  M.bind (inRegion b
    (M.bind (M.modify fun s => { s with currLexScope := { EntryBlock := b } }) fun _ =>
     body)) fun a =>
  M.bind (M.modify fun s => { s with currLexScope := s0.currLexScope }) fun _ =>
  M.ret a

/-! ## The opaque-value table -/

/-- The record `OpaqueValueMappingData`: which placeholder it bound. -/
structure OpaqueValueMappingData where
  OpaqueValue : OpaqueValueExpr

/-- Modelled from the spec: `OpaqueValueMappingData::bind` (not in this file).
It lowers the common subexpression and binds the placeholder to the result. -/
def OpaqueValueMappingData.bind (ov : OpaqueValueExpr) (e : Expr) :
    M OpaqueValueMappingData :=
  M.bind (lowerExpr e) fun v =>
  M.bind (M.modify fun s => { s with OpaqueValues := DenseMap.insert s.OpaqueValues ov v }) fun _ =>
  M.ret { OpaqueValue := ov }

/-- Modelled from the spec: `OpaqueValueMappingData::unbind` (not in this
file): the placeholder is unbound. -/
def OpaqueValueMappingData.unbind (d : OpaqueValueMappingData) : M Unit :=
  M.modify fun s => { s with OpaqueValues := DenseMap.erase s.OpaqueValues d.OpaqueValue }

/-! ## Per-function coroutine state -/

/-- Counterpart of `*CurCoro.Data`; a null `Data` cannot be dereferenced. -/
def getCoroData : M CGCoroData := fun s =>
  match s.CurCoro.Data with
  | some d => .ok d s
  | none => .fault (.undefinedBehaviour "CurCoro.Data is null") s

/-- Counterpart of an assignment through `CurCoro.Data->`. -/
def modifyCoroData (f : CGCoroData → CGCoroData) : M Unit := fun s =>
  match s.CurCoro.Data with
  | some d => .ok () { s with CurCoro := { Data := some (f d) } }
  | none => .fault (.undefinedBehaviour "CurCoro.Data is null") s

/-- The function `createCoroData` (lines 52-63). -/
def createCoroData (CoroId : Value) : M Unit := fun s =>
  match s.CurCoro.Data with
  | some _ => .fault (.unreachable "EmitCoroutineBodyStatement called twice?") s
  | none => .ok () { s with CurCoro := { Data := some { CoroId := some CoroId } } }

/-! ## Parameter copies -/

/-- The visitor `GetParamRef` (lines 70-84): the `DeclRefExpr` found so far,
kept as the declaration it names. -/
structure GetParamRef where
  Expr : Option Decl := none
  deriving DecidableEq, Repr

mutual

/-- Counterpart of `GetParamRef::Visit`: `VisitDeclRefExpr` on a reference to
a declaration, `VisitStmt` on everything else. -/
def GetParamRef.Visit : CIRGen.Expr → GetParamRef → Except Fault GetParamRef
  | .mk _ (.DeclRefExpr d) _ _ _, V =>
    match V.Expr with
    | none => .ok { Expr := some d }
    | some _ => .error (.assertion "multilple declref in param move")
  | .mk _ (.CXXMemberCallExpr _) _ _ cs, V => GetParamRef.VisitChildren cs V
  | .mk _ .InitListExpr _ _ cs, V => GetParamRef.VisitChildren cs V
  | .mk _ .ParenExpr _ _ cs, V => GetParamRef.VisitChildren cs V
  | .mk _ (.OpaqueValueExpr _) _ _ cs, V => GetParamRef.VisitChildren cs V
  | .mk _ .Other _ _ cs, V => GetParamRef.VisitChildren cs V

/-- The loop of `GetParamRef::VisitStmt` over the children, null ones skipped. -/
def GetParamRef.VisitChildren : List (Option CIRGen.Expr) → GetParamRef → Except Fault GetParamRef
  | [], V => .ok V
  | none :: cs, V => GetParamRef.VisitChildren cs V
  | some C :: cs, V =>
    match GetParamRef.Visit C V with
    | .ok V' => GetParamRef.VisitChildren cs V'
    | .error f => .error f

end

mutual

/-- The declarations the expression refers to (its `DeclRefExpr` nodes, which
are leaves), in source order. -/
def Expr.declRefs : CIRGen.Expr → List Decl
  | .mk _ (.DeclRefExpr d) _ _ _ => [d]
  | .mk _ (.CXXMemberCallExpr _) _ _ cs => Expr.declRefsOfChildren cs
  | .mk _ .InitListExpr _ _ cs => Expr.declRefsOfChildren cs
  | .mk _ .ParenExpr _ _ cs => Expr.declRefsOfChildren cs
  | .mk _ (.OpaqueValueExpr _) _ _ cs => Expr.declRefsOfChildren cs
  | .mk _ .Other _ _ cs => Expr.declRefsOfChildren cs

/-- The declarations the children refer to. -/
def Expr.declRefsOfChildren : List (Option CIRGen.Expr) → List Decl
  | [] => []
  | none :: cs => Expr.declRefsOfChildren cs
  | some c :: cs => Expr.declRefs c ++ Expr.declRefsOfChildren cs

end

/-- What a visitor that starts as `V` holds after it has come across the
references `refs` in order: the first one, and it is an invariant violation
("multilple declref in param move") to come across another. -/
def GetParamRef.record (V : GetParamRef) : List Decl → Except Fault GetParamRef
  | [] => .ok V
  | d :: rest =>
    match V.Expr with
    | none => GetParamRef.record { Expr := some d } rest
    | some _ => .error (.assertion "multilple declref in param move")

/-- The guard `ParamReferenceReplacerRAII` (lines 89-122).  Its reference
`LocalDeclMap` is the map of the function-lowering context. -/
structure ParamReferenceReplacerRAII where
  SavedLocals : DeclMapTy := []

/-- The method `ParamReferenceReplacerRAII::addCopy` (lines 96-115). -/
def ParamReferenceReplacerRAII.addCopy (R : ParamReferenceReplacerRAII) (PM : Stmt) :
    M ParamReferenceReplacerRAII :=
  match PM with
  | .DeclStmt [VD] _ =>
    match GetParamRef.Visit VD.Init {} with
    | .error f => M.fail f
    | .ok Visitor =>
      match Visitor.Expr with
      | none => M.fail (.assertion "Visitor.Expr")
      | some PD => fun s =>
        match DenseMap.find s.LocalDeclMap PD with
        | none => .fault (.assertion "parameter is not found") s
        | some saved =>
          match DenseMap.find s.LocalDeclMap VD.decl with
          | none => .fault (.assertion "parameter copy is not found") s
          | some copy =>
            .ok { SavedLocals := DenseMap.insert R.SavedLocals PD saved }
                { s with LocalDeclMap := DenseMap.assign s.LocalDeclMap PD copy }
  | .DeclStmt _ _ => M.fail (.assertion "PM->isSingleDecl()")
  | _ => M.fail (.assertion "cast<Ty>() argument of incompatible type!")

/-- The destructor `~ParamReferenceReplacerRAII` (lines 117-121). -/
def ParamReferenceReplacerRAII.destructor (R : ParamReferenceReplacerRAII) : M Unit :=
  M.modify fun s =>
    { s with LocalDeclMap :=
        (R.SavedLocals.foldl (fun m SavedLocal => DenseMap.insert m SavedLocal.1 SavedLocal.2)
          s.LocalDeclMap) }

/-! ## Builtin calls -/

/-- The name `CGM.builtinCoroId`. -/
def builtinCoroId : String := "__builtin_coro_id"

/-- The name `CGM.builtinCoroAlloc`. -/
def builtinCoroAlloc : String := "__builtin_coro_alloc"

/-- The name `CGM.builtinCoroBegin`. -/
def builtinCoroBegin : String := "__builtin_coro_begin"

/-- The lookup `CGM.getGlobalValue(name)` followed, when it finds nothing, by
`CGM.createCIRFunction` marked as builtin. -/
def getOrCreateBuiltin (name : String) : M Unit :=
  M.modify fun s =>
    { s with globals := if s.globals.contains name then s.globals else name :: s.globals }

/-- The function `emitCoroIDBuiltinCall` (lines 161-184). -/
def emitCoroIDBuiltinCall (nullPtr : Value) : M Value :=
  M.bind M.get fun s =>
  let NewAlign := (s.NewAlign / s.CharWidth) % 2 ^ 32
  M.bind (getOrCreateBuiltin builtinCoroId) fun _ =>
  M.bind (create (.constant (.uint32 NewAlign))) fun align =>
  create (.call builtinCoroId [align, nullPtr, nullPtr, nullPtr])

/-- The function `emitCoroAllocBuiltinCall` (lines 186-204). -/
def emitCoroAllocBuiltinCall : M Value :=
  M.bind (getOrCreateBuiltin builtinCoroAlloc) fun _ =>
  M.bind getCoroData fun Data =>
  match Data.CoroId with
  | some CoroId => create (.call builtinCoroAlloc [CoroId])
  | none => M.fail (.undefinedBehaviour "CoroId is null")

/-- The function `emitCoroBeginBuiltinCall` (lines 206-226). -/
def emitCoroBeginBuiltinCall (coroframeAddr : Value) : M Value :=
  M.bind (getOrCreateBuiltin builtinCoroBegin) fun _ =>
  M.bind getCoroData fun Data =>
  match Data.CoroId with
  | some CoroId => create (.call builtinCoroBegin [CoroId, coroframeAddr])
  | none => M.fail (.undefinedBehaviour "CoroId is null")

/-! ## Suspend expressions -/

/-- The function `memberCallExpressionCanThrow` (lines 376-384). -/
def memberCallExpressionCanThrow (E : Expr) : Bool :=
  match E.cls with
  | .CXXMemberCallExpr (some Proto) =>
    if Proto.isNoexceptExceptionSpec && Proto.canThrow == .CT_Cannot then false else true
  | _ => true

/-- The function `emitSuspendExpression` (lines 408-491).  The reference
parameter `tmpResumeRValAddr` is handed in and handed back. -/
def emitSuspendExpression (Coro : CGCoroData) (S : CoroutineSuspendExpr) (Kind : AwaitKind)
    (aggSlot : AggValueSlot) (ignoreResult : Bool) (scopeParentBlock : BlockId)
    (tmpResumeRValAddr : Option Value) (forLValue : Bool) :
    M (LValueOrRValue × Option Value) :=
  let E := S.CommonExpr
  M.bind (OpaqueValueMappingData.bind S.OpaqueValue E) fun Binder =>
  M.bind (createAwaitOp Kind
    -- readyBuilder
    (let condExpr := S.ReadyExpr.IgnoreParens
     M.bind (evaluateExprAsBool condExpr) fun c =>
     M.bind (create (.condition c)) fun _ => M.ret ())
    -- suspendBuilder
    (M.bind (emitScalarExpr S.SuspendExpr) fun suspendRet =>
     match suspendRet with
     | some _ => M.fail (.unreachable "NYI")
     | none => M.bind (create .yield) fun _ => M.ret ())
    -- resumeBuilder
    (M.bind (if Coro.ExceptionHandler.isSome && Kind == .Init &&
                memberCallExpressionCanThrow S.ResumeExpr
             then M.fail (.unreachable "NYI") else M.ret ()) fun _ =>
     M.bind
       (if forLValue then
          M.bind (emitLValue S.ResumeExpr) fun LV =>
          M.ret (({ LV := LV } : LValueOrRValue), tmpResumeRValAddr)
        else
          M.bind (emitAnyExpr S.ResumeExpr aggSlot ignoreResult) fun RV =>
          match RV with
          | .scalar none => M.ret ({ RV := RV }, tmpResumeRValAddr)
          | .scalar (some v) =>
            M.bind M.get fun s =>
            M.bind (emitAlloca "__coawait_resume_rval"
                      (getBestAllocaInsertPoint s.ops scopeParentBlock)) fun addr =>
            M.bind (create (.store v addr)) fun _ =>
            M.ret ({ RV := RV }, some addr)
          | _ => M.bind RV.getScalarVal fun _ => M.ret ({ RV := RV }, tmpResumeRValAddr))
       fun res =>
     M.bind (create .yield) fun _ => M.ret res))
    fun awaitRes =>
  M.bind Binder.unbind fun _ => M.ret awaitRes

/-- The function `emitSuspendExpr` (lines 493-530). -/
def emitSuspendExpr (E : CoroutineSuspendExpr) (kind : AwaitKind) (aggSlot : AggValueSlot)
    (ignoreResult : Bool) : M RValue :=
  M.bind getEntryBlock fun currEntryBlock =>
  M.bind getCoroData fun Data =>
  M.bind (emitSuspendExpression Data E kind aggSlot ignoreResult currEntryBlock none false)
    fun res =>
  let rval := res.1.RV
  let tmpResumeRValAddr := res.2
  if ignoreResult || rval.isIgnored then M.ret rval
  else if rval.isScalar then
    match tmpResumeRValAddr with
    | some addr => M.bind (create (.load addr)) fun v => M.ret (.scalar (some v))
    | none => M.fail (.undefinedBehaviour "tmpResumeRValAddr is null")
  else if rval.isAggregate then M.fail (.unreachable "NYI")
  else M.fail (.unreachable "NYI")

/-- The function `emitCoawaitExpr` (lines 532-537). -/
def emitCoawaitExpr (E : CoroutineSuspendExpr) (aggSlot : AggValueSlot) (ignoreResult : Bool) :
    M RValue :=
  M.bind getCoroData fun Data =>
  emitSuspendExpr E Data.CurrentAwaitKind aggSlot ignoreResult

/-- The function `emitCoyieldExpr` (lines 539-544). -/
def emitCoyieldExpr (E : CoroutineSuspendExpr) (aggSlot : AggValueSlot) (ignoreResult : Bool) :
    M RValue :=
  emitSuspendExpr E .Yield aggSlot ignoreResult

/-! ## Statements -/

/-- The method `CIRGenFunction::emitCoreturnStmt` (lines 546-573).  The call
`emitStmt(S.getPromiseCall())` is handed in as `emitPromiseCall`, since the
statement engine is defined after this function. -/
def emitCoreturnStmt (emitPromiseCall : M LogicalResult) (Operand : Option Expr) :
    M LogicalResult :=
  M.bind (modifyCoroData fun d => { d with CoreturnCount := (d.CoreturnCount + 1) % 2 ^ 32 })
    fun _ =>
  M.bind setCoreturn fun _ =>
  M.bind (match Operand with
          | some RV =>
            if RV.isVoidType && !RV.isInitListExpr then emitIgnoredExpr RV else M.ret ()
          | none => M.ret ()) fun _ =>
  M.andThen emitPromiseCall
    (M.bind getOrCreateRetBlock fun retBlock =>
     M.bind (createOp (.br retBlock)) fun br =>
     M.bind (modifyCoroData fun d => { d with FinalSuspendInsPoint := some br }) fun _ =>
     M.bind createBlock fun _ =>
     M.ret .success)

/-- Modelled from the spec: what the engine does for one declared variable
(`emitVarDecl`, not in this file): a slot in the entry block of the scope, the
binding of the variable to that slot, and the initializer. -/
def emitVarDecl (VD : VarDecl) : M Unit :=
  M.bind M.get fun s =>
  M.bind (emitAlloca "" (getBestAllocaInsertPoint s.ops s.currLexScope.EntryBlock)) fun addr =>
  M.bind (M.assert (DenseMap.find s.LocalDeclMap VD.decl).isNone
            "Decl already exists in LocalDeclMap!") fun _ =>
  M.bind (M.modify fun s' =>
            { s' with LocalDeclMap := DenseMap.insert s'.LocalDeclMap VD.decl addr }) fun _ =>
  M.bind (create (.exprToMem VD.Init.label addr)) fun _ => M.ret ()

/-- Modelled from the spec: the variables of one declaration statement, in order. -/
def emitDecls : List VarDecl → M Unit
  | [] => M.ret ()
  | VD :: rest => M.bind (emitVarDecl VD) fun _ => emitDecls rest

/-- Modelled from the spec: the engine reports that a statement does not lower. -/
def reportFailure (label : Nat) : M LogicalResult := fun s =>
  .ok .failure { s with trace := s.trace ++ [.failed label] }

/-- Modelled from the spec: the statement engine `emitStmt(S, /*useCurrentScope=*/true)`
(not in this file), the capability "lower this statement and report success
or failure".  Statements of one compound statement are lowered in order, in
the current scope, up to the first that fails; `co_return`, `co_await` and
`co_yield` are dispatched to the methods of this file. -/
def emitStmt : Stmt → M LogicalResult
  | .other label lowers =>
    if lowers then M.bind (create (.lowered label [])) fun _ => M.ret .success
    else reportFailure label
  | .DeclStmt decls lowers =>
    if lowers then M.bind (emitDecls decls) fun _ => M.ret .success
    else reportFailure 0
  | .seq first second => M.andThen (emitStmt first) (emitStmt second)
  | .scope body => withLexicalScope .scopeOp (emitStmt body)
  | .whileTrue body => withLexicalScope .whileOp (emitStmt body)
  | .CoreturnStmt Operand PromiseCall => emitCoreturnStmt (emitStmt PromiseCall) Operand
  | .coawait E aggSlot ignoreResult =>
    M.bind (emitCoawaitExpr E aggSlot ignoreResult) fun _ => M.ret .success
  | .coyield E aggSlot ignoreResult =>
    M.bind (emitCoyieldExpr E aggSlot ignoreResult) fun _ => M.ret .success

/-! ## The coroutine body -/

/-- The function `emitBodyAndFallthrough` (lines 138-159).  Its parameter
`currLexScope` is the current scope of the function-lowering context. -/
def emitBodyAndFallthrough (S : CoroutineBodyStmt) (Body : Stmt) : M LogicalResult :=
  M.andThen (emitStmt Body)
    (M.bind hasCoreturn fun hasCoret =>
     let CanFallthrough := !hasCoret
     if CanFallthrough then
       match S.FallthroughHandler with
       | some OnFallthrough => M.andThen (emitStmt OnFallthrough) (M.ret .success)
       | none => M.ret .success
     else M.ret .success)

/-- The loop over `S.getParamMoves()` in `emitCoroutineBody` (lines 312-316);
it hands back the guard with what `addCopy` saved so far. -/
def emitParamMoves :
    List Stmt → ParamReferenceReplacerRAII → M (LogicalResult × ParamReferenceReplacerRAII)
  | [], ParamReplacer => M.ret (.success, ParamReplacer)
  | PM :: rest, ParamReplacer =>
    M.bind (emitStmt PM) fun r =>
    if r.failed then M.ret (.failure, ParamReplacer)
    else M.bind (ParamReplacer.addCopy PM) fun ParamReplacer' =>
         emitParamMoves rest ParamReplacer'

/-- The part of `emitCoroutineBody` that decides on the final suspend and
lowers it (lines 360-371). -/
def emitFinalSuspend (S : CoroutineBodyStmt) : M LogicalResult :=
  M.bind hasCoreturn fun CanFallthrough =>
  M.bind getCoroData fun Data =>
  let HasCoreturns := decide (Data.CoreturnCount > 0)
  if CanFallthrough || HasCoreturns then
    M.bind (modifyCoroData fun d => { d with CurrentAwaitKind := .Final }) fun _ =>
    M.andThen
      (withInsertionGuard
        (M.bind getCoroData fun Data' =>
         match Data'.FinalSuspendInsPoint with
         | some op =>
           M.bind (setInsertionPoint (.before op)) fun _ => emitStmt S.FinalSuspendStmt
         | none => M.fail (.undefinedBehaviour "FinalSuspendInsPoint is not set")))
      (M.ret .success)
  else M.ret .success

/-- The part of `emitCoroutineBody` from the promise declaration to the final
suspend (lines 318-371). -/
def emitPromiseToFinalSuspend (S : CoroutineBodyStmt) : M LogicalResult :=
  M.andThen (emitStmt S.PromiseDeclStmt)
    (M.bind M.get fun s =>
     M.bind (M.assert (s.ReturnValue.isSome == S.ReturnStmt.isSome)
               "ReturnValue.isValid() == (bool)S.getReturnStmt()") fun _ =>
     M.bind (match s.ReturnValue with
             | some addr => emitAnyExprToMem S.ReturnValue addr
             | none => M.ret ()) fun _ =>
     M.bind (modifyCoroData fun d => { d with CurrentAwaitKind := .Init }) fun _ =>
     M.andThen (emitStmt S.InitSuspendStmt)
       (M.bind (modifyCoroData fun d => { d with CurrentAwaitKind := .User }) fun _ =>
        M.bind (if S.ExceptionHandler.isSome
                then M.assert (!s.missing.unhandledException) "NYI" else M.ret ()) fun _ =>
        M.andThen (emitBodyAndFallthrough S S.Body) (emitFinalSuspend S)))

/-- The braced block of `emitCoroutineBody` in which `ParamReplacer` lives
(lines 293-372); it hands back the guard, whose destructor runs next. -/
def emitCoroutineBodyBlock (S : CoroutineBodyStmt) :
    M (LogicalResult × ParamReferenceReplacerRAII) :=
  M.bind M.get fun s =>
  M.bind (M.assert (!s.missing.generateDebugInfo) "NYI") fun _ =>
  M.bind (M.assert (S.ParamMoves.length == 0 || S.ParamMoves.length == s.FnArgs.length)
            "ParamMoves and FnArgs should be the same size for coroutine function") fun _ =>
  M.bind (M.assert (!s.missing.generateDebugInfo) "NYI") fun _ =>
  M.bind (emitParamMoves S.ParamMoves {}) fun copies =>
  if copies.1.failed then M.ret (.failure, copies.2)
  else M.bind (emitPromiseToFinalSuspend S) fun r => M.ret (r, copies.2)

/-- The part of `emitCoroutineBody` before the braced block (lines 250-291). -/
def emitCoroutineBodyPrologue (S : CoroutineBodyStmt) : M Unit :=
  M.bind (create (.constant .nullPtr)) fun nullPtrCst =>
  M.bind M.get fun s =>
  M.bind (M.assert s.CurFnIsFuncOp "other callables NYI") fun _ =>
  M.bind (M.modify fun s' => { s' with CoroutineAttr := true }) fun _ =>
  M.bind (emitCoroIDBuiltinCall nullPtrCst) fun coroId =>
  M.bind (createCoroData coroId) fun _ =>
  M.bind emitCoroAllocBuiltinCall fun coroAlloc =>
  M.bind M.get fun s1 =>
  M.bind (emitAlloca "__coro_frame_addr"
            (getBestAllocaInsertPoint s1.ops s1.currLexScope.EntryBlock)) fun storeAddr =>
  M.bind (create (.store nullPtrCst storeAddr)) fun _ =>
  M.bind (createIfOp coroAlloc
            (M.bind (emitScalarExpr S.Allocate) fun mem =>
             match mem with
             | some v => M.bind (create (.store v storeAddr)) fun _ =>
                         M.bind (create .yield) fun _ => M.ret ()
             | none => M.fail (.undefinedBehaviour "store of a null value"))) fun _ =>
  M.bind (create (.load storeAddr)) fun frame =>
  M.bind (emitCoroBeginBuiltinCall frame) fun coroBegin =>
  M.bind (modifyCoroData fun d => { d with CoroBegin := some coroBegin }) fun _ =>
  if S.ReturnStmtOnAllocFailure.isSome then M.fail (.unreachable "NYI") else M.ret ()

/-- The method `CIRGenFunction::emitCoroutineBody` (lines 248-374). -/
def emitCoroutineBody (S : CoroutineBodyStmt) : M LogicalResult :=
  M.bind (emitCoroutineBodyPrologue S) fun _ =>
  M.bind (emitCoroutineBodyBlock S) fun res =>
  M.bind res.2.destructor fun _ =>
  M.ret res.1

/-! ## Reading outcomes -/

/-- The context in which a call ended. -/
def Res.state {α : Type} : Res α → CIRGenFunction
  | .ok _ s => s
  | .fault _ s => s

/-- Whether a call returned, and returned the given value. -/
def Res.returns {α : Type} [DecidableEq α] (r : Res α) (v : α) : Bool :=
  match r with
  | .ok a _ => decide (a = v)
  | .fault _ _ => false

/-- The fault in which a call ended, if it did not return. -/
def Res.faultOf {α : Type} : Res α → Option Fault
  | .ok _ _ => none
  | .fault f _ => some f

/-! ## Relations between the context before and after a call -/

/-- However the call ends, the context it started in and the context it ended
in are related by `R`. -/
def Keeps {α : Type} (R : CIRGenFunction → CIRGenFunction → Prop) (m : M α) : Prop :=
  ∀ s, R s (m s).state

/-- A relation that can be chained over consecutive steps. -/
structure Chains (R : CIRGenFunction → CIRGenFunction → Prop) : Prop where
  refl : ∀ s, R s s
  trans : ∀ a b c, R a b → R b c → R a c

/-- The operation kind is no branch to a return block, and it is no await
operation or an await operation of a kind that `A` admits. -/
def Admits (A : AwaitKind → Prop) (k : OpKind) : Prop :=
  (∀ kind r1 r2 r3, k = .await kind r1 r2 r3 → A kind) ∧ ∀ b, k ≠ .br b

/-- A chainable relation that every step of the builder respects: creating an
admitted operation anywhere, taking a fresh block, moving the insertion point. -/
structure BuilderStable (A : AwaitKind → Prop)
    (R : CIRGenFunction → CIRGenFunction → Prop) extends Chains R : Prop where
  op : ∀ s pt k, Admits A k → R s (createOpAt pt k s).state
  block : ∀ s, R s { s with nextBlock := s.nextBlock + 1 }
  insertPt : ∀ s pt, R s { s with insertPt := pt }

/-- The relation respects every change of the opaque-value table. -/
def OpaqueStable (R : CIRGenFunction → CIRGenFunction → Prop) : Prop :=
  ∀ s t, R s { s with OpaqueValues := t }

/-- The relation respects every change of the current lexical scope. -/
def ScopeStable (R : CIRGenFunction → CIRGenFunction → Prop) : Prop :=
  ∀ s sc, R s { s with currLexScope := sc }

/-- The relation respects every change of the local-declaration map. -/
def DeclMapStable (R : CIRGenFunction → CIRGenFunction → Prop) : Prop :=
  ∀ s m, R s { s with LocalDeclMap := m }

/-- The relation respects a failure report. -/
def FailureStable (R : CIRGenFunction → CIRGenFunction → Prop) : Prop :=
  ∀ s l, R s { s with trace := s.trace ++ [.failed l] }

/-- What lowering a `co_return` changes in the coroutine record: the counter
and the insertion point of the final suspend, nothing else. -/
def CoreturnUpdate (d d' : CGCoroData) : Prop :=
  d'.CurrentAwaitKind = d.CurrentAwaitKind ∧ d'.CoroId = d.CoroId ∧
  d'.CoroBegin = d.CoroBegin ∧ d'.ExceptionHandler = d.ExceptionHandler

/-- The relation respects the increment of `CoreturnCount`. -/
def CountStable (R : CIRGenFunction → CIRGenFunction → Prop) : Prop :=
  ∀ s d, s.CurCoro.Data = some d →
    R s { s with CurCoro :=
      { Data := some { d with CoreturnCount := (d.CoreturnCount + 1) % 2 ^ 32 } } }

/-- The two steps with which a `co_return` ends (lines 564-565): the branch to
the return block is created and recorded as the insertion point of the final
suspend. -/
def emitBranchToRetBlock (retBlock : BlockId) : M Unit :=
  M.bind (createOp (.br retBlock)) fun br =>
  modifyCoroData fun d => { d with FinalSuspendInsPoint := some br }

/-- The relation respects the creation of the branch of a `co_return` together
with its recording. -/
def BranchStable (R : CIRGenFunction → CIRGenFunction → Prop) : Prop :=
  ∀ retBlock, Keeps R (emitBranchToRetBlock retBlock)

/-- The part `π` of the context is the same before and after. -/
def Same {β : Type} (π : CIRGenFunction → β) : CIRGenFunction → CIRGenFunction → Prop :=
  fun s s' => π s' = π s

/-- The trace after is the trace before followed by events that satisfy `p`. -/
def Grows (p : Event → Prop) : CIRGenFunction → CIRGenFunction → Prop :=
  fun s s' => ∃ seg, s'.trace = s.trace ++ seg ∧ ∀ ev ∈ seg, p ev

/-! ## What a suspend point leaves in the trace -/

/-- The events with which the lowering of a suspend point begins, when it
starts with `n` as the next operation id, `b` as the current block and `B` as
the next fresh block: the common subexpression, the await operation, and the
ready, suspend and resume expressions in the three regions `B`, `B + 1`,
`B + 2`.  The four lists are the values the opaque placeholders of the four
expressions were resolved to. -/
def suspendPointEvents (S : CoroutineSuspendExpr) (Kind : AwaitKind) (n : Nat) (b B : BlockId)
    (common ready suspend resume : List Value) : List Event :=
  [ .created { id := n, block := b, kind := .lowered S.CommonExpr.label common },
    .created { id := n + 1, block := b, kind := .await Kind B (B + 1) (B + 2) },
    .created { id := n + 2, block := B,
               kind := .lowered S.ReadyExpr.IgnoreParens.label ready },
    .created { id := n + 3, block := B, kind := .condition (n + 2) },
    .created { id := n + 4, block := B + 1, kind := .lowered S.SuspendExpr.label suspend },
    .created { id := n + 5, block := B + 1, kind := .yield },
    .created { id := n + 6, block := B + 2, kind := .lowered S.ResumeExpr.label resume } ]

/-- The event is no lowering of an expression or statement by the engine. -/
def Event.isNoLowering : Event → Bool
  | .created { id := _, block := _, kind := .lowered _ _ } => false
  | _ => true

/-- The event is the creation of a stack slot (an alloca operation). -/
def Event.isAlloca : Event → Bool
  | .created { id := _, block := _, kind := .alloca _ } => true
  | _ => false

/-- The event is the creation of a store operation. -/
def Event.isStore : Event → Bool
  | .created { id := _, block := _, kind := .store _ _ } => true
  | _ => false

/-- The event is the creation of a load operation. -/
def Event.isLoad : Event → Bool
  | .created { id := _, block := _, kind := .load _ } => true
  | _ => false

/-! ## Static counts and the observable "final suspend lowered" -/

/-- Number of `co_return` statements in a statement. -/
def Stmt.coreturns : Stmt → Nat
  | .other _ _ => 0
  | .DeclStmt _ _ => 0
  | .seq first second => first.coreturns + second.coreturns
  | .scope body => body.coreturns
  | .whileTrue body => body.coreturns
  | .CoreturnStmt _ PromiseCall => 1 + PromiseCall.coreturns
  | .coawait _ _ _ => 0
  | .coyield _ _ _ => 0

/-- Whether the statement has a `co_return` that belongs to the lexical scope
the statement itself is in, i.e. one that is not inside a nested scope. -/
def Stmt.coreturnInScope : Stmt → Bool
  | .other _ _ => false
  | .DeclStmt _ _ => false
  | .seq first second => first.coreturnInScope || second.coreturnInScope
  | .scope _ => false
  | .whileTrue _ => false
  | .CoreturnStmt _ _ => true
  | .coawait _ _ _ => false
  | .coyield _ _ _ => false

/-- The event is the creation of an await operation of kind `Final`: a
final-suspend region in the emitted representation. -/
def Event.isFinalAwait : Event → Bool
  | .created { id := _, block := _, kind := .await .Final _ _ _ } => true
  | _ => false

/-- The events that were added to the trace between two contexts. -/
def newEvents (s s' : CIRGenFunction) : List Event :=
  s'.trace.drop s.trace.length

/-- Between the two contexts a final-suspend region was emitted. -/
def finalSuspendLowered (s s' : CIRGenFunction) : Bool :=
  (newEvents s s').any Event.isFinalAwait

/-- The value of `CoreturnCount` in a context, `none` without coroutine state. -/
def coreturnCount (s : CIRGenFunction) : Option Nat :=
  s.CurCoro.Data.map (·.CoreturnCount)

/-- The await operations among the event, if it is one, have a kind in `A`. -/
def AwaitsIn (A : AwaitKind → Prop) (ev : Event) : Prop :=
  ∀ op, ev = .created op → ∀ kind r1 r2 r3, op.kind = .await kind r1 r2 r3 → A kind

/-- The counter `c` after `n` executions of `++CoreturnCount`, an `unsigned`. -/
def bump (c n : Nat) : Nat :=
  if n = 0 then c else (c + n) % 2 ^ 32

/-- What lowering the statement `st` successfully does to the coroutine record
and to the flag of the current lexical scope: the counter goes up by the number
of `co_return` statements in `st`; without one the record is untouched, with
one the insertion point of the final suspend is set. -/
def CoreturnEffect (st : Stmt) (s s' : CIRGenFunction) : Prop :=
  (∀ d, s.CurCoro.Data = some d →
    ∃ d', s'.CurCoro.Data = some d' ∧ CoreturnUpdate d d' ∧
      d'.CoreturnCount = bump d.CoreturnCount st.coreturns ∧
      (st.coreturns = 0 → d' = d) ∧
      (0 < st.coreturns → ∃ br, d'.FinalSuspendInsPoint = some br)) ∧
  s'.currLexScope.HasCoreturn = (s.currLexScope.HasCoreturn || st.coreturnInScope)

/-- The coroutine record and the current lexical scope of a context. -/
def coroAndScope (s : CIRGenFunction) : CGCoroInfo × LexicalScope :=
  (s.CurCoro, s.currLexScope)

/-- While the current await kind is `k`, it stays `k`, and every await operation
that is created has kind `k` or `Yield`. -/
def KindTrace (k : AwaitKind) (s s' : CIRGenFunction) : Prop :=
  (∃ d, s.CurCoro.Data = some d ∧ d.CurrentAwaitKind = k) →
    (∃ d', s'.CurCoro.Data = some d' ∧ d'.CurrentAwaitKind = k) ∧
    Grows (AwaitsIn fun x => x = k ∨ x = .Yield) s s'

/-- Whether a `co_return` is recorded in the current lexical scope when the
body has been lowered, given the flag `flag0` at the start. -/
def CoroutineBodyStmt.flagAfterBody (S : CoroutineBodyStmt) (flag0 : Bool) : Bool :=
  flag0 || S.PromiseDeclStmt.coreturnInScope || S.InitSuspendStmt.coreturnInScope ||
    S.Body.coreturnInScope

/-- Number of `co_return` statements in the fallthrough handler, if it is
lowered: it is lowered when no `co_return` is recorded in the current scope
after the body. -/
def CoroutineBodyStmt.handlerCoreturns (S : CoroutineBodyStmt) (flag0 : Bool) : Nat :=
  match S.FallthroughHandler with
  | some OnFallthrough => if S.flagAfterBody flag0 then 0 else OnFallthrough.coreturns
  | none => 0

/-- Number of `co_return` statements lowered before the decision on the final
suspend: those of the promise declaration, of the initial suspend and of the
body, and those of the fallthrough handler if it is lowered. -/
def CoroutineBodyStmt.loweredCoreturns (S : CoroutineBodyStmt) (flag0 : Bool) : Nat :=
  S.PromiseDeclStmt.coreturns + S.InitSuspendStmt.coreturns + S.Body.coreturns +
    S.handlerCoreturns flag0

/-- Whether a `co_return` is recorded in the current lexical scope when the
final suspend is decided on. -/
def CoroutineBodyStmt.flagAtFinal (S : CoroutineBodyStmt) (flag0 : Bool) : Bool :=
  S.flagAfterBody flag0 ||
    (match S.FallthroughHandler with
     | some OnFallthrough => OnFallthrough.coreturnInScope
     | none => false)

/-- No final-suspend region is emitted between the two contexts. -/
def NoFinalAwait : CIRGenFunction → CIRGenFunction → Prop :=
  Grows fun ev => ev.isFinalAwait = false

/-- Where a lowering stands relative to the context `s` it started in, after
`n` `co_return` statements of which one belongs to the current scope iff `f`:
the counter, the insertion point of the final suspend, the flag of the current
scope, and no final-suspend region so far. -/
def Progress (n : Nat) (f : Bool) (s t : CIRGenFunction) : Prop :=
  ∃ d dt, s.CurCoro.Data = some d ∧ t.CurCoro.Data = some dt ∧
    dt.CoreturnCount = bump d.CoreturnCount n ∧
    (n = 0 → dt.FinalSuspendInsPoint = d.FinalSuspendInsPoint) ∧
    (0 < n → ∃ br, dt.FinalSuspendInsPoint = some br) ∧
    t.currLexScope.HasCoreturn = (s.currLexScope.HasCoreturn || f) ∧
    NoFinalAwait s t

/-! ## Failure reports in the trace -/

/-- The event is a failure report of the statement engine. -/
def Event.isFailed : Event → Bool
  | .failed _ => true
  | _ => false

/-- The events hold no failure report. -/
def NoFailure (seg : List Event) : Prop :=
  ∀ ev ∈ seg, ev.isFailed = false

/-- The call stops at the first failure the engine reports: among the events
it adds to the trace a failure report can only be the last one, and then the
call returns, with a result that `failed` holds of. -/
def StopsAtFailure {α : Type} (failed : α → Prop) (m : M α) : Prop :=
  ∀ s, ∃ seg, (m s).state.trace = s.trace ++ seg ∧
    (NoFailure seg ∨
      ∃ seg' l a, seg = seg' ++ [.failed l] ∧ NoFailure seg' ∧ m s = .ok a (m s).state ∧
        failed a)

/-- The events added to the trace hold no failure report. -/
def Reportless : CIRGenFunction → CIRGenFunction → Prop :=
  Grows fun ev => ev.isFailed = false

/-! ## Phases of the coroutine body -/

/-- The coroutine record exists and no `co_return` has been lowered: the
await kind is `Init`, the counter is 0 and the insertion point of the final
suspend is unset. -/
def FreshCoro (s : CIRGenFunction) : Prop :=
  ∃ d, s.CurCoro.Data = some d ∧ d.CurrentAwaitKind = .Init ∧ d.CoreturnCount = 0 ∧
    d.FinalSuspendInsPoint = none

/-- What the set-up of the coroutine frame keeps: the current lexical scope,
no final-suspend region, and a fresh coroutine record. -/
def PrologueKeep (s t : CIRGenFunction) : Prop :=
  t.currLexScope = s.currLexScope ∧ NoFinalAwait s t ∧ (FreshCoro s → FreshCoro t)

/-- What a step keeps that touches neither the coroutine record nor the
current lexical scope and emits no final-suspend region. -/
def FrameKeep (s t : CIRGenFunction) : Prop :=
  t.CurCoro = s.CurCoro ∧ t.currLexScope = s.currLexScope ∧ NoFinalAwait s t

/-- The context in which the initial suspend, the body and the final suspend
are lowered: the context `t` with the await kind set to `k`. -/
def withAwaitKind (k : AwaitKind) (t : CIRGenFunction) : CIRGenFunction :=
  { t with CurCoro := { Data := t.CurCoro.Data.map fun d => { d with CurrentAwaitKind := k } } }

/-! ## Weakest preconditions -/

/-- If the call returns, the returned value and the context satisfy `Q`; if it
aborts, the fault satisfies `F`. -/
def M.wp {α : Type} (m : M α) (Q : α → CIRGenFunction → Prop) (F : Fault → Prop)
    (s : CIRGenFunction) : Prop :=
  match m s with
  | .ok a s' => Q a s'
  | .fault f _ => F f

/-- The fault is not the read of `FinalSuspendInsPoint` while it holds no value. -/
abbrev NotUnset (f : Fault) : Prop :=
  f ≠ .undefinedBehaviour "FinalSuspendInsPoint is not set"

/-- The call never ends in the read of an unset `FinalSuspendInsPoint`. -/
def Avoids {α : Type} (m : M α) : Prop :=
  ∀ s, M.wp m (fun _ _ => True) NotUnset s

/-! ## The list of operations and the branches of the `co_return` statements -/

/-- The ids of the operations are distinct and below the next id, so that an
id names one operation. -/
def OpsWellFormed (s : CIRGenFunction) : Prop :=
  (s.ops.map fun o => o.id).Nodup ∧ ∀ o ∈ s.ops, o.id < s.nextId

/-- In the list of operations, the operations `mid` stand immediately before
the operation `br`, in this order, and `br` is the first with its id. -/
def Precedes (mid : List Op) (br : Op) (ops : List Op) : Prop :=
  ∃ pre post, ops = pre ++ mid ++ br :: post ∧ ∀ o ∈ pre ++ mid, o.id ≠ br.id

/-- The operation is a branch (a `cir::BrOp`). -/
def Op.isBranch (o : Op) : Bool :=
  match o.kind with
  | .br _ => true
  | _ => false

/-- The branch that was created last among the events, `ip` when none was. -/
def recordBranches (ip : Option Op) : List Event → Option Op
  | [] => ip
  | .created op :: rest => recordBranches (if op.isBranch then some op else ip) rest
  | .failed _ :: rest => recordBranches ip rest

/-- The ids of the operations stay distinct and below the next id. -/
def WellFormedKept (s t : CIRGenFunction) : Prop :=
  OpsWellFormed s → OpsWellFormed t

/-- No operation is removed, the operations created are among the operations,
and `FinalSuspendInsPoint` follows the branches created: it is the last of
them, and what it was when none was created. -/
def BranchTracked (s t : CIRGenFunction) : Prop :=
  ∃ seg, t.trace = s.trace ++ seg ∧
    (∀ o ∈ s.ops, o ∈ t.ops) ∧
    (∀ op, Event.created op ∈ seg → op ∈ t.ops) ∧
    ∀ d, s.CurCoro.Data = some d →
      ∃ dt, t.CurCoro.Data = some dt ∧
        dt.FinalSuspendInsPoint = recordBranches d.FinalSuspendInsPoint seg

/-- A relation that every step of the lowering of a statement respects,
whatever the kinds of the await operations, and that a change of the current
await kind respects. -/
structure LoweringStable (R : CIRGenFunction → CIRGenFunction → Prop)
    extends BuilderStable (fun _ => True) R : Prop where
  opaqueValues : OpaqueStable R
  scope : ScopeStable R
  declMap : DeclMapStable R
  failure : FailureStable R
  count : CountStable R
  branch : BranchStable R
  kind : ∀ s k, R s (withAwaitKind k s)

/-! ## The events of the set-up of the frame -/

/-- The events of the set-up of the coroutine frame, when it starts with `n`
as the next operation id, the insertion point in block `b`, `e` as the entry
block of the current scope and `r` as the next fresh block: the null pointer
and the alignment, the call of the coro-id builtin, the call of the coro-alloc
builtin, the frame slot with its initialisation to null, the conditional
allocation (the allocation call, the store to the slot) in the region `r`, the
load of the slot and the call of the coro-begin builtin.  The list `allocate`
is the values the opaque placeholders of the allocation call were resolved to. -/
def frameEvents (S : CoroutineBodyStmt) (s : CIRGenFunction) (allocate : List Value) :
    List Event :=
  let n := s.nextId
  let b := s.insertPt.block
  let e := s.currLexScope.EntryBlock
  let r := s.nextBlock
  [ .created { id := n, block := b, kind := .constant .nullPtr },
    .created { id := n + 1, block := b,
               kind := .constant (.uint32 ((s.NewAlign / s.CharWidth) % 2 ^ 32)) },
    .created { id := n + 2, block := b, kind := .call builtinCoroId [n + 1, n, n, n] },
    .created { id := n + 3, block := b, kind := .call builtinCoroAlloc [n + 2] },
    .created { id := n + 4, block := e, kind := .alloca "__coro_frame_addr" },
    .created { id := n + 5, block := b, kind := .store n (n + 4) },
    .created { id := n + 6, block := b, kind := .ifOp (n + 3) r },
    .created { id := n + 7, block := r, kind := .lowered S.Allocate.label allocate },
    .created { id := n + 8, block := r, kind := .store (n + 7) (n + 4) },
    .created { id := n + 9, block := r, kind := .yield },
    .created { id := n + 10, block := b, kind := .load (n + 4) },
    .created { id := n + 11, block := b, kind := .call builtinCoroBegin [n + 2, n + 10] } ]

/-! ## The return block of a `co_return` -/

/-- The destination of a branch operation, `none` for any other operation. -/
def Op.branchDest (o : Op) : Option BlockId :=
  match o.kind with
  | .br dest => some dest
  | _ => none

/-- The destination of the branch that was created last among the events. -/
def lastBranchDest (seg : List Event) : Option BlockId :=
  (recordBranches none seg).bind Op.branchDest

/-- The steps of `emitCoreturnStmt` up to the call
`currLexScope->getOrCreateRetBlock` (lines 546-561), handing back the block
that call returns: the return block of the scope the `co_return` is lowered
in.  It hands back `none` when the promise call fails. -/
def coreturnRetBlock (emitPromiseCall : M LogicalResult) (Operand : Option Expr) :
    M (Option BlockId) :=
  M.bind (modifyCoroData fun d => { d with CoreturnCount := (d.CoreturnCount + 1) % 2 ^ 32 })
    fun _ =>
  M.bind setCoreturn fun _ =>
  M.bind (match Operand with
          | some RV =>
            if RV.isVoidType && !RV.isInitListExpr then emitIgnoredExpr RV else M.ret ()
          | none => M.ret ()) fun _ =>
  M.bind emitPromiseCall fun r =>
  if r.failed then M.ret none
  else M.bind getOrCreateRetBlock fun retBlock => M.ret (some retBlock)

/-- The context in which the body of a statement with a lexical scope of its
own starts to be lowered: what `withLexicalScope` does before it runs the
body. -/
def scopeEntry (mkOp : BlockId → OpKind) (u : CIRGenFunction) : CIRGenFunction :=
  ((M.bind freshBlock fun b =>
    M.bind (create (mkOp b)) fun _ =>
    M.bind (setInsertionPoint (.atEnd b)) fun _ =>
    M.modify fun s => { s with currLexScope := { EntryBlock := b } }) u).state

/-- The return block that `getOrCreateRetBlock` hands to the `co_return` that
is lowered last when the statement is lowered in the context `u`: for two
consecutive statements the one of the second if it lowers a `co_return`, else
the one of the first; for a nested scope the one of its body, lowered in the
context the scope starts in; for a `co_return` the block its own call of
`getOrCreateRetBlock` returns.  It is `none` when no `co_return` is lowered. -/
def Stmt.lastRetBlock : Stmt → CIRGenFunction → Option BlockId
  | .other _ _, _ => none
  | .DeclStmt _ _, _ => none
  | .seq first second, u =>
    match emitStmt first u with
    | .ok .success m =>
      match second.lastRetBlock m with
      | some b => some b
      | none => first.lastRetBlock u
    | _ => none
  | .scope body, u => body.lastRetBlock (scopeEntry .scopeOp u)
  | .whileTrue body, u => body.lastRetBlock (scopeEntry .whileOp u)
  | .CoreturnStmt Operand PromiseCall, u =>
    match coreturnRetBlock (emitStmt PromiseCall) Operand u with
    | .ok (some b) _ => some b
    | _ => none
  | .coawait _ _ _, _ => none
  | .coyield _ _ _, _ => none

/-- The last of the blocks in a list of optional blocks. -/
def lastOf : List (Option BlockId) → Option BlockId
  | [] => none
  | x :: xs =>
    match lastOf xs with
    | some b => some b
    | none => x

/-- The events that are added to the trace are no branch operations. -/
def NoBranch : CIRGenFunction → CIRGenFunction → Prop :=
  Grows fun ev => ∀ op, ev = .created op → op.isBranch = false

/-- The trace after is the trace before followed by more events. -/
def TraceExtends : CIRGenFunction → CIRGenFunction → Prop :=
  Grows fun _ => True

/-! ## Concrete inputs -/

namespace Example

/-- A function-lowering context at the start of a function body: entry block
0 is current, nothing is bound, no coroutine state exists. -/
def context : CIRGenFunction :=
  { currLexScope := { EntryBlock := 0 }, insertPt := .atEnd 0, nextBlock := 1 }

/-- A scalar expression of non-void type. -/
def scalar (label : Nat) : Expr := .mk label .Other false .TEK_Scalar []

/-- An expression of type void. -/
def void (label : Nat) : Expr := .mk label .Other true .TEK_Scalar []

/-- A reference to the opaque placeholder `ov`. -/
def placeholder (ov : OpaqueValueExpr) : Expr :=
  .mk 0 (.OpaqueValueExpr ov) false .TEK_Scalar []

/-- A call `x.f()` of a member function on the placeholder `ov`; the function
may throw or is `noexcept`, and returns void or a scalar. -/
def memberCall (label : Nat) (ov : OpaqueValueExpr) (mayThrow isVoid : Bool) : Expr :=
  .mk label
    (.CXXMemberCallExpr (some { isNoexceptExceptionSpec := !mayThrow,
                                canThrow := if mayThrow then .CT_Can else .CT_Cannot }))
    isVoid .TEK_Scalar [some (placeholder ov)]

/-- A suspend point `co_await e`: the operand `e` bound to a placeholder `x`,
`x.await_ready()`, a void `x.await_suspend(h)` and an `x.await_resume()` that
may throw and returns void or a scalar. -/
def suspend (label : Nat) (resumeIsVoid : Bool) : CoroutineSuspendExpr :=
  { CommonExpr := scalar label, OpaqueValue := label,
    ReadyExpr := memberCall (label + 1) label false false,
    SuspendExpr := memberCall (label + 2) label false true,
    ResumeExpr := memberCall (label + 3) label true resumeIsVoid }

/-- The statement `co_await e;`, result unused. -/
def coawait (label : Nat) : Stmt :=
  .coawait (suspend label true) { isIgnored := true } true

/-- The compiler-made copy `T c = p;` of the parameter `p` (declaration 3)
into the variable `c` (declaration 7). -/
def paramCopy : Stmt :=
  .DeclStmt [{ decl := 7, Init := .mk 50 .Other false .TEK_Scalar
                [some (.mk 51 (.DeclRefExpr 3) false .TEK_Scalar [])] }] true

/-- The variable `c` that `paramCopy` declares. -/
def copyOfParam : VarDecl :=
  { decl := 7, Init := .mk 50 .Other false .TEK_Scalar
      [some (.mk 51 (.DeclRefExpr 3) false .TEK_Scalar [])] }

/-- A coroutine without parameters whose body is `co_await a; co_return;`,
for a promise with `return_void` (the fallthrough handler is the implicit
`co_return;`). -/
def coroutine : CoroutineBodyStmt :=
  { Allocate := scalar 100, ReturnStmtOnAllocFailure := none, ParamMoves := [],
    PromiseDeclStmt := .other 101 true, ReturnStmt := none, ReturnValue := scalar 102,
    InitSuspendStmt := coawait 10,
    Body := .seq (coawait 20) (.CoreturnStmt none (.other 30 true)),
    ExceptionHandler := none,
    FallthroughHandler := some (.CoreturnStmt none (.other 31 true)),
    FinalSuspendStmt := coawait 40 }

/-- The coroutine `coroutine` with one parameter, copied by `paramCopy`. -/
def coroutineWithParam : CoroutineBodyStmt :=
  { coroutine with ParamMoves := [paramCopy] }

/-- The context `context` inside a coroutine: the coroutine record exists and
the await kind is `User`. -/
def contextInCoroutine : CIRGenFunction :=
  { context with CurCoro := { Data := some { CurrentAwaitKind := .User } } }

/-- A coroutine whose body `co_await a;` has no `co_return` and runs to its
end, for a promise without `return_void`: the front end supplies no
fallthrough handler. -/
def fallsThrough : CoroutineBodyStmt :=
  { coroutine with Body := coawait 20, FallthroughHandler := none }

/-- A coroutine whose body is one plain statement, without `co_return` and
without fallthrough handler. -/
def plainBody : CoroutineBodyStmt :=
  { coroutine with Body := .other 20 true, FallthroughHandler := none }

/-- A coroutine whose body is `while (true) { co_await b; }`, for a promise
with `return_void`: the fallthrough handler is the implicit `co_return;`. -/
def infiniteLoop : CoroutineBodyStmt :=
  { coroutine with Body := .whileTrue (coawait 20) }

/-- The coroutine `coroutine` with an initial-suspend statement that the engine
reports it cannot lower. -/
def failingInit : CoroutineBodyStmt :=
  { coroutine with InitSuspendStmt := .other 10 false }

/-- The coroutine `infiniteLoop` for a promise without `return_void`: no
fallthrough handler. -/
def infiniteLoopNoHandler : CoroutineBodyStmt :=
  { infiniteLoop with FallthroughHandler := none }

/-- The context `context` in a function with the one parameter `p`
(declaration 3), bound to the address 1000. -/
def contextWithParam : CIRGenFunction :=
  { context with LocalDeclMap := [(3, 1000)], FnArgs := [3] }

/-- The context `contextWithParam` once the copy `c` (declaration 7) has been
lowered and is bound to the address 12. -/
def contextWithCopy : CIRGenFunction :=
  { contextWithParam with LocalDeclMap := [(3, 1000), (7, 12)] }

/-- The coroutine `coroutine` for a promise type that declares
`unhandled_exception`: the front end supplies the handler statement.  The
`await_resume` of its initial suspend may throw. -/
def coroutineWithHandler : CoroutineBodyStmt :=
  { coroutine with ExceptionHandler := some (.other 60 true) }

end Example

end CIRGen

namespace CIRGen

/-! # Theorems -/

theorem Res.eq_ok_of_returns {α : Type} [DecidableEq α] {r : Res α} {v : α}
    (h : r.returns v = true) : r = .ok v r.state := by
  cases r with
  | ok a s => simp [Res.returns] at h; simp [Res.state, h]
  | fault f s => simp [Res.returns] at h

theorem Res.eq_fault_of_faultOf {α : Type} {r : Res α} {f : Fault}
    (h : r.faultOf = some f) : r = .fault f r.state := by
  cases r with
  | ok a s => simp [Res.faultOf] at h
  | fault g s => simp [Res.faultOf] at h; simp [Res.state, h]

/-! ## Exact effect of the builder primitives -/

theorem createOpAt_eq (pt : InsertPoint) (k : OpKind) (s : CIRGenFunction) :
    createOpAt pt k s
      = .ok { id := s.nextId, block := pt.block, kind := k }
          { s with ops := insertOp s.ops pt { id := s.nextId, block := pt.block, kind := k }
                   nextId := s.nextId + 1
                   trace := s.trace ++ [.created { id := s.nextId, block := pt.block, kind := k }] } :=
  rfl

theorem create_eq (k : OpKind) (s : CIRGenFunction) :
    create k s
      = .ok s.nextId
          { s with ops := insertOp s.ops s.insertPt
                            { id := s.nextId, block := s.insertPt.block, kind := k }
                   nextId := s.nextId + 1
                   trace := s.trace ++
                     [.created { id := s.nextId, block := s.insertPt.block, kind := k }] } :=
  rfl

/-! ## Chaining relations through the lowering functions -/

section KeepsLemmas

variable {α β : Type} {A : AwaitKind → Prop} {R : CIRGenFunction → CIRGenFunction → Prop}

theorem Admits.of_not_await {k : OpKind}
    (hk : (match k with | .await _ _ _ _ => true | .br _ => true | _ => false) = false) :
    Admits A k := by
  refine ⟨fun kind r1 r2 r3 h => ?_, fun b h => ?_⟩
  · subst h
    simp at hk
  · subst h
    simp at hk

theorem Admits.await {kind : AwaitKind} {r1 r2 r3 : BlockId} (h : A kind) :
    Admits A (.await kind r1 r2 r3) := by
  refine ⟨fun kind' _ _ _ he => ?_, fun b he => by cases he⟩
  cases he
  exact h

theorem M.bind_assoc {γ : Type} (m : M α) (f : α → M β) (g : β → M γ) :
    M.bind (M.bind m f) g = M.bind m fun a => M.bind (f a) g := by
  funext s
  unfold M.bind
  cases m s <;> rfl

theorem keeps_ret (h : Chains R) (a : α) : Keeps R (M.ret a) := fun s => h.refl s

theorem keeps_fail (h : Chains R) (f : Fault) : Keeps R (M.fail f : M α) := fun s => h.refl s

theorem keeps_get (h : Chains R) : Keeps R M.get := fun s => h.refl s

theorem keeps_bind (h : Chains R) {m : M α} {k : α → M β} (hm : Keeps R m)
    (hk : ∀ a, Keeps R (k a)) : Keeps R (M.bind m k) := by
  intro s
  have h1 := hm s
  unfold M.bind
  cases hms : m s with
  | ok a s' =>
    rw [hms] at h1
    exact h.trans _ _ _ h1 (hk a s')
  | fault f s' =>
    rw [hms] at h1
    exact h1

theorem keeps_andThen (h : Chains R) {m k : M LogicalResult} (hm : Keeps R m)
    (hk : Keeps R k) : Keeps R (M.andThen m k) := by
  unfold M.andThen
  refine keeps_bind h hm fun r => ?_
  split
  · exact keeps_ret h _
  · exact hk

theorem keeps_assert (h : Chains R) (c : Bool) (msg : String) : Keeps R (M.assert c msg) := by
  unfold M.assert
  split
  · exact keeps_ret h _
  · exact keeps_fail h _

theorem keeps_modify {f : CIRGenFunction → CIRGenFunction} (hf : ∀ s, R s (f s)) :
    Keeps R (M.modify f) := fun s => hf s

theorem keeps_createOpAt (h : BuilderStable A R) {pt : InsertPoint} {k : OpKind}
    (hk : Admits A k) : Keeps R (createOpAt pt k) := fun s => h.op s pt k hk

theorem keeps_createOp (h : BuilderStable A R) {k : OpKind} (hk : Admits A k) :
    Keeps R (createOp k) := fun s => h.op s s.insertPt k hk

theorem keeps_create (h : BuilderStable A R) {k : OpKind} (hk : Admits A k) :
    Keeps R (create k) :=
  keeps_bind h.toChains (keeps_createOp h hk) fun _ => keeps_ret h.toChains _

theorem keeps_freshBlock (h : BuilderStable A R) : Keeps R freshBlock := fun s => h.block s

theorem keeps_setInsertionPoint (h : BuilderStable A R) (pt : InsertPoint) :
    Keeps R (setInsertionPoint pt) := fun s => h.insertPt s pt

theorem keeps_withInsertionGuard (h : BuilderStable A R) {m : M α} (hm : Keeps R m) :
    Keeps R (withInsertionGuard m) := by
  intro s
  have h1 := hm s
  unfold withInsertionGuard
  cases hms : m s with
  | ok a s' =>
    rw [hms] at h1
    exact h.trans _ _ _ h1 (h.insertPt s' s.insertPt)
  | fault f s' =>
    rw [hms] at h1
    exact h1

theorem keeps_inRegion (h : BuilderStable A R) (b : BlockId) {m : M α} (hm : Keeps R m) :
    Keeps R (inRegion b m) :=
  keeps_withInsertionGuard h
    (keeps_bind h.toChains (keeps_setInsertionPoint h _) fun _ => hm)

theorem keeps_createBlock (h : BuilderStable A R) : Keeps R createBlock :=
  keeps_bind h.toChains (keeps_freshBlock h) fun _ =>
    keeps_bind h.toChains (keeps_setInsertionPoint h _) fun _ => keeps_ret h.toChains _

theorem keeps_createIfOp (h : BuilderStable A R) (cond : Value) {m : M Unit}
    (hm : Keeps R m) : Keeps R (createIfOp cond m) :=
  keeps_bind h.toChains (keeps_freshBlock h) fun _ =>
    keeps_bind h.toChains (keeps_create h (Admits.of_not_await rfl)) fun _ =>
      keeps_bind h.toChains (keeps_inRegion h _ hm) fun _ => keeps_ret h.toChains _

theorem keeps_createAwaitOp (h : BuilderStable A R) {kind : AwaitKind} (hkind : A kind)
    {ready suspend : M Unit} {resume : M α} (h1 : Keeps R ready) (h2 : Keeps R suspend)
    (h3 : Keeps R resume) : Keeps R (createAwaitOp kind ready suspend resume) :=
  keeps_bind h.toChains (keeps_freshBlock h) fun _ =>
  keeps_bind h.toChains (keeps_freshBlock h) fun _ =>
  keeps_bind h.toChains (keeps_freshBlock h) fun _ =>
  keeps_bind h.toChains (keeps_create h (Admits.await hkind)) fun _ =>
  keeps_bind h.toChains (keeps_inRegion h _ h1) fun _ =>
  keeps_bind h.toChains (keeps_inRegion h _ h2) fun _ => keeps_inRegion h _ h3

theorem keeps_emitAlloca (h : BuilderStable A R) (name : String) (ip : InsertPoint) :
    Keeps R (emitAlloca name ip) :=
  keeps_bind h.toChains (keeps_createOpAt h (Admits.of_not_await rfl)) fun _ =>
    keeps_ret h.toChains _

theorem keeps_getScalarVal (h : Chains R) (rv : RValue) : Keeps R rv.getScalarVal := by
  cases rv <;> first | exact keeps_ret h _ | exact keeps_fail h _

theorem keeps_lowerExpr (h : BuilderStable A R) (E : Expr) : Keeps R (lowerExpr E) := by
  unfold lowerExpr
  refine keeps_bind h.toChains (keeps_get h.toChains) fun s => ?_
  split
  · exact keeps_create h (Admits.of_not_await rfl)
  · exact keeps_fail h.toChains _

theorem keeps_emitScalarExpr (h : BuilderStable A R) (E : Expr) : Keeps R (emitScalarExpr E) :=
  keeps_bind h.toChains (keeps_lowerExpr h E) fun _ => keeps_ret h.toChains _

theorem keeps_evaluateExprAsBool (h : BuilderStable A R) (E : Expr) :
    Keeps R (evaluateExprAsBool E) :=
  keeps_lowerExpr h E

theorem keeps_emitLValue (h : BuilderStable A R) (E : Expr) : Keeps R (emitLValue E) :=
  keeps_bind h.toChains (keeps_lowerExpr h E) fun _ => keeps_ret h.toChains _

theorem keeps_emitAnyExpr (h : BuilderStable A R) (E : Expr) (slot : AggValueSlot)
    (ign : Bool) : Keeps R (emitAnyExpr E slot ign) := by
  unfold emitAnyExpr
  split
  · exact keeps_bind h.toChains (keeps_emitScalarExpr h E) fun _ => keeps_ret h.toChains _
  · exact keeps_bind h.toChains (keeps_lowerExpr h E) fun _ => keeps_ret h.toChains _
  · exact keeps_bind h.toChains (keeps_lowerExpr h E) fun _ => keeps_ret h.toChains _

theorem keeps_emitIgnoredExpr (h : BuilderStable A R) (E : Expr) :
    Keeps R (emitIgnoredExpr E) :=
  keeps_bind h.toChains (keeps_emitAnyExpr h E _ _) fun _ => keeps_ret h.toChains _

theorem keeps_emitAnyExprToMem (h : BuilderStable A R) (E : Expr) (addr : Value) :
    Keeps R (emitAnyExprToMem E addr) :=
  keeps_bind h.toChains (keeps_create h (Admits.of_not_await rfl)) fun _ =>
    keeps_ret h.toChains _

theorem keeps_hasCoreturn (h : Chains R) : Keeps R hasCoreturn := fun s => h.refl s

theorem keeps_getEntryBlock (h : Chains R) : Keeps R getEntryBlock := fun s => h.refl s

theorem keeps_getCoroData (h : Chains R) : Keeps R getCoroData := by
  intro s
  unfold getCoroData
  split <;> exact h.refl s


theorem keeps_opaqueBind (h : BuilderStable A R) (ho : OpaqueStable R) (ov : OpaqueValueExpr)
    (e : Expr) : Keeps R (OpaqueValueMappingData.bind ov e) :=
  keeps_bind h.toChains (keeps_lowerExpr h e) fun _ =>
    keeps_bind h.toChains (keeps_modify fun s => ho s _) fun _ => keeps_ret h.toChains _

theorem keeps_opaqueUnbind (ho : OpaqueStable R) (d : OpaqueValueMappingData) :
    Keeps R d.unbind :=
  keeps_modify fun s => ho s _

theorem keeps_emitSuspendExpression (h : BuilderStable A R) (ho : OpaqueStable R)
    (Coro : CGCoroData) (S : CoroutineSuspendExpr) {Kind : AwaitKind} (hKind : A Kind)
    (aggSlot : AggValueSlot) (ignoreResult : Bool) (scopeParentBlock : BlockId)
    (tmp : Option Value) (forLValue : Bool) :
    Keeps R (emitSuspendExpression Coro S Kind aggSlot ignoreResult scopeParentBlock tmp
      forLValue) := by
  have hc := h.toChains
  unfold emitSuspendExpression
  refine keeps_bind hc (keeps_opaqueBind h ho _ _) fun _ => ?_
  refine keeps_bind hc (keeps_createAwaitOp h hKind ?_ ?_ ?_) fun _ =>
    keeps_bind hc (keeps_opaqueUnbind ho _) fun _ => keeps_ret hc _
  · exact keeps_bind hc (keeps_evaluateExprAsBool h _) fun _ =>
      keeps_bind hc (keeps_create h (Admits.of_not_await rfl)) fun _ => keeps_ret hc _
  · refine keeps_bind hc (keeps_emitScalarExpr h _) fun r => ?_
    cases r with
    | some v => exact keeps_fail hc _
    | none => exact keeps_bind hc (keeps_create h (Admits.of_not_await rfl)) fun _ =>
        keeps_ret hc _
  · refine keeps_bind hc ?_ fun _ => keeps_bind hc ?_ fun _ =>
      keeps_bind hc (keeps_create h (Admits.of_not_await rfl)) fun _ => keeps_ret hc _
    · split
      · exact keeps_fail hc _
      · exact keeps_ret hc _
    · split
      · exact keeps_bind hc (keeps_emitLValue h _) fun _ => keeps_ret hc _
      · refine keeps_bind hc (keeps_emitAnyExpr h _ _ _) fun RV => ?_
        split
        · exact keeps_ret hc _
        · exact keeps_bind hc (keeps_get hc) fun _ =>
            keeps_bind hc (keeps_emitAlloca h _ _) fun _ =>
              keeps_bind hc (keeps_create h (Admits.of_not_await rfl)) fun _ => keeps_ret hc _
        · exact keeps_bind hc (keeps_getScalarVal hc _) fun _ => keeps_ret hc _

theorem keeps_emitSuspendExpr (h : BuilderStable A R) (ho : OpaqueStable R)
    (E : CoroutineSuspendExpr) {kind : AwaitKind} (hkind : A kind) (aggSlot : AggValueSlot)
    (ignoreResult : Bool) : Keeps R (emitSuspendExpr E kind aggSlot ignoreResult) := by
  have hc := h.toChains
  unfold emitSuspendExpr
  refine keeps_bind hc (keeps_getEntryBlock hc) fun _ =>
    keeps_bind hc (keeps_getCoroData hc) fun _ =>
      keeps_bind hc (keeps_emitSuspendExpression h ho _ _ hkind _ _ _ _ _) fun res => ?_
  dsimp only
  split
  · exact keeps_ret hc _
  · split
    · split
      · exact keeps_bind hc (keeps_create h (Admits.of_not_await rfl)) fun _ => keeps_ret hc _
      · exact keeps_fail hc _
    · split <;> exact keeps_fail hc _

theorem keeps_emitCoawaitExpr (h : BuilderStable A R) (ho : OpaqueStable R)
    (hA : ∀ kind, A kind) (E : CoroutineSuspendExpr) (aggSlot : AggValueSlot)
    (ignoreResult : Bool) : Keeps R (emitCoawaitExpr E aggSlot ignoreResult) :=
  keeps_bind h.toChains (keeps_getCoroData h.toChains) fun _ =>
    keeps_emitSuspendExpr h ho E (hA _) aggSlot ignoreResult

theorem keeps_emitCoyieldExpr (h : BuilderStable A R) (ho : OpaqueStable R)
    (hA : A .Yield) (E : CoroutineSuspendExpr) (aggSlot : AggValueSlot)
    (ignoreResult : Bool) : Keeps R (emitCoyieldExpr E aggSlot ignoreResult) :=
  keeps_emitSuspendExpr h ho E hA aggSlot ignoreResult

theorem keeps_emitVarDecl (h : BuilderStable A R) (hd : DeclMapStable R) (VD : VarDecl) :
    Keeps R (emitVarDecl VD) := by
  have hc := h.toChains
  unfold emitVarDecl
  exact keeps_bind hc (keeps_get hc) fun _ =>
    keeps_bind hc (keeps_emitAlloca h _ _) fun _ =>
      keeps_bind hc (keeps_assert hc _ _) fun _ =>
        keeps_bind hc (keeps_modify fun s => hd s _) fun _ =>
          keeps_bind hc (keeps_create h (Admits.of_not_await rfl)) fun _ => keeps_ret hc _

theorem keeps_emitDecls (h : BuilderStable A R) (hd : DeclMapStable R) (decls : List VarDecl) :
    Keeps R (emitDecls decls) := by
  induction decls with
  | nil => exact keeps_ret h.toChains _
  | cons VD rest ih =>
    exact keeps_bind h.toChains (keeps_emitVarDecl h hd VD) fun _ => ih

theorem keeps_reportFailure (hf : FailureStable R) (label : Nat) :
    Keeps R (reportFailure label) := fun s => hf s label

theorem keeps_setCoreturn (hs : ScopeStable R) : Keeps R setCoreturn :=
  keeps_modify fun s => hs s _

theorem keeps_getOrCreateRetBlock (h : BuilderStable A R) (hs : ScopeStable R) :
    Keeps R getOrCreateRetBlock := by
  intro s
  unfold getOrCreateRetBlock
  split
  · exact h.refl s
  · exact h.trans _ _ _ (h.block s) (hs _ _)

theorem keeps_withLexicalScope (h : BuilderStable A R) (hs : ScopeStable R)
    (mkOp : BlockId → OpKind) (hmk : ∀ b, Admits A (mkOp b)) {body : M α}
    (hb : Keeps R body) : Keeps R (withLexicalScope mkOp body) := by
  have hc := h.toChains
  unfold withLexicalScope
  exact keeps_bind hc (keeps_freshBlock h) fun _ =>
    keeps_bind hc (keeps_create h (hmk _)) fun _ =>
      keeps_bind hc (keeps_get hc) fun _ =>
        keeps_bind hc (keeps_inRegion h _
          (keeps_bind hc (keeps_modify fun s => hs s _) fun _ => hb)) fun _ =>
          keeps_bind hc (keeps_modify fun s => hs s _) fun _ => keeps_ret hc _

theorem keeps_modifyCoroData {f : CGCoroData → CGCoroData} (h : Chains R)
    (hf : ∀ s d, s.CurCoro.Data = some d → R s { s with CurCoro := { Data := some (f d) } }) :
    Keeps R (modifyCoroData f) := by
  intro s
  unfold modifyCoroData
  split
  · next d hd => exact hf s d hd
  · exact h.refl s

theorem emitBranchToRetBlock_eq (retBlock : BlockId) (s : CIRGenFunction) (d : CGCoroData)
    (hd : s.CurCoro.Data = some d) (br : Op)
    (hbr : br = { id := s.nextId, block := s.insertPt.block, kind := .br retBlock }) :
    emitBranchToRetBlock retBlock s =
      .ok () { s with
        CurCoro := { Data := some { d with FinalSuspendInsPoint := some br } }
        ops := insertOp s.ops s.insertPt br
        nextId := s.nextId + 1
        trace := s.trace ++ [.created br] } := by
  subst hbr
  simp [emitBranchToRetBlock, M.bind, createOp, createOpAt, modifyCoroData, hd]

theorem emitBranchToRetBlock_null (retBlock : BlockId) (s : CIRGenFunction)
    (hd : s.CurCoro.Data = none) (br : Op)
    (hbr : br = { id := s.nextId, block := s.insertPt.block, kind := .br retBlock }) :
    (emitBranchToRetBlock retBlock s).state =
      { s with
        ops := insertOp s.ops s.insertPt br
        nextId := s.nextId + 1
        trace := s.trace ++ [.created br] } := by
  subst hbr
  simp [emitBranchToRetBlock, M.bind, createOp, createOpAt, modifyCoroData, hd, Res.state]

theorem keeps_emitCoreturnStmt (h : BuilderStable A R) (hs : ScopeStable R)
    (hcount : CountStable R) (hbranch : BranchStable R) {emitPromiseCall : M LogicalResult}
    (hp : Keeps R emitPromiseCall) (Operand : Option Expr) :
    Keeps R (emitCoreturnStmt emitPromiseCall Operand) := by
  have hc := h.toChains
  unfold emitCoreturnStmt
  refine keeps_bind hc (keeps_modifyCoroData hc fun s d hd => hcount s d hd)
    fun _ => keeps_bind hc (keeps_setCoreturn hs) fun _ => keeps_bind hc ?_ fun _ =>
      keeps_andThen hc hp ?_
  · split
    · split
      · exact keeps_emitIgnoredExpr h _
      · exact keeps_ret hc _
    · exact keeps_ret hc _
  · refine keeps_bind hc (keeps_getOrCreateRetBlock h hs) fun retBlock => ?_
    have e : (M.bind (createOp (.br retBlock)) fun br =>
          M.bind (modifyCoroData fun d => { d with FinalSuspendInsPoint := some br }) fun _ =>
          M.bind createBlock fun _ => M.ret LogicalResult.success)
        = M.bind (emitBranchToRetBlock retBlock) fun _ =>
          M.bind createBlock fun _ => M.ret LogicalResult.success := by
      unfold emitBranchToRetBlock
      rw [M.bind_assoc]
    rw [e]
    exact keeps_bind hc (hbranch retBlock) fun _ =>
      keeps_bind hc (keeps_createBlock h) fun _ => keeps_ret hc _

/-- Every relation that the builder steps, scope changes, map changes, failure
reports, the increment of the counter and the branch of a `co_return` respect,
and that `co_await` and `co_yield` respect, is respected by the lowering of
every statement. -/
theorem keeps_emitStmt (h : BuilderStable A R) (hs : ScopeStable R) (hd : DeclMapStable R)
    (hf : FailureStable R) (hcount : CountStable R) (hbranch : BranchStable R)
    (hawait : ∀ E slot ign, Keeps R (emitCoawaitExpr E slot ign))
    (hyield : ∀ E slot ign, Keeps R (emitCoyieldExpr E slot ign)) :
    ∀ st : Stmt, Keeps R (emitStmt st) := by
  have hc := h.toChains
  intro st
  induction st with
  | other label lowers =>
    unfold emitStmt
    split
    · exact keeps_bind hc (keeps_create h (Admits.of_not_await rfl)) fun _ => keeps_ret hc _
    · exact keeps_reportFailure hf _
  | DeclStmt decls lowers =>
    unfold emitStmt
    split
    · exact keeps_bind hc (keeps_emitDecls h hd _) fun _ => keeps_ret hc _
    · exact keeps_reportFailure hf _
  | seq first second ih1 ih2 =>
    unfold emitStmt
    exact keeps_andThen hc ih1 ih2
  | scope body ih =>
    unfold emitStmt
    exact keeps_withLexicalScope h hs _ (fun _ => Admits.of_not_await rfl) ih
  | whileTrue body ih =>
    unfold emitStmt
    exact keeps_withLexicalScope h hs _ (fun _ => Admits.of_not_await rfl) ih
  | CoreturnStmt Operand PromiseCall ih =>
    unfold emitStmt
    exact keeps_emitCoreturnStmt h hs hcount hbranch ih _
  | coawait E slot ign =>
    unfold emitStmt
    exact keeps_bind hc (hawait E slot ign) fun _ => keeps_ret hc _
  | coyield E slot ign =>
    unfold emitStmt
    exact keeps_bind hc (hyield E slot ign) fun _ => keeps_ret hc _

end KeepsLemmas

/-! ## Weakest preconditions, step by step -/

section WpLemmas

variable {α β : Type}

theorem wp_of_eq {m : M α} {Q : α → CIRGenFunction → Prop} {F : Fault → Prop}
    {s s' : CIRGenFunction} {a : α} (h : M.wp m Q F s) (he : m s = .ok a s') : Q a s' := by
  unfold M.wp at h
  rw [he] at h
  exact h

theorem wp_of_fault {m : M α} {Q : α → CIRGenFunction → Prop} {F : Fault → Prop}
    {s s' : CIRGenFunction} {f : Fault} (h : M.wp m Q F s) (he : m s = .fault f s') : F f := by
  unfold M.wp at h
  rw [he] at h
  exact h

theorem wp_mono {m : M α} {Q Q' : α → CIRGenFunction → Prop} {F F' : Fault → Prop}
    {s : CIRGenFunction} (h : M.wp m Q F s) (hQ : ∀ a s', Q a s' → Q' a s')
    (hF : ∀ f, F f → F' f) : M.wp m Q' F' s := by
  unfold M.wp at h ⊢
  cases hm : m s with
  | ok a s' => rw [hm] at h; exact hQ a s' h
  | fault f s' => rw [hm] at h; exact hF f h

theorem wp_ret (a : α) (Q : α → CIRGenFunction → Prop) (F : Fault → Prop)
    (s : CIRGenFunction) : M.wp (M.ret a) Q F s ↔ Q a s := Iff.rfl

theorem wp_fail (f : Fault) (Q : α → CIRGenFunction → Prop) (F : Fault → Prop)
    (s : CIRGenFunction) : M.wp (M.fail f) Q F s ↔ F f := Iff.rfl

theorem wp_get (Q : CIRGenFunction → CIRGenFunction → Prop) (F : Fault → Prop)
    (s : CIRGenFunction) : M.wp M.get Q F s ↔ Q s s := Iff.rfl

theorem wp_modify (f : CIRGenFunction → CIRGenFunction) (Q : Unit → CIRGenFunction → Prop)
    (F : Fault → Prop) (s : CIRGenFunction) : M.wp (M.modify f) Q F s ↔ Q () (f s) := Iff.rfl

theorem wp_bind (m : M α) (k : α → M β) (Q : β → CIRGenFunction → Prop) (F : Fault → Prop)
    (s : CIRGenFunction) :
    M.wp (M.bind m k) Q F s ↔ M.wp m (fun a s' => M.wp (k a) Q F s') F s := by
  unfold M.wp M.bind
  cases m s <;> rfl

theorem wp_andThen (m k : M LogicalResult) (Q : LogicalResult → CIRGenFunction → Prop)
    (F : Fault → Prop) (s : CIRGenFunction) :
    M.wp (M.andThen m k) Q F s ↔
      M.wp m (fun r s' => (r = .failure → Q .failure s') ∧ (r = .success → M.wp k Q F s'))
        F s := by
  unfold M.andThen
  rw [wp_bind]
  unfold M.wp
  cases m s with
  | ok r s' => cases r <;> simp [LogicalResult.failed, M.ret]
  | fault f s' => simp

theorem wp_assert (c : Bool) (msg : String) (Q : Unit → CIRGenFunction → Prop)
    (F : Fault → Prop) (s : CIRGenFunction) :
    M.wp (M.assert c msg) Q F s ↔ (c = true → Q () s) ∧ (c = false → F (.assertion msg)) := by
  unfold M.assert
  cases c <;> simp [M.wp, M.ret, M.fail]

theorem wp_create (k : OpKind) (Q : Value → CIRGenFunction → Prop) (F : Fault → Prop)
    (s : CIRGenFunction) :
    M.wp (create k) Q F s ↔
      Q s.nextId
        { s with ops := insertOp s.ops s.insertPt
                          { id := s.nextId, block := s.insertPt.block, kind := k }
                 nextId := s.nextId + 1
                 trace := s.trace ++
                   [.created { id := s.nextId, block := s.insertPt.block, kind := k }] } :=
  Iff.rfl

theorem wp_createOp (k : OpKind) (Q : Op → CIRGenFunction → Prop) (F : Fault → Prop)
    (s : CIRGenFunction) :
    M.wp (createOp k) Q F s ↔
      Q { id := s.nextId, block := s.insertPt.block, kind := k }
        { s with ops := insertOp s.ops s.insertPt
                          { id := s.nextId, block := s.insertPt.block, kind := k }
                 nextId := s.nextId + 1
                 trace := s.trace ++
                   [.created { id := s.nextId, block := s.insertPt.block, kind := k }] } :=
  Iff.rfl

theorem wp_createOpAt (pt : InsertPoint) (k : OpKind) (Q : Op → CIRGenFunction → Prop)
    (F : Fault → Prop) (s : CIRGenFunction) :
    M.wp (createOpAt pt k) Q F s ↔
      Q { id := s.nextId, block := pt.block, kind := k }
        { s with ops := insertOp s.ops pt { id := s.nextId, block := pt.block, kind := k }
                 nextId := s.nextId + 1
                 trace := s.trace ++
                   [.created { id := s.nextId, block := pt.block, kind := k }] } :=
  Iff.rfl

theorem wp_freshBlock (Q : BlockId → CIRGenFunction → Prop) (F : Fault → Prop)
    (s : CIRGenFunction) :
    M.wp freshBlock Q F s ↔ Q s.nextBlock { s with nextBlock := s.nextBlock + 1 } := Iff.rfl

theorem wp_setInsertionPoint (pt : InsertPoint) (Q : Unit → CIRGenFunction → Prop)
    (F : Fault → Prop) (s : CIRGenFunction) :
    M.wp (setInsertionPoint pt) Q F s ↔ Q () { s with insertPt := pt } := Iff.rfl

theorem wp_withInsertionGuard (m : M α) (Q : α → CIRGenFunction → Prop) (F : Fault → Prop)
    (s : CIRGenFunction) :
    M.wp (withInsertionGuard m) Q F s ↔
      M.wp m (fun a s' => Q a { s' with insertPt := s.insertPt }) F s := by
  unfold M.wp withInsertionGuard
  cases m s <;> rfl

theorem wp_inRegion (b : BlockId) (m : M α) (Q : α → CIRGenFunction → Prop)
    (F : Fault → Prop) (s : CIRGenFunction) :
    M.wp (inRegion b m) Q F s ↔
      M.wp m (fun a s' => Q a { s' with insertPt := s.insertPt }) F
        { s with insertPt := .atEnd b } := by
  unfold inRegion
  rw [wp_withInsertionGuard, wp_bind, wp_setInsertionPoint]

theorem wp_lowerExpr (E : Expr) (Q : Value → CIRGenFunction → Prop) (F : Fault → Prop)
    (s : CIRGenFunction) :
    M.wp (lowerExpr E) Q F s ↔
      (∀ operands, lookupOpaqueValues s.OpaqueValues E.opaqueRefs = some operands →
        Q s.nextId
          { s with ops := insertOp s.ops s.insertPt
                            { id := s.nextId, block := s.insertPt.block,
                              kind := .lowered E.label operands }
                   nextId := s.nextId + 1
                   trace := s.trace ++
                     [.created { id := s.nextId, block := s.insertPt.block,
                                 kind := .lowered E.label operands }] }) ∧
      (lookupOpaqueValues s.OpaqueValues E.opaqueRefs = none →
        F (.assertion "no mapping for opaque value!")) := by
  unfold lowerExpr
  rw [wp_bind, wp_get]
  cases h : lookupOpaqueValues s.OpaqueValues E.opaqueRefs with
  | none => simp [wp_fail]
  | some operands => simp [wp_create]

theorem wp_emitAlloca (name : String) (ip : InsertPoint) (Q : Value → CIRGenFunction → Prop)
    (F : Fault → Prop) (s : CIRGenFunction) :
    M.wp (emitAlloca name ip) Q F s ↔
      Q s.nextId
        { s with ops := insertOp s.ops ip { id := s.nextId, block := ip.block,
                                            kind := .alloca name }
                 nextId := s.nextId + 1
                 trace := s.trace ++
                   [.created { id := s.nextId, block := ip.block, kind := .alloca name }] } :=
  Iff.rfl

theorem wp_getCoroData (Q : CGCoroData → CIRGenFunction → Prop) (F : Fault → Prop)
    (s : CIRGenFunction) :
    M.wp getCoroData Q F s ↔
      (∀ d, s.CurCoro.Data = some d → Q d s) ∧
      (s.CurCoro.Data = none → F (.undefinedBehaviour "CurCoro.Data is null")) := by
  unfold M.wp getCoroData
  cases h : s.CurCoro.Data <;> simp

theorem wp_modifyCoroData (f : CGCoroData → CGCoroData) (Q : Unit → CIRGenFunction → Prop)
    (F : Fault → Prop) (s : CIRGenFunction) :
    M.wp (modifyCoroData f) Q F s ↔
      (∀ d, s.CurCoro.Data = some d → Q () { s with CurCoro := { Data := some (f d) } }) ∧
      (s.CurCoro.Data = none → F (.undefinedBehaviour "CurCoro.Data is null")) := by
  unfold M.wp modifyCoroData
  cases h : s.CurCoro.Data <;> simp

theorem wp_hasCoreturn (Q : Bool → CIRGenFunction → Prop) (F : Fault → Prop)
    (s : CIRGenFunction) : M.wp hasCoreturn Q F s ↔ Q s.currLexScope.HasCoreturn s := Iff.rfl

theorem wp_getEntryBlock (Q : BlockId → CIRGenFunction → Prop) (F : Fault → Prop)
    (s : CIRGenFunction) : M.wp getEntryBlock Q F s ↔ Q s.currLexScope.EntryBlock s := Iff.rfl

end WpLemmas

/-! ## Coroutine state is created once (C6) -/

/-- C6: when the context already holds coroutine state, `createCoroData` ends
in the fault "EmitCoroutineBodyStatement called twice?" with the context
untouched, and so `emitCoroutineBody` never returns and leaves the existing
record in place; when the context holds none, `createCoroData` installs a fresh
record with the given `CoroId`, `CoreturnCount` 0 and kind `Init`. -/
theorem createCoroData_once (S : CoroutineBodyStmt) (CoroId : Value) (s : CIRGenFunction) :
    (∀ d, s.CurCoro.Data = some d →
      createCoroData CoroId s
          = .fault (.unreachable "EmitCoroutineBodyStatement called twice?") s ∧
      ∃ f s', emitCoroutineBody S s = .fault f s' ∧ s'.CurCoro.Data = some d ∧
        (s.CurFnIsFuncOp = true →
          f = .unreachable "EmitCoroutineBodyStatement called twice?")) ∧
    (s.CurCoro.Data = none →
      createCoroData CoroId s
          = .ok () { s with CurCoro := { Data := some (
              { CurrentAwaitKind := .Init, CoroId := some CoroId, CoroBegin := none,
                FinalSuspendInsPoint := none, CoreturnCount := 0,
                ExceptionHandler := none }) } }) := by
  refine ⟨fun d h => ⟨?_, ?_⟩, fun h => ?_⟩
  · simp [createCoroData, h]
  · by_cases hfn : s.CurFnIsFuncOp = true
    · simp only [emitCoroutineBody, emitCoroutineBodyPrologue, M.bind, M.get, M.ret, M.assert,
          M.modify, M.fail, create_eq, emitCoroIDBuiltinCall,
          getOrCreateBuiltin, createCoroData, h, hfn, if_true]
      exact ⟨_, _, rfl, h, fun _ => rfl⟩
    · have hfn' : s.CurFnIsFuncOp = false := by simpa using hfn
      simp only [emitCoroutineBody, emitCoroutineBodyPrologue, M.bind, M.get, M.ret, M.assert,
        M.modify, M.fail, create_eq, h, hfn']
      exact ⟨_, _, rfl, h, fun hc => absurd hc (by simp)⟩
  · simp [createCoroData, h]

/-! ## Parameter copies are not rebound on exit (C1) -/

theorem DenseMap.find_append_of_bound {V : Type} (m : List (Nat × V)) (k : Nat) (v : V)
    (extra : List (Nat × V)) (h : DenseMap.find m k = some v) :
    DenseMap.find (m ++ extra) k = some v := by
  unfold DenseMap.find at h ⊢
  induction m with
  | nil => simp [List.lookup] at h
  | cons kv rest ih =>
    obtain ⟨k', v'⟩ := kv
    simp only [List.cons_append, List.lookup_cons] at h ⊢
    cases hk : (k == k') with
    | true => simpa [hk] using h
    | false =>
      simp only [hk] at h ⊢
      exact ih h

theorem DenseMap.find_insert_of_bound {V : Type} (m : List (Nat × V)) (k k' : Nat) (v v' : V)
    (h : DenseMap.find m k = some v) : DenseMap.find (DenseMap.insert m k' v') k = some v := by
  unfold DenseMap.insert
  split
  · exact h
  · exact DenseMap.find_append_of_bound m k v _ h

/-- The destructor of `ParamReferenceReplacerRAII` leaves every binding of the
map as it finds it: `insert` does nothing for a key that is bound. -/
theorem destructor_keeps_bound (R : ParamReferenceReplacerRAII) (s : CIRGenFunction) (k : Decl)
    (v : Value) (h : DenseMap.find s.LocalDeclMap k = some v) :
    DenseMap.find (R.destructor s).state.LocalDeclMap k = some v := by
  obtain ⟨saved⟩ := R
  simp only [ParamReferenceReplacerRAII.destructor, M.modify, Res.state]
  generalize s.LocalDeclMap = m at h
  induction saved generalizing m with
  | nil => exact h
  | cons kv rest ih =>
    simp only [List.foldl_cons]
    exact ih _ (DenseMap.find_insert_of_bound m k kv.1 v kv.2 h)

/-- C1 (the code does otherwise): lowering `Example.coroutineWithParam` in
`Example.contextWithParam` returns success, and afterwards the parameter
(declaration 3), bound to the address 1000 before the call, is bound to the
address 12 of its copy (declaration 7): the destructor has not put the saved
binding back. -/
theorem paramCopy_binding_not_restored :
    DenseMap.find Example.contextWithParam.LocalDeclMap 3 = some 1000 ∧
    (emitCoroutineBody Example.coroutineWithParam Example.contextWithParam).returns .success
      = true ∧
    DenseMap.find
      (emitCoroutineBody Example.coroutineWithParam Example.contextWithParam).state.LocalDeclMap
      3 = some 12 ∧
    DenseMap.find
      (emitCoroutineBody Example.coroutineWithParam Example.contextWithParam).state.LocalDeclMap
      7 = some 12 := by
  decide!

/-! ## The placeholder of a suspend point (C7) -/

theorem InsertPoint.block_atEnd (b : BlockId) : (InsertPoint.atEnd b).block = b := rfl

theorem ok_of_wp {α : Type} {m : M α} {s s' : CIRGenFunction} {a : α} {P : Prop}
    (he : m s = .ok a s')
    (h : M.wp m (fun a0 s0 => a0 = a → s0 = s' → P) (fun _ => True) s) : P :=
  wp_of_eq h he rfl rfl

theorem DenseMap.find_erase_self {V : Type} (m : List (Nat × V)) (k : Nat) :
    DenseMap.find (DenseMap.erase m k) k = none := by
  induction m with
  | nil => rfl
  | cons kv rest ih =>
    obtain ⟨k', v'⟩ := kv
    unfold DenseMap.erase DenseMap.find at *
    by_cases hk : k' = k
    · rw [List.filter_cons_of_neg (by simpa using hk)]
      exact ih
    · rw [List.filter_cons_of_pos (by simpa using hk), List.lookup_cons]
      have hb : (k == k') = false := by
        simp only [beq_eq_false_iff_ne, ne_eq]
        exact fun h => hk h.symm
      rw [hb]
      exact ih

theorem DenseMap.erase_of_unbound {V : Type} (m : List (Nat × V)) (k : Nat)
    (h : DenseMap.find m k = none) : DenseMap.erase m k = m := by
  induction m with
  | nil => rfl
  | cons kv rest ih =>
    obtain ⟨k', v'⟩ := kv
    unfold DenseMap.erase DenseMap.find at *
    rw [List.lookup_cons] at h
    cases hk : (k == k') with
    | true => simp [hk] at h
    | false =>
      simp only [hk] at h
      have hne : k' ≠ k := by
        intro he
        simp [he] at hk
      rw [List.filter_cons_of_pos (by simpa using hne), ih h]

theorem DenseMap.find_append_of_unbound {V : Type} (m extra : List (Nat × V)) (k : Nat)
    (h : DenseMap.find m k = none) : DenseMap.find (m ++ extra) k = DenseMap.find extra k := by
  induction m with
  | nil => rfl
  | cons kv rest ih =>
    obtain ⟨k', v'⟩ := kv
    unfold DenseMap.find at *
    rw [List.lookup_cons] at h
    cases hk : (k == k') with
    | true => simp [hk] at h
    | false =>
      simp only [hk] at h
      rw [List.cons_append, List.lookup_cons, hk]
      exact ih h

theorem DenseMap.erase_insert_of_unbound {V : Type} (m : List (Nat × V)) (k : Nat) (v : V)
    (h : DenseMap.find m k = none) : DenseMap.erase (DenseMap.insert m k v) k = m := by
  have h' : m.lookup k = none := h
  unfold DenseMap.insert
  simp only [h']
  have h1 := DenseMap.erase_of_unbound m k h
  unfold DenseMap.erase at h1 ⊢
  rw [List.filter_append, h1]
  simp

theorem DenseMap.find_insert_of_unbound {V : Type} (m : List (Nat × V)) (k : Nat) (v : V)
    (h : DenseMap.find m k = none) : DenseMap.find (DenseMap.insert m k v) k = some v := by
  have h' : m.lookup k = none := h
  unfold DenseMap.insert
  simp only [h']
  rw [DenseMap.find_append_of_unbound m _ k h]
  simp [DenseMap.find, List.lookup]

/-- What the lowering of a suspend point does to the opaque-value table and to
the trace, when it returns. -/
theorem emitSuspendExpression_effect (Coro : CGCoroData) (S : CoroutineSuspendExpr)
    (Kind : AwaitKind) (aggSlot : AggValueSlot) (ignoreResult : Bool)
    (scopeParentBlock : BlockId) (tmp : Option Value) (forLValue : Bool)
    (s s' : CIRGenFunction) (res : LValueOrRValue × Option Value)
    (h : emitSuspendExpression Coro S Kind aggSlot ignoreResult scopeParentBlock tmp forLValue s
          = .ok res s') :
    DenseMap.find s'.OpaqueValues S.OpaqueValue = none ∧
    (DenseMap.find s.OpaqueValues S.OpaqueValue = none →
      s'.OpaqueValues = s.OpaqueValues ∧
      DenseMap.find (DenseMap.insert s.OpaqueValues S.OpaqueValue s.nextId) S.OpaqueValue
        = some s.nextId) ∧
    ∃ common ready suspend resume rest,
      lookupOpaqueValues s.OpaqueValues S.CommonExpr.opaqueRefs = some common ∧
      lookupOpaqueValues (DenseMap.insert s.OpaqueValues S.OpaqueValue s.nextId)
        S.ReadyExpr.IgnoreParens.opaqueRefs = some ready ∧
      lookupOpaqueValues (DenseMap.insert s.OpaqueValues S.OpaqueValue s.nextId)
        S.SuspendExpr.opaqueRefs = some suspend ∧
      lookupOpaqueValues (DenseMap.insert s.OpaqueValues S.OpaqueValue s.nextId)
        S.ResumeExpr.opaqueRefs = some resume ∧
      s'.trace = s.trace ++
        suspendPointEvents S Kind s.nextId s.insertPt.block s.nextBlock common ready suspend
          resume ++ rest ∧
      ∀ ev ∈ rest, ev.isNoLowering = true := by
  apply ok_of_wp h
  simp only [emitSuspendExpression, OpaqueValueMappingData.bind, OpaqueValueMappingData.unbind,
    createAwaitOp, emitScalarExpr, evaluateExprAsBool, wp_bind, wp_lowerExpr, wp_modify,
    wp_ret, wp_fail, wp_create, wp_freshBlock, wp_inRegion, implies_true, and_true]
  intro common hcommon ready hready suspend hsuspend
  cases hv : S.SuspendExpr.isVoidType
  · simp [wp_fail]
  · simp only [if_true, wp_bind, wp_create, wp_ret]
    split
    · simp [wp_fail]
    · simp only [wp_ret]
      have hfin : ∀ (resume : List Value) (t : CIRGenFunction),
          lookupOpaqueValues (DenseMap.insert s.OpaqueValues S.OpaqueValue s.nextId)
            S.ResumeExpr.opaqueRefs = some resume →
          (∃ rest, t.trace = s.trace ++
            suspendPointEvents S Kind s.nextId s.insertPt.block s.nextBlock common ready suspend
              resume ++ rest ∧ ∀ ev ∈ rest, ev.isNoLowering = true) →
          t.OpaqueValues = DenseMap.erase
            (DenseMap.insert s.OpaqueValues S.OpaqueValue s.nextId) S.OpaqueValue →
          t = s' →
          DenseMap.find s'.OpaqueValues S.OpaqueValue = none ∧
          (DenseMap.find s.OpaqueValues S.OpaqueValue = none →
            s'.OpaqueValues = s.OpaqueValues ∧
            DenseMap.find (DenseMap.insert s.OpaqueValues S.OpaqueValue s.nextId) S.OpaqueValue
              = some s.nextId) ∧
          ∃ common ready suspend resume rest,
            lookupOpaqueValues s.OpaqueValues S.CommonExpr.opaqueRefs = some common ∧
            lookupOpaqueValues (DenseMap.insert s.OpaqueValues S.OpaqueValue s.nextId)
              S.ReadyExpr.IgnoreParens.opaqueRefs = some ready ∧
            lookupOpaqueValues (DenseMap.insert s.OpaqueValues S.OpaqueValue s.nextId)
              S.SuspendExpr.opaqueRefs = some suspend ∧
            lookupOpaqueValues (DenseMap.insert s.OpaqueValues S.OpaqueValue s.nextId)
              S.ResumeExpr.opaqueRefs = some resume ∧
            s'.trace = s.trace ++
              suspendPointEvents S Kind s.nextId s.insertPt.block s.nextBlock common ready suspend
                resume ++ rest ∧
            ∀ ev ∈ rest, ev.isNoLowering = true := by
        intro resume t hresume ⟨rest, htrace, hrest⟩ hov ht
        subst ht
        refine ⟨?_, fun hunbound => ⟨?_, DenseMap.find_insert_of_unbound _ _ _ hunbound⟩,
          common, ready, suspend, resume, rest, hcommon, hready, hsuspend, hresume, htrace, hrest⟩
        · rw [hov]
          exact DenseMap.find_erase_self _ _
        · rw [hov]
          exact DenseMap.erase_insert_of_unbound _ _ _ hunbound
      cases forLValue
      · simp only [Bool.false_eq_true, if_false, emitAnyExpr]
        cases hk : S.ResumeExpr.evalKind
        · simp only [emitScalarExpr, wp_bind, wp_lowerExpr, wp_ret, implies_true, and_true]
          intro resume hresume
          cases hrv : S.ResumeExpr.isVoidType
          · simp only [Bool.false_eq_true, if_false, wp_bind, wp_get, wp_emitAlloca, wp_create,
              wp_ret]
            intro _
            refine hfin resume _ hresume ?_ rfl
            simp [suspendPointEvents, InsertPoint.block_atEnd, Nat.add_assoc, Event.isNoLowering]
          · simp only [if_true, wp_ret, wp_create]
            intro _
            refine hfin resume _ hresume ?_ rfl
            simp [suspendPointEvents, InsertPoint.block_atEnd, Nat.add_assoc, Event.isNoLowering]
        · simp [wp_bind, wp_lowerExpr, wp_ret, RValue.getScalarVal, wp_fail]
        · simp [wp_bind, wp_lowerExpr, wp_ret, RValue.getScalarVal, wp_fail]
      · simp only [if_true, emitLValue, wp_bind, wp_lowerExpr, wp_ret, wp_create, implies_true,
          and_true]
        intro resume hresume _
        refine hfin resume _ hresume ?_ rfl
        simp [suspendPointEvents, InsertPoint.block_atEnd, Nat.add_assoc, Event.isNoLowering]

/-- C7: when the lowering of a suspend point returns, (1) its placeholder is
unbound; (2) if the placeholder was unbound before the call, the opaque-value
table is what it was before the call; (3) the common subexpression has been
lowered once, as the first operation, and the ready, suspend and resume
expressions have been lowered after it in their three regions with their
placeholders resolved through one and the same table, the table of before the
call with the placeholder inserted for the value of the common subexpression;
(4) nothing else has been lowered by the engine in the call. -/
theorem placeholder_bound_once_then_unbound (Coro : CGCoroData) (S : CoroutineSuspendExpr)
    (Kind : AwaitKind) (aggSlot : AggValueSlot) (ignoreResult : Bool)
    (scopeParentBlock : BlockId) (tmp : Option Value) (forLValue : Bool)
    (s s' : CIRGenFunction) (res : LValueOrRValue × Option Value)
    (h : emitSuspendExpression Coro S Kind aggSlot ignoreResult scopeParentBlock tmp forLValue s
          = .ok res s') :
    DenseMap.find s'.OpaqueValues S.OpaqueValue = none ∧
    (DenseMap.find s.OpaqueValues S.OpaqueValue = none →
      s'.OpaqueValues = s.OpaqueValues ∧
      DenseMap.find (DenseMap.insert s.OpaqueValues S.OpaqueValue s.nextId) S.OpaqueValue
        = some s.nextId) ∧
    ∃ common ready suspend resume rest,
      lookupOpaqueValues s.OpaqueValues S.CommonExpr.opaqueRefs = some common ∧
      lookupOpaqueValues (DenseMap.insert s.OpaqueValues S.OpaqueValue s.nextId)
        S.ReadyExpr.IgnoreParens.opaqueRefs = some ready ∧
      lookupOpaqueValues (DenseMap.insert s.OpaqueValues S.OpaqueValue s.nextId)
        S.SuspendExpr.opaqueRefs = some suspend ∧
      lookupOpaqueValues (DenseMap.insert s.OpaqueValues S.OpaqueValue s.nextId)
        S.ResumeExpr.opaqueRefs = some resume ∧
      s'.trace = s.trace ++
        suspendPointEvents S Kind s.nextId s.insertPt.block s.nextBlock common ready suspend
          resume ++ rest ∧
      ∀ ev ∈ rest, ev.isNoLowering = true :=
  emitSuspendExpression_effect Coro S Kind aggSlot ignoreResult scopeParentBlock tmp forLValue
    s s' res h

/-- C7, witness: the suspend point `co_await e` of `Example.suspend 20 false`,
whose three region expressions refer to the placeholder, lowered in
`Example.context`: afterwards the placeholder 20 is unbound and the table is
the one of before the call. -/
theorem placeholder_bound_once_then_unbound_witness :
    DenseMap.find
      (emitSuspendExpression {} (Example.suspend 20 false) .User { isIgnored := true } false 0
        none false Example.context).state.OpaqueValues
      (Example.suspend 20 false).OpaqueValue = none ∧
    (DenseMap.find Example.context.OpaqueValues (Example.suspend 20 false).OpaqueValue = none →
      (emitSuspendExpression {} (Example.suspend 20 false) .User { isIgnored := true } false 0
        none false Example.context).state.OpaqueValues = Example.context.OpaqueValues ∧
      DenseMap.find
        (DenseMap.insert Example.context.OpaqueValues (Example.suspend 20 false).OpaqueValue
          Example.context.nextId)
        (Example.suspend 20 false).OpaqueValue = some Example.context.nextId) :=
  have h := placeholder_bound_once_then_unbound {} (Example.suspend 20 false) .User
    { isIgnored := true } false 0 none false Example.context _
    ({ RV := .scalar (some 6) }, some 7) (Res.eq_ok_of_returns (by decide!))
  ⟨h.1, h.2.1⟩

/-! ## Frames: what the lowering functions leave alone -/

theorem chains_same {β : Type} (π : CIRGenFunction → β) : Chains (Same π) :=
  ⟨fun _ => rfl, fun _ _ _ h1 h2 => h2.trans h1⟩

theorem builderStable_same_coroAndScope : BuilderStable (fun _ => True) (Same coroAndScope) :=
  { chains_same coroAndScope with
    op := fun _ _ _ _ => rfl
    block := fun _ => rfl
    insertPt := fun _ _ => rfl }

theorem opaqueStable_same_coroAndScope : OpaqueStable (Same coroAndScope) := fun _ _ => rfl

theorem declMapStable_same_coroAndScope : DeclMapStable (Same coroAndScope) := fun _ _ => rfl

theorem failureStable_same_coroAndScope : FailureStable (Same coroAndScope) := fun _ _ => rfl

theorem wp_of_keeps {α : Type} {R : CIRGenFunction → CIRGenFunction → Prop} {m : M α}
    (h : Keeps R m) (s : CIRGenFunction) : M.wp m (fun _ s' => R s s') (fun _ => True) s := by
  have h1 := h s
  unfold M.wp
  cases hm : m s with
  | ok a s' => rw [hm] at h1; exact h1
  | fault f s' => trivial

theorem wp_and {α : Type} {m : M α} {Q1 Q2 : α → CIRGenFunction → Prop} {F : Fault → Prop}
    {s : CIRGenFunction} (h1 : M.wp m Q1 F s) (h2 : M.wp m Q2 (fun _ => True) s) :
    M.wp m (fun a s' => Q1 a s' ∧ Q2 a s') F s := by
  unfold M.wp at *
  cases hm : m s with
  | ok a s' => rw [hm] at h1 h2; exact ⟨h1, h2⟩
  | fault f s' => rw [hm] at h1; exact h1

theorem wp_withLexicalScope {α : Type} (mkOp : BlockId → OpKind) (body : M α)
    (Q : α → CIRGenFunction → Prop) (F : Fault → Prop) (s : CIRGenFunction) :
    M.wp (withLexicalScope mkOp body) Q F s ↔
      M.wp body
        (fun a s2 => Q a { s2 with insertPt := s.insertPt, currLexScope := s.currLexScope }) F
        { s with nextBlock := s.nextBlock + 1
                 ops := insertOp s.ops s.insertPt
                          { id := s.nextId, block := s.insertPt.block, kind := mkOp s.nextBlock }
                 nextId := s.nextId + 1
                 trace := s.trace ++
                   [.created { id := s.nextId, block := s.insertPt.block,
                               kind := mkOp s.nextBlock }]
                 insertPt := .atEnd s.nextBlock
                 currLexScope := { EntryBlock := s.nextBlock } } := by
  unfold withLexicalScope
  simp only [wp_bind, wp_freshBlock, wp_create, wp_get, wp_inRegion, wp_modify, wp_ret]

theorem coreturnUpdate_refl (d : CGCoroData) : CoreturnUpdate d d := ⟨rfl, rfl, rfl, rfl⟩

theorem coreturnUpdate_trans {a b c : CGCoroData} (h1 : CoreturnUpdate a b)
    (h2 : CoreturnUpdate b c) : CoreturnUpdate a c :=
  ⟨h2.1.trans h1.1, h2.2.1.trans h1.2.1, h2.2.2.1.trans h1.2.2.1, h2.2.2.2.trans h1.2.2.2⟩

theorem bump_zero (c : Nat) : bump c 0 = c := by simp [bump]

theorem bump_bump (c a b : Nat) : bump (bump c a) b = bump c (a + b) := by
  unfold bump
  by_cases ha : a = 0 <;> by_cases hb : b = 0 <;>
    simp [ha, hb, Nat.add_mod, Nat.add_assoc]
  omega

theorem bump_fresh (n : Nat) : bump 0 n = n % 2 ^ 32 := by
  unfold bump
  split
  · next h => simp [h]
  · simp

theorem coreturnEffect_of_same (st : Stmt) (hc : st.coreturns = 0)
    (hs : st.coreturnInScope = false) {s s' : CIRGenFunction}
    (h : Same coroAndScope s s') : CoreturnEffect st s s' := by
  have h1 : s'.CurCoro = s.CurCoro := congrArg Prod.fst h
  have h2 : s'.currLexScope = s.currLexScope := congrArg Prod.snd h
  refine ⟨fun d hd => ⟨d, by rw [h1, hd], coreturnUpdate_refl d, ?_, fun _ => rfl,
    fun h0 => absurd hc (by omega)⟩, ?_⟩
  · rw [hc, bump_zero]
  · rw [h2, hs, Bool.or_false]


theorem wp_reportFailure (label : Nat) (Q : LogicalResult → CIRGenFunction → Prop)
    (F : Fault → Prop) (s : CIRGenFunction) :
    M.wp (reportFailure label) Q F s ↔
      Q .failure { s with trace := s.trace ++ [.failed label] } := Iff.rfl

theorem wp_setCoreturn (Q : Unit → CIRGenFunction → Prop) (F : Fault → Prop)
    (s : CIRGenFunction) :
    M.wp setCoreturn Q F s ↔
      Q () { s with currLexScope := { s.currLexScope with HasCoreturn := true } } := Iff.rfl

theorem wp_createBlock (Q : BlockId → CIRGenFunction → Prop) (F : Fault → Prop)
    (s : CIRGenFunction) :
    M.wp createBlock Q F s ↔
      Q s.nextBlock { s with nextBlock := s.nextBlock + 1, insertPt := .atEnd s.nextBlock } := by
  unfold createBlock
  simp only [wp_bind, wp_freshBlock, wp_setInsertionPoint, wp_ret]

theorem wp_getOrCreateRetBlock (Q : BlockId → CIRGenFunction → Prop) (F : Fault → Prop)
    (s : CIRGenFunction) :
    M.wp getOrCreateRetBlock Q F s ↔
      (∀ b, s.currLexScope.RetBlock = some b → Q b s) ∧
      (s.currLexScope.RetBlock = none →
        Q s.nextBlock { s with nextBlock := s.nextBlock + 1
                               currLexScope := { s.currLexScope with
                                                 RetBlock := some s.nextBlock } }) := by
  unfold M.wp getOrCreateRetBlock
  cases h : s.currLexScope.RetBlock <;> simp

theorem coreturnEffect_seq {a b : Stmt} {s s1 s2 : CIRGenFunction}
    (h1 : CoreturnEffect a s s1) (h2 : CoreturnEffect b s1 s2) :
    CoreturnEffect (.seq a b) s s2 := by
  refine ⟨fun d hd => ?_, ?_⟩
  · obtain ⟨d1, hd1, hu1, hc1, he1⟩ := h1.1 d hd
    obtain ⟨d2, hd2, hu2, hc2, he2⟩ := h2.1 d1 hd1
    refine ⟨d2, hd2, coreturnUpdate_trans hu1 hu2, ?_, ?_, ?_⟩
    · rw [hc2, hc1, bump_bump]
      rfl
    · intro h0
      simp only [Stmt.coreturns, Nat.add_eq_zero] at h0
      rw [he2.1 h0.2, he1.1 h0.1]
    · intro h0
      simp only [Stmt.coreturns] at h0
      by_cases hb : b.coreturns = 0
      · rw [he2.1 hb]
        exact he1.2 (by omega)
      · exact he2.2 (by omega)
  · rw [h2.2, h1.2]
    simp [Stmt.coreturnInScope, Bool.or_assoc]

theorem coreturnEffect_coreturn (Operand : Option Expr) (pc : Stmt)
    {s s1 s2 sfin : CIRGenFunction} {d : CGCoroData} (hd : s.CurCoro.Data = some d)
    (h1 : s1.CurCoro.Data
      = some { d with CoreturnCount := (d.CoreturnCount + 1) % 2 ^ 32 })
    (h1s : s1.currLexScope.HasCoreturn = true) (e2 : CoreturnEffect pc s1 s2)
    (hfin : ∀ d2, s2.CurCoro.Data = some d2 →
      ∃ br, sfin.CurCoro.Data = some { d2 with FinalSuspendInsPoint := some br })
    (hflag : sfin.currLexScope.HasCoreturn = s2.currLexScope.HasCoreturn) :
    CoreturnEffect (.CoreturnStmt Operand pc) s sfin := by
  refine ⟨fun d0 hd0 => ?_, ?_⟩
  · rw [hd] at hd0
    cases hd0
    obtain ⟨d2, hd2, hu2, hc2, _⟩ := e2.1 _ h1
    obtain ⟨ins, hins⟩ := hfin d2 hd2
    refine ⟨_, hins, ⟨hu2.1, hu2.2.1, hu2.2.2.1, hu2.2.2.2⟩, ?_, ?_, fun _ => ⟨ins, rfl⟩⟩
    · show d2.CoreturnCount = _
      rw [hc2]
      simp only [Stmt.coreturns]
      rw [← bump_bump]
      rfl
    · intro h0
      simp only [Stmt.coreturns] at h0
      omega
  · rw [hflag, e2.2, h1s]
    simp [Stmt.coreturnInScope]

/-- What a successful lowering of a statement does to the coroutine record and
to the flag of the current lexical scope: the counter goes up by the number of
`co_return` statements in it (modulo 2^32), the insertion point of the final
suspend may move, and the flag is set exactly if one of them belongs to the
current scope. -/
theorem emitStmt_coreturnEffect (st : Stmt) :
    ∀ s, M.wp (emitStmt st) (fun r s' => r = .success → CoreturnEffect st s s')
      (fun _ => True) s := by
  induction st with
  | other label lowers =>
    intro s
    unfold emitStmt
    split
    · simp only [wp_bind, wp_create, wp_ret]
      exact fun _ => coreturnEffect_of_same (.other label lowers) rfl rfl rfl
    · simp [wp_reportFailure]
  | DeclStmt decls lowers =>
    intro s
    unfold emitStmt
    split
    · rw [wp_bind]
      refine wp_mono (wp_of_keeps (keeps_emitDecls builderStable_same_coroAndScope
        declMapStable_same_coroAndScope decls) s) (fun _ s' h => ?_) (fun _ h => h)
      rw [wp_ret]
      exact fun _ => coreturnEffect_of_same (.DeclStmt decls lowers) rfl rfl h
    · simp [wp_reportFailure]
  | seq first second ih1 ih2 =>
    intro s
    unfold emitStmt
    rw [wp_andThen]
    refine wp_mono (ih1 s) (fun r s1 h1 => ⟨?_, fun hr => ?_⟩) (fun _ h => h)
    · intro _ hc
      cases hc
    · exact wp_mono (ih2 s1) (fun r2 s2 h2 hr2 => coreturnEffect_seq (h1 hr) (h2 hr2))
        (fun _ h => h)
  | scope body ih =>
    intro s
    unfold emitStmt
    rw [wp_withLexicalScope]
    refine wp_mono (ih _) (fun r s2 h2 hr => ?_) (fun _ h => h)
    obtain ⟨hd, _⟩ := h2 hr
    exact ⟨fun d hd0 => hd d hd0, by simp [Stmt.coreturnInScope]⟩
  | whileTrue body ih =>
    intro s
    unfold emitStmt
    rw [wp_withLexicalScope]
    refine wp_mono (ih _) (fun r s2 h2 hr => ?_) (fun _ h => h)
    obtain ⟨hd, _⟩ := h2 hr
    exact ⟨fun d hd0 => hd d hd0, by simp [Stmt.coreturnInScope]⟩
  | CoreturnStmt Operand PromiseCall ih =>
    intro s
    unfold emitStmt emitCoreturnStmt
    simp only [wp_bind, wp_modifyCoroData, wp_setCoreturn, implies_true, and_true]
    intro d hd
    have hop : Keeps (Same coroAndScope)
        (match Operand with
         | some RV =>
           if RV.isVoidType && !RV.isInitListExpr then emitIgnoredExpr RV else M.ret ()
         | none => M.ret ()) := by
      split
      · split
        · exact keeps_emitIgnoredExpr builderStable_same_coroAndScope _
        · exact keeps_ret (chains_same _) _
      · exact keeps_ret (chains_same _) _
    refine wp_mono (wp_of_keeps hop _) (fun _ s1 h1 => ?_) (fun _ h => h)
    have h1c : s1.CurCoro.Data
        = some { d with CoreturnCount := (d.CoreturnCount + 1) % 2 ^ 32 } := by
      rw [show s1.CurCoro = _ from congrArg Prod.fst h1]
      rfl
    have h1s : s1.currLexScope.HasCoreturn = true := by
      rw [show s1.currLexScope = _ from congrArg Prod.snd h1]
      rfl
    rw [wp_andThen]
    refine wp_mono (ih s1) (fun r s2 h2 => ⟨?_, fun hr => ?_⟩) (fun _ h => h)
    · intro _ hc
      cases hc
    have e2 := h2 hr
    simp only [wp_bind, wp_getOrCreateRetBlock, wp_createOp, wp_modifyCoroData, wp_createBlock,
      wp_ret, implies_true, and_true]
    refine ⟨fun b _ d2 hd2 => ?_, fun _ d2 hd2 => ?_⟩
    · intro _
      refine coreturnEffect_coreturn Operand PromiseCall hd h1c h1s e2 ?_ rfl
      intro d2' hd2'
      rw [hd2] at hd2'
      cases hd2'
      exact ⟨_, rfl⟩
    · intro _
      refine coreturnEffect_coreturn Operand PromiseCall hd h1c h1s e2 ?_ rfl
      intro d2' hd2'
      simp only at hd2
      rw [hd2] at hd2'
      cases hd2'
      exact ⟨_, rfl⟩
  | coawait E slot ign =>
    intro s
    unfold emitStmt
    rw [wp_bind]
    refine wp_mono (wp_of_keeps (keeps_emitCoawaitExpr builderStable_same_coroAndScope
      opaqueStable_same_coroAndScope (fun _ => trivial) E slot ign) s) (fun _ s' h => ?_)
      (fun _ h => h)
    rw [wp_ret]
    exact fun _ => coreturnEffect_of_same (.coawait E slot ign) rfl rfl h
  | coyield E slot ign =>
    intro s
    unfold emitStmt
    rw [wp_bind]
    refine wp_mono (wp_of_keeps (keeps_emitCoyieldExpr builderStable_same_coroAndScope
      opaqueStable_same_coroAndScope trivial E slot ign) s) (fun _ s' h => ?_)
      (fun _ h => h)
    rw [wp_ret]
    exact fun _ => coreturnEffect_of_same (.coyield E slot ign) rfl rfl h

/-! ## The kinds of the await operations in the trace -/

theorem chains_grows (p : Event → Prop) : Chains (Grows p) := by
  refine ⟨fun s => ⟨[], by simp, by simp⟩, fun a b c h1 h2 => ?_⟩
  obtain ⟨seg1, e1, p1⟩ := h1
  obtain ⟨seg2, e2, p2⟩ := h2
  refine ⟨seg1 ++ seg2, by rw [e2, e1, List.append_assoc], fun ev hev => ?_⟩
  rcases List.mem_append.mp hev with h | h
  · exact p1 ev h
  · exact p2 ev h

theorem grows_of_trace_eq {p : Event → Prop} {s s' : CIRGenFunction}
    (h : s'.trace = s.trace) : Grows p s s' :=
  ⟨[], by simp [h], by simp⟩

theorem grows_mono {p q : Event → Prop} (hpq : ∀ ev, p ev → q ev) {s s' : CIRGenFunction}
    (h : Grows p s s') : Grows q s s' := by
  obtain ⟨seg, e, hp⟩ := h
  exact ⟨seg, e, fun ev hev => hpq ev (hp ev hev)⟩

theorem builderStable_grows (A : AwaitKind → Prop) : BuilderStable A (Grows (AwaitsIn A)) :=
  { chains_grows _ with
    op := fun s pt k hk => ⟨[.created { id := s.nextId, block := pt.block, kind := k }], rfl, by
      intro ev hev op hop
      simp only [List.mem_singleton] at hev
      subst hev
      cases hop
      exact hk.1⟩
    block := fun _ => grows_of_trace_eq rfl
    insertPt := fun _ _ => grows_of_trace_eq rfl }

theorem opaqueStable_grows (p : Event → Prop) : OpaqueStable (Grows p) :=
  fun _ _ => grows_of_trace_eq rfl

theorem builderStable_same_curCoro :
    BuilderStable (fun _ => True) (Same CIRGenFunction.CurCoro) :=
  { chains_same _ with
    op := fun _ _ _ _ => rfl
    block := fun _ => rfl
    insertPt := fun _ _ => rfl }

theorem chains_kindTrace (k : AwaitKind) : Chains (KindTrace k) := by
  refine ⟨fun s h => ⟨h, (chains_grows _).refl s⟩, fun a b c h1 h2 h => ?_⟩
  obtain ⟨hb, g1⟩ := h1 h
  obtain ⟨hc, g2⟩ := h2 hb
  exact ⟨hc, (chains_grows _).trans _ _ _ g1 g2⟩

theorem kindTrace_of_eq (k : AwaitKind) {s s' : CIRGenFunction}
    (hc : s'.CurCoro = s.CurCoro) (ht : s'.trace = s.trace) : KindTrace k s s' := by
  intro h
  exact ⟨by rw [hc]; exact h, grows_of_trace_eq ht⟩

theorem builderStable_kindTrace (k : AwaitKind) :
    BuilderStable (fun _ => False) (KindTrace k) :=
  { chains_kindTrace k with
    op := fun s pt kd hk h => ⟨h,
      [.created { id := s.nextId, block := pt.block, kind := kd }], rfl, by
        intro ev hev op hop
        simp only [List.mem_singleton] at hev
        subst hev
        cases hop
        intro kind r1 r2 r3 he
        exact (hk.1 kind r1 r2 r3 he).elim⟩
    block := fun _ => kindTrace_of_eq k rfl rfl
    insertPt := fun _ _ => kindTrace_of_eq k rfl rfl }

theorem keeps_kindTrace_emitSuspendExpr (k kind : AwaitKind) (hk : kind = k ∨ kind = .Yield)
    (E : CoroutineSuspendExpr) (slot : AggValueSlot) (ign : Bool) :
    Keeps (KindTrace k) (emitSuspendExpr E kind slot ign) := by
  intro s h
  have h1 := @keeps_emitSuspendExpr _ _ builderStable_same_curCoro (fun _ _ => rfl) E
    kind trivial slot ign s
  have h2 := keeps_emitSuspendExpr (builderStable_grows fun x => x = k ∨ x = .Yield)
    (opaqueStable_grows _) E hk slot ign s
  refine ⟨?_, h2⟩
  rw [show (emitSuspendExpr E kind slot ign s).state.CurCoro = s.CurCoro from h1]
  exact h

/-- While the current await kind is `k`, lowering a statement leaves it `k`
and creates await operations of kind `k` or `Yield` only. -/
theorem keeps_kindTrace_emitStmt (k : AwaitKind) (st : Stmt) :
    Keeps (KindTrace k) (emitStmt st) := by
  refine keeps_emitStmt (builderStable_kindTrace k) (fun _ _ => kindTrace_of_eq k rfl rfl)
    (fun _ _ => kindTrace_of_eq k rfl rfl) ?_ ?_ ?_ ?_ ?_ st
  · intro s l h
    refine ⟨h, [.failed l], rfl, ?_⟩
    intro ev hev op hop
    simp only [List.mem_singleton] at hev
    subst hev
    cases hop
  · intro s d hd h
    obtain ⟨d0, hd0, hk0⟩ := h
    rw [hd] at hd0
    cases hd0
    exact ⟨⟨_, rfl, hk0⟩, grows_of_trace_eq rfl⟩
  · intro retBlock s h
    obtain ⟨d0, hd0, hk0⟩ := h
    rw [emitBranchToRetBlock_eq retBlock s d0 hd0 _ rfl]
    refine ⟨⟨_, rfl, hk0⟩,
      [.created { id := s.nextId, block := s.insertPt.block, kind := .br retBlock }], rfl, ?_⟩
    intro ev hev op hop
    simp only [List.mem_singleton] at hev
    subst hev
    cases hop
    intro kind r1 r2 r3 he
    cases he
  · intro E slot ign s h
    obtain ⟨d, hd, hk⟩ := h
    have he : emitCoawaitExpr E slot ign s = emitSuspendExpr E k slot ign s := by
      simp [emitCoawaitExpr, M.bind, getCoroData, hd, hk]
    rw [he]
    exact keeps_kindTrace_emitSuspendExpr k k (Or.inl rfl) E slot ign s ⟨d, hd, hk⟩
  · intro E slot ign
    exact keeps_kindTrace_emitSuspendExpr k .Yield (Or.inr rfl) E slot ign

/-! ## The final suspend -/

theorem wp_of_forall_ok {α : Type} {m : M α} {Q : α → CIRGenFunction → Prop}
    {s : CIRGenFunction} (h : ∀ a s', m s = .ok a s' → Q a s') :
    M.wp m Q (fun _ => True) s := by
  unfold M.wp
  cases hm : m s with
  | ok a s' => exact h a s' hm
  | fault f s' => trivial

theorem newEvents_of_trace_eq {s s' : CIRGenFunction} {seg : List Event}
    (h : s'.trace = s.trace ++ seg) : newEvents s s' = seg := by
  unfold newEvents
  rw [h]
  exact List.drop_left _ _

/-- The lowering of a suspend point creates an await operation of its kind. -/
theorem emitSuspendExpr_final_lowered (E : CoroutineSuspendExpr) (slot : AggValueSlot)
    (ign : Bool) (s s' : CIRGenFunction) (rv : RValue)
    (h : emitSuspendExpr E .Final slot ign s = .ok rv s') :
    ∃ seg, s'.trace = s.trace ++ seg ∧ seg.any Event.isFinalAwait = true := by
  apply ok_of_wp h
  unfold emitSuspendExpr
  simp only [wp_bind, wp_getEntryBlock, wp_getCoroData, implies_true, and_true]
  intro d _
  refine wp_of_forall_ok fun res s1 h1 => ?_
  obtain ⟨_, _, common, ready, suspend, resume, rest, _, _, _, _, htr, _⟩ :=
    emitSuspendExpression_effect _ _ _ _ _ _ _ _ _ _ _ h1
  have hany : ∀ extra : List Event,
      (suspendPointEvents E .Final s.nextId s.insertPt.block s.nextBlock common ready suspend
        resume ++ rest ++ extra).any Event.isFinalAwait = true := by
    intro extra
    simp [suspendPointEvents, Event.isFinalAwait]
  split
  · rw [wp_ret]
    rintro _ rfl
    exact ⟨_, by rw [htr, List.append_assoc], by simpa using hany []⟩
  · split
    · split
      · simp only [wp_bind, wp_create, wp_ret, htr]
        rintro _ rfl
        have e : ∀ ev : Event,
            s.trace ++ suspendPointEvents E .Final s.nextId s.insertPt.block s.nextBlock common
                ready suspend resume ++ rest ++ [ev]
              = s.trace ++ (suspendPointEvents E .Final s.nextId s.insertPt.block s.nextBlock
                  common ready suspend resume ++ rest ++ [ev]) := by
          intro ev
          simp only [List.append_assoc]
        exact ⟨_, e _, hany _⟩
      · trivial
    · split <;> trivial


theorem noFinal_of_awaitsIn {A : AwaitKind → Prop} (hA : ¬ A .Final) (ev : Event)
    (h : AwaitsIn A ev) : ev.isFinalAwait = false := by
  cases ev with
  | failed l => rfl
  | created op =>
    obtain ⟨id, block, kind⟩ := op
    cases kind with
    | await k r1 r2 r3 =>
      cases k with
      | Final => exact (hA (h _ rfl .Final r1 r2 r3 rfl)).elim
      | _ => rfl
    | _ => rfl

theorem chains_noFinalAwait : Chains NoFinalAwait := chains_grows _

theorem noFinalAwait_of_kindTrace {k : AwaitKind} (hk : k ≠ .Final) {s s' : CIRGenFunction}
    (h : Grows (AwaitsIn fun x => x = k ∨ x = .Yield) s s') : NoFinalAwait s s' :=
  grows_mono (noFinal_of_awaitsIn (by
    rintro (h | h)
    · exact hk h.symm
    · cases h)) h

theorem finalSuspendLowered_of_noFinalAwait {s s' : CIRGenFunction} (h : NoFinalAwait s s') :
    finalSuspendLowered s s' = false := by
  obtain ⟨seg, e, hp⟩ := h
  unfold finalSuspendLowered
  rw [newEvents_of_trace_eq e]
  simpa using hp

/-- One statement lowered successfully while the await kind is `k`, not `Final`. -/
theorem emitStmt_step (k : AwaitKind) (hk : k ≠ .Final) (st : Stmt) (s : CIRGenFunction)
    (hs : ∃ d, s.CurCoro.Data = some d ∧ d.CurrentAwaitKind = k) :
    M.wp (emitStmt st)
      (fun r s' => r = .success →
        CoreturnEffect st s s' ∧ NoFinalAwait s s' ∧
        ∃ d', s'.CurCoro.Data = some d' ∧ d'.CurrentAwaitKind = k)
      (fun _ => True) s := by
  refine wp_mono
    (wp_and (emitStmt_coreturnEffect st s) (wp_of_keeps (keeps_kindTrace_emitStmt k st) s))
    (fun r s' h hr => ?_) (fun _ h => h)
  obtain ⟨hk', hg⟩ := h.2 hs
  exact ⟨h.1 hr, noFinalAwait_of_kindTrace hk hg, hk'⟩

theorem progress_refl {s : CIRGenFunction} {d : CGCoroData} (hd : s.CurCoro.Data = some d) :
    Progress 0 false s s :=
  ⟨d, d, hd, hd, (bump_zero _).symm, fun _ => rfl, fun h => absurd h (by omega), by simp,
    chains_noFinalAwait.refl s⟩

theorem progress_stmt {n : Nat} {f : Bool} {st : Stmt} {s t t' : CIRGenFunction}
    (h : Progress n f s t) (he : CoreturnEffect st t t') (hn : NoFinalAwait t t') :
    Progress (n + st.coreturns) (f || st.coreturnInScope) s t' := by
  obtain ⟨d, dt, hd, hdt, hc, hi, hset, hf, hnf⟩ := h
  obtain ⟨dt', hdt', _, hc', he', hset'⟩ := he.1 dt hdt
  refine ⟨d, dt', hd, hdt', ?_, ?_, ?_, ?_, chains_noFinalAwait.trans _ _ _ hnf hn⟩
  · rw [hc', hc, bump_bump]
  · intro h0
    have h1 : n = 0 := by omega
    have h2 : st.coreturns = 0 := by omega
    rw [he' h2, hi h1]
  · intro h0
    by_cases h2 : st.coreturns = 0
    · rw [he' h2]
      exact hset (by omega)
    · exact hset' (by omega)
  · rw [he.2, hf, Bool.or_assoc]

theorem progress_frame {n : Nat} {f : Bool} {s t t' : CIRGenFunction}
    (h : Progress n f s t) (hc : t'.CurCoro = t.CurCoro)
    (hsc : t'.currLexScope.HasCoreturn = t.currLexScope.HasCoreturn)
    (hn : NoFinalAwait t t') : Progress n f s t' := by
  obtain ⟨d, dt, hd, hdt, hc', hi, hset, hf, hnf⟩ := h
  exact ⟨d, dt, hd, by rw [hc, hdt], hc', hi, hset, by rw [hsc, hf],
    chains_noFinalAwait.trans _ _ _ hnf hn⟩

theorem progress_kind {n : Nat} {f : Bool} {s t t' : CIRGenFunction} {dt : CGCoroData}
    (k : AwaitKind) (h : Progress n f s t) (hdt : t.CurCoro.Data = some dt)
    (hc : t'.CurCoro.Data = some { dt with CurrentAwaitKind := k })
    (hsc : t'.currLexScope.HasCoreturn = t.currLexScope.HasCoreturn)
    (hn : NoFinalAwait t t') : Progress n f s t' := by
  obtain ⟨d, dt0, hd, hdt0, hc', hi, hset, hf, hnf⟩ := h
  rw [hdt] at hdt0
  cases hdt0
  exact ⟨d, _, hd, hc, hc', hi, hset, by rw [hsc, hf],
    chains_noFinalAwait.trans _ _ _ hnf hn⟩

/-- A `co_await` statement lowered while the await kind is `Final`. -/
theorem emitStmt_final_coawait (E : CoroutineSuspendExpr) (slot : AggValueSlot) (ign : Bool)
    (t1 : CIRGenFunction) (d1 : CGCoroData) (h1 : t1.CurCoro.Data = some d1)
    (hk : d1.CurrentAwaitKind = .Final) :
    M.wp (emitStmt (.coawait E slot ign))
      (fun r t2 => r = .success ∧ t2.CurCoro = t1.CurCoro ∧
        t2.currLexScope = t1.currLexScope ∧
        ∃ seg, t2.trace = t1.trace ++ seg ∧ seg.any Event.isFinalAwait = true)
      (fun _ => True) t1 := by
  unfold emitStmt emitCoawaitExpr
  rw [wp_bind, wp_bind, wp_getCoroData]
  refine ⟨fun d hd => ?_, fun _ => trivial⟩
  rw [h1] at hd
  cases hd
  rw [hk]
  refine wp_of_forall_ok fun rv t2 h2 => ?_
  have hsame := @keeps_emitSuspendExpr _ _ builderStable_same_coroAndScope
    opaqueStable_same_coroAndScope E .Final trivial slot ign t1
  rw [h2] at hsame
  rw [wp_ret]
  exact ⟨rfl, congrArg Prod.fst hsame, congrArg Prod.snd hsame,
    emitSuspendExpr_final_lowered E slot ign _ _ rv h2⟩

/-- The decision on the final suspend and its lowering (lines 360-371), after
`n` `co_return` statements were lowered since the context `s`. -/
theorem emitFinalSuspend_spec (S : CoroutineBodyStmt) (E : CoroutineSuspendExpr)
    (slot : AggValueSlot) (ign : Bool) (hF : S.FinalSuspendStmt = .coawait E slot ign)
    {n : Nat} {f : Bool} {s t : CIRGenFunction} {d : CGCoroData}
    (hd : s.CurCoro.Data = some d) (hp : Progress n f s t) :
    M.wp (emitFinalSuspend S)
      (fun r t' => r = .success →
        ∃ d', t'.CurCoro.Data = some d' ∧
          d'.CoreturnCount = bump d.CoreturnCount n ∧
          t'.currLexScope.HasCoreturn = (s.currLexScope.HasCoreturn || f) ∧
          finalSuspendLowered s t' =
            (t'.currLexScope.HasCoreturn || decide (d'.CoreturnCount > 0)) ∧
          (finalSuspendLowered s t' = true → d.FinalSuspendInsPoint = none → 0 < n) ∧
          ∃ seg, t'.trace = s.trace ++ seg)
      (fun _ => True) t := by
  obtain ⟨d0, dt, hd0, hdt, hc, hi, hset, hf, hnf⟩ := hp
  rw [hd] at hd0
  cases hd0
  unfold emitFinalSuspend
  rw [wp_bind, wp_hasCoreturn, wp_bind, wp_getCoroData]
  refine ⟨fun dt' hdt' => ?_, fun h => by rw [hdt] at h; cases h⟩
  rw [hdt] at hdt'
  cases hdt'
  dsimp only
  split
  · rename_i hcond
    rw [wp_bind, wp_modifyCoroData]
    refine ⟨fun dt' hdt' => ?_, fun h => by rw [hdt] at h; cases h⟩
    rw [hdt] at hdt'
    cases hdt'
    rw [wp_andThen, wp_withInsertionGuard, wp_bind, wp_getCoroData]
    refine ⟨fun d1 hd1 => ?_, fun h => by cases h⟩
    cases hd1
    dsimp only
    cases hip : dt.FinalSuspendInsPoint with
    | none => exact trivial
    | some op =>
      dsimp only
      rw [wp_bind, wp_setInsertionPoint, hF]
      refine wp_mono (emitStmt_final_coawait E slot ign _ _ rfl rfl) (fun r t2 h => ?_)
        (fun _ h => h)
      obtain ⟨rfl, hcoro, hscope, seg, hseg, hany⟩ := h
      obtain ⟨seg0, hseg0, _⟩ := hnf
      have hlow : finalSuspendLowered s { t2 with insertPt := t.insertPt } = true := by
        unfold finalSuspendLowered
        have htr : ({ t2 with insertPt := t.insertPt } : CIRGenFunction).trace
            = s.trace ++ (seg0 ++ seg) := by
          show t2.trace = _
          rw [hseg]
          show t.trace ++ seg = _
          rw [hseg0, List.append_assoc]
        rw [newEvents_of_trace_eq htr]
        simp [hany]
      refine ⟨fun h => (by cases h), fun _ => ?_⟩
      rw [wp_ret]
      intro _
      refine ⟨_, (by rw [hcoro]), ?_, ?_, ?_, ?_,
        ⟨seg0 ++ seg, by
          show t2.trace = _
          rw [hseg]
          show t.trace ++ seg = _
          rw [hseg0, List.append_assoc]⟩⟩
      · exact hc
      · show t2.currLexScope.HasCoreturn = _
        rw [hscope, hf]
      · rw [hlow]
        show true = (t2.currLexScope.HasCoreturn || _)
        rw [hscope]
        exact hcond.symm
      · intro _ hnone
        by_contra h0
        have h1 : n = 0 := by omega
        rw [hi h1, hnone] at hip
        cases hip
  · rename_i hcond
    rw [wp_ret]
    intro _
    refine ⟨dt, hdt, hc, hf, ?_, ?_, ?_⟩
    · rw [finalSuspendLowered_of_noFinalAwait hnf]
      simpa using hcond
    · rw [finalSuspendLowered_of_noFinalAwait hnf]
      intro h
      cases h
    · obtain ⟨seg0, hseg0, _⟩ := hnf
      exact ⟨seg0, hseg0⟩


theorem progress_flag {n : Nat} {f : Bool} {s t : CIRGenFunction} (h : Progress n f s t) :
    t.currLexScope.HasCoreturn = (s.currLexScope.HasCoreturn || f) := by
  obtain ⟨_, _, _, _, _, _, _, hf, _⟩ := h
  exact hf

theorem progress_cast {n n' : Nat} {f f' : Bool} {s t : CIRGenFunction}
    (h : Progress n f s t) (hn : n = n')
    (hf : (s.currLexScope.HasCoreturn || f) = (s.currLexScope.HasCoreturn || f')) :
    Progress n' f' s t := by
  obtain ⟨d, dt, hd, hdt, hc, hi, hset, hfl, hnf⟩ := h
  subst hn
  exact ⟨d, dt, hd, hdt, hc, hi, hset, by rw [hfl, hf], hnf⟩

/-- The body and the fallthrough handler (lines 138-159), lowered while the
await kind is `k`, not `Final`. -/
theorem emitBodyAndFallthrough_spec (S : CoroutineBodyStmt) (Body : Stmt) (k : AwaitKind)
    (hk : k ≠ .Final) {n : Nat} {f : Bool} {s t : CIRGenFunction} (hp : Progress n f s t)
    (hkt : ∃ dt, t.CurCoro.Data = some dt ∧ dt.CurrentAwaitKind = k) :
    M.wp (emitBodyAndFallthrough S Body)
      (fun r t' => r = .success →
        Progress
          (n + Body.coreturns +
            match S.FallthroughHandler with
            | some OnFallthrough =>
              if s.currLexScope.HasCoreturn || (f || Body.coreturnInScope) then 0
              else OnFallthrough.coreturns
            | none => 0)
          (f || Body.coreturnInScope ||
            match S.FallthroughHandler with
            | some OnFallthrough =>
              if s.currLexScope.HasCoreturn || (f || Body.coreturnInScope) then false
              else OnFallthrough.coreturnInScope
            | none => false) s t')
      (fun _ => True) t := by
  unfold emitBodyAndFallthrough
  rw [wp_andThen]
  refine wp_mono (emitStmt_step k hk Body t hkt) (fun r t5 h => ?_) (fun _ h => h)
  refine ⟨fun _ hr' => (by cases hr'), fun hr => ?_⟩
  obtain ⟨he, hn, hk5⟩ := h hr
  have p5 := progress_stmt hp he hn
  rw [wp_bind, wp_hasCoreturn]
  dsimp only
  rw [progress_flag p5]
  cases hfl : (s.currLexScope.HasCoreturn || (f || Body.coreturnInScope)) with
  | true =>
    simp only [Bool.not_true, Bool.false_eq_true, if_false, wp_ret]
    intro _
    refine progress_cast p5 ?_ ?_
    · cases S.FallthroughHandler <;> simp
    · cases S.FallthroughHandler <;> simp
  | false =>
    simp only [Bool.not_false, if_true]
    cases hH : S.FallthroughHandler with
    | none =>
      simp only [wp_ret]
      intro _
      exact progress_cast p5 (by simp) (by simp)
    | some OnFallthrough =>
      simp only
      rw [wp_andThen]
      refine wp_mono (emitStmt_step k hk OnFallthrough t5 hk5) (fun r t6 h => ?_) (fun _ h => h)
      refine ⟨fun _ hr' => (by cases hr'), fun hr => ?_⟩
      obtain ⟨he6, hn6, _⟩ := h hr
      rw [wp_ret]
      intro _
      exact progress_cast (progress_stmt p5 he6 hn6) (by simp) (by simp)


theorem wp_setKind (k : AwaitKind) {n : Nat} {f : Bool} {s t : CIRGenFunction}
    (hp : Progress n f s t) (Q : Unit → CIRGenFunction → Prop)
    (h : ∀ t', Progress n f s t' →
      (∃ dt, t'.CurCoro.Data = some dt ∧ dt.CurrentAwaitKind = k) → Q () t') :
    M.wp (modifyCoroData fun d => { d with CurrentAwaitKind := k }) Q (fun _ => True) t := by
  rw [wp_modifyCoroData]
  refine ⟨fun dt hdt => ?_, fun _ => trivial⟩
  exact h _ (progress_kind k hp hdt rfl rfl (chains_noFinalAwait.refl _)) ⟨_, rfl, rfl⟩

theorem emitAnyExprToMem_frame (E : Expr) (addr : Value) (t : CIRGenFunction) :
    M.wp (emitAnyExprToMem E addr)
      (fun _ t' => t'.CurCoro = t.CurCoro ∧ t'.currLexScope = t.currLexScope ∧
        NoFinalAwait t t')
      (fun _ => True) t := by
  refine wp_mono
    (wp_and (wp_of_keeps (keeps_emitAnyExprToMem builderStable_same_coroAndScope E addr) t)
      (wp_of_keeps (keeps_emitAnyExprToMem (builderStable_grows fun _ => False) E addr) t))
    (fun _ t' h => ?_) (fun _ h => h)
  exact ⟨congrArg Prod.fst h.1, congrArg Prod.snd h.1,
    grows_mono (noFinal_of_awaitsIn fun h => h) h.2⟩

/-! ## Faults: the insertion point of the final suspend is read only once -/

theorem GetParamRef.record_append (V : GetParamRef) (a b : List Decl) :
    GetParamRef.record V (a ++ b) =
      match GetParamRef.record V a with
      | .ok V' => GetParamRef.record V' b
      | .error f => .error f := by
  induction a generalizing V with
  | nil => rfl
  | cons d rest ih =>
    simp only [List.cons_append, GetParamRef.record]
    cases V.Expr with
    | none => exact ih _
    | some _ => rfl

mutual

theorem GetParamRef.Visit_eq_record :
    ∀ (E : CIRGen.Expr) (V : GetParamRef), GetParamRef.Visit E V = GetParamRef.record V E.declRefs
  | .mk _ (.DeclRefExpr d) _ _ _, V => by
    rw [GetParamRef.Visit, Expr.declRefs]
    cases hV : V.Expr <;> simp [GetParamRef.record, hV]
  | .mk _ (.CXXMemberCallExpr _) _ _ cs, V => by
    rw [GetParamRef.Visit, Expr.declRefs]
    exact GetParamRef.VisitChildren_eq_record cs V
  | .mk _ .InitListExpr _ _ cs, V => by
    rw [GetParamRef.Visit, Expr.declRefs]
    exact GetParamRef.VisitChildren_eq_record cs V
  | .mk _ .ParenExpr _ _ cs, V => by
    rw [GetParamRef.Visit, Expr.declRefs]
    exact GetParamRef.VisitChildren_eq_record cs V
  | .mk _ (.OpaqueValueExpr _) _ _ cs, V => by
    rw [GetParamRef.Visit, Expr.declRefs]
    exact GetParamRef.VisitChildren_eq_record cs V
  | .mk _ .Other _ _ cs, V => by
    rw [GetParamRef.Visit, Expr.declRefs]
    exact GetParamRef.VisitChildren_eq_record cs V

theorem GetParamRef.VisitChildren_eq_record :
    ∀ (cs : List (Option CIRGen.Expr)) (V : GetParamRef),
      GetParamRef.VisitChildren cs V = GetParamRef.record V (Expr.declRefsOfChildren cs)
  | [], V => by
    rw [GetParamRef.VisitChildren, Expr.declRefsOfChildren]
    rfl
  | none :: cs, V => by
    rw [GetParamRef.VisitChildren, Expr.declRefsOfChildren]
    exact GetParamRef.VisitChildren_eq_record cs V
  | some c :: cs, V => by
    rw [GetParamRef.VisitChildren, Expr.declRefsOfChildren, GetParamRef.record_append,
      GetParamRef.Visit_eq_record c V]
    cases GetParamRef.record V c.declRefs with
    | ok V' => exact GetParamRef.VisitChildren_eq_record cs V'
    | error f => rfl

end

theorem wp_createCoroData (CoroId : Value) (Q : Unit → CIRGenFunction → Prop)
    (F : Fault → Prop) (s : CIRGenFunction) :
    M.wp (createCoroData CoroId) Q F s ↔
      (s.CurCoro.Data = none →
        Q () { s with CurCoro := { Data := some { CoroId := some CoroId } } }) ∧
      (∀ d, s.CurCoro.Data = some d →
        F (.unreachable "EmitCoroutineBodyStatement called twice?")) := by
  unfold M.wp createCoroData
  cases h : s.CurCoro.Data <;> simp

theorem avoids_iff {α : Type} (m : M α) (s : CIRGenFunction) :
    M.wp m (fun _ _ => True) NotUnset s ↔
      (m s).faultOf ≠ some (.undefinedBehaviour "FinalSuspendInsPoint is not set") := by
  unfold M.wp Res.faultOf NotUnset
  cases m s <;> simp

theorem wp_avoids {α : Type} {m : M α} {Q : α → CIRGenFunction → Prop} {s : CIRGenFunction}
    (ha : Avoids m) (h : M.wp m Q (fun _ => True) s) : M.wp m Q NotUnset s := by
  have h1 := ha s
  unfold M.wp at *
  cases hm : m s with
  | ok a s' => rw [hm] at h; exact h
  | fault f s' => rw [hm] at h1; exact h1

theorem avoids_bind {α β : Type} {m : M α} {k : α → M β} (hm : Avoids m)
    (hk : ∀ a, Avoids (k a)) : Avoids (M.bind m k) := by
  intro s
  rw [wp_bind]
  exact wp_mono (hm s) (fun a s' _ => hk a s') (fun _ h => h)

theorem avoids_ret {α : Type} (a : α) : Avoids (M.ret a) := fun _ => trivial

theorem avoids_fail {α : Type} {f : Fault} (h : NotUnset f) : Avoids (M.fail f : M α) :=
  fun _ => h

theorem avoids_get : Avoids M.get := fun _ => trivial

theorem avoids_modify (f : CIRGenFunction → CIRGenFunction) : Avoids (M.modify f) :=
  fun _ => trivial

theorem avoids_assert (c : Bool) (msg : String) : Avoids (M.assert c msg) := by
  intro s
  rw [wp_assert]
  exact ⟨fun _ => trivial, fun _ h => by cases h⟩

theorem avoids_andThen {m k : M LogicalResult} (hm : Avoids m) (hk : Avoids k) :
    Avoids (M.andThen m k) := by
  intro s
  rw [wp_andThen]
  exact wp_mono (hm s) (fun _ s' _ => ⟨fun _ => trivial, fun _ => hk s'⟩) (fun _ h => h)

theorem avoids_createOpAt (pt : InsertPoint) (k : OpKind) : Avoids (createOpAt pt k) :=
  fun _ => trivial

theorem avoids_createOp (k : OpKind) : Avoids (createOp k) := fun _ => trivial

theorem avoids_create (k : OpKind) : Avoids (create k) := fun _ => trivial

theorem avoids_freshBlock : Avoids freshBlock := fun _ => trivial

theorem avoids_setInsertionPoint (pt : InsertPoint) : Avoids (setInsertionPoint pt) :=
  fun _ => trivial

theorem avoids_withInsertionGuard {α : Type} {m : M α} (hm : Avoids m) :
    Avoids (withInsertionGuard m) := by
  intro s
  rw [wp_withInsertionGuard]
  exact wp_mono (hm s) (fun _ _ _ => trivial) (fun _ h => h)

theorem avoids_inRegion {α : Type} (b : BlockId) {m : M α} (hm : Avoids m) :
    Avoids (inRegion b m) :=
  avoids_withInsertionGuard (avoids_bind (avoids_setInsertionPoint _) fun _ => hm)

theorem avoids_createBlock : Avoids createBlock :=
  avoids_bind avoids_freshBlock fun _ =>
    avoids_bind (avoids_setInsertionPoint _) fun _ => avoids_ret _

theorem avoids_createIfOp (cond : Value) {m : M Unit} (hm : Avoids m) :
    Avoids (createIfOp cond m) :=
  avoids_bind avoids_freshBlock fun _ =>
    avoids_bind (avoids_create _) fun _ =>
      avoids_bind (avoids_inRegion _ hm) fun _ => avoids_ret _

theorem avoids_createAwaitOp {α : Type} (kind : AwaitKind) {m1 m2 : M Unit} {m3 : M α}
    (h1 : Avoids m1) (h2 : Avoids m2) (h3 : Avoids m3) :
    Avoids (createAwaitOp kind m1 m2 m3) :=
  avoids_bind avoids_freshBlock fun _ =>
    avoids_bind avoids_freshBlock fun _ =>
      avoids_bind avoids_freshBlock fun _ =>
        avoids_bind (avoids_create _) fun _ =>
          avoids_bind (avoids_inRegion _ h1) fun _ =>
            avoids_bind (avoids_inRegion _ h2) fun _ => avoids_inRegion _ h3

theorem avoids_emitAlloca (name : String) (ip : InsertPoint) : Avoids (emitAlloca name ip) :=
  fun _ => trivial

theorem avoids_getScalarVal (rv : RValue) : Avoids rv.getScalarVal := by
  cases rv
  · exact avoids_ret _
  · exact avoids_fail (by decide)
  · exact avoids_fail (by decide)

theorem avoids_lowerExpr (E : Expr) : Avoids (lowerExpr E) := by
  unfold lowerExpr
  refine avoids_bind avoids_get fun s => ?_
  split
  · exact avoids_create _
  · exact avoids_fail (by decide)

theorem avoids_emitScalarExpr (E : Expr) : Avoids (emitScalarExpr E) :=
  avoids_bind (avoids_lowerExpr E) fun _ => avoids_ret _

theorem avoids_evaluateExprAsBool (E : Expr) : Avoids (evaluateExprAsBool E) :=
  avoids_lowerExpr E

theorem avoids_emitLValue (E : Expr) : Avoids (emitLValue E) :=
  avoids_bind (avoids_lowerExpr E) fun _ => avoids_ret _

theorem avoids_emitAnyExpr (E : Expr) (slot : AggValueSlot) (ign : Bool) :
    Avoids (emitAnyExpr E slot ign) := by
  unfold emitAnyExpr
  split
  · exact avoids_bind (avoids_emitScalarExpr E) fun _ => avoids_ret _
  · exact avoids_bind (avoids_lowerExpr E) fun _ => avoids_ret _
  · exact avoids_bind (avoids_lowerExpr E) fun _ => avoids_ret _

theorem avoids_emitIgnoredExpr (E : Expr) : Avoids (emitIgnoredExpr E) :=
  avoids_bind (avoids_emitAnyExpr E _ _) fun _ => avoids_ret _

theorem avoids_emitAnyExprToMem (E : Expr) (addr : Value) : Avoids (emitAnyExprToMem E addr) :=
  avoids_bind (avoids_create _) fun _ => avoids_ret _

theorem avoids_hasCoreturn : Avoids hasCoreturn := fun _ => trivial

theorem avoids_setCoreturn : Avoids setCoreturn := fun _ => trivial

theorem avoids_getEntryBlock : Avoids getEntryBlock := fun _ => trivial

theorem avoids_getOrCreateRetBlock : Avoids getOrCreateRetBlock := by
  intro s
  rw [wp_getOrCreateRetBlock]
  exact ⟨fun _ _ => trivial, fun _ => trivial⟩

theorem avoids_withLexicalScope {α : Type} (mkOp : BlockId → OpKind) {body : M α}
    (hb : Avoids body) : Avoids (withLexicalScope mkOp body) :=
  avoids_bind avoids_freshBlock fun _ =>
    avoids_bind (avoids_create _) fun _ =>
      avoids_bind avoids_get fun _ =>
        avoids_bind (avoids_inRegion _ (avoids_bind (avoids_modify _) fun _ => hb)) fun _ =>
          avoids_bind (avoids_modify _) fun _ => avoids_ret _

theorem avoids_opaqueBind (ov : OpaqueValueExpr) (e : Expr) :
    Avoids (OpaqueValueMappingData.bind ov e) :=
  avoids_bind (avoids_lowerExpr e) fun _ =>
    avoids_bind (avoids_modify _) fun _ => avoids_ret _

theorem avoids_opaqueUnbind (d : OpaqueValueMappingData) : Avoids d.unbind :=
  avoids_modify _

theorem avoids_getCoroData : Avoids getCoroData := by
  intro s
  rw [wp_getCoroData]
  exact ⟨fun _ _ => trivial, fun _ => by decide⟩

theorem avoids_modifyCoroData (f : CGCoroData → CGCoroData) : Avoids (modifyCoroData f) := by
  intro s
  rw [wp_modifyCoroData]
  exact ⟨fun _ _ => trivial, fun _ => by decide⟩

theorem avoids_suspendExpression (Coro : CGCoroData) (S : CoroutineSuspendExpr)
    (Kind : AwaitKind) (aggSlot : AggValueSlot) (ignoreResult : Bool)
    (scopeParentBlock : BlockId) (tmp : Option Value) (forLValue : Bool) :
    Avoids (emitSuspendExpression Coro S Kind aggSlot ignoreResult scopeParentBlock tmp
      forLValue) := by
  unfold emitSuspendExpression
  dsimp only
  refine avoids_bind (avoids_opaqueBind _ _) fun _ =>
    avoids_bind (avoids_createAwaitOp _ ?_ ?_ ?_) fun _ =>
      avoids_bind (avoids_opaqueUnbind _) fun _ => avoids_ret _
  · exact avoids_bind (avoids_evaluateExprAsBool _) fun _ =>
      avoids_bind (avoids_create _) fun _ => avoids_ret _
  · refine avoids_bind (avoids_emitScalarExpr _) fun suspendRet => ?_
    cases suspendRet with
    | some _ => exact avoids_fail (by decide)
    | none => exact avoids_bind (avoids_create _) fun _ => avoids_ret _
  · refine avoids_bind ?_ fun _ => avoids_bind ?_ fun _ =>
      avoids_bind (avoids_create _) fun _ => avoids_ret _
    · split
      · exact avoids_fail (by decide)
      · exact avoids_ret _
    · split
      · exact avoids_bind (avoids_emitLValue _) fun _ => avoids_ret _
      · refine avoids_bind (avoids_emitAnyExpr _ _ _) fun RV => ?_
        split
        · exact avoids_ret _
        · exact avoids_bind avoids_get fun _ =>
            avoids_bind (avoids_emitAlloca _ _) fun _ =>
              avoids_bind (avoids_create _) fun _ => avoids_ret _
        · exact avoids_bind (avoids_getScalarVal _) fun _ => avoids_ret _


theorem avoids_emitSuspendExpr (E : CoroutineSuspendExpr) (kind : AwaitKind)
    (aggSlot : AggValueSlot) (ignoreResult : Bool) :
    Avoids (emitSuspendExpr E kind aggSlot ignoreResult) := by
  unfold emitSuspendExpr
  refine avoids_bind avoids_getEntryBlock fun _ =>
    avoids_bind avoids_getCoroData fun _ =>
      avoids_bind (avoids_suspendExpression _ _ _ _ _ _ _ _) fun res => ?_
  dsimp only
  split
  · exact avoids_ret _
  · split
    · split
      · exact avoids_bind (avoids_create _) fun _ => avoids_ret _
      · exact avoids_fail (by decide)
    · split <;> exact avoids_fail (by decide)

theorem avoids_emitCoawaitExpr (E : CoroutineSuspendExpr) (aggSlot : AggValueSlot)
    (ignoreResult : Bool) : Avoids (emitCoawaitExpr E aggSlot ignoreResult) :=
  avoids_bind avoids_getCoroData fun _ => avoids_emitSuspendExpr _ _ _ _

theorem avoids_emitCoyieldExpr (E : CoroutineSuspendExpr) (aggSlot : AggValueSlot)
    (ignoreResult : Bool) : Avoids (emitCoyieldExpr E aggSlot ignoreResult) :=
  avoids_emitSuspendExpr _ _ _ _

theorem avoids_emitCoreturnStmt {emitPromiseCall : M LogicalResult}
    (hp : Avoids emitPromiseCall) (Operand : Option Expr) :
    Avoids (emitCoreturnStmt emitPromiseCall Operand) := by
  unfold emitCoreturnStmt
  refine avoids_bind (avoids_modifyCoroData _) fun _ =>
    avoids_bind avoids_setCoreturn fun _ => avoids_bind ?_ fun _ => avoids_andThen hp ?_
  · split
    · split
      · exact avoids_emitIgnoredExpr _
      · exact avoids_ret _
    · exact avoids_ret _
  · exact avoids_bind avoids_getOrCreateRetBlock fun _ =>
      avoids_bind (avoids_createOp _) fun _ =>
        avoids_bind (avoids_modifyCoroData _) fun _ =>
          avoids_bind avoids_createBlock fun _ => avoids_ret _

theorem avoids_emitVarDecl (VD : VarDecl) : Avoids (emitVarDecl VD) := by
  unfold emitVarDecl
  exact avoids_bind avoids_get fun _ =>
    avoids_bind (avoids_emitAlloca _ _) fun _ =>
      avoids_bind (avoids_assert _ _) fun _ =>
        avoids_bind (avoids_modify _) fun _ =>
          avoids_bind (avoids_create _) fun _ => avoids_ret _

theorem avoids_emitDecls (decls : List VarDecl) : Avoids (emitDecls decls) := by
  induction decls with
  | nil => exact avoids_ret _
  | cons VD rest ih => exact avoids_bind (avoids_emitVarDecl VD) fun _ => ih

theorem avoids_reportFailure (label : Nat) : Avoids (reportFailure label) := fun _ => trivial

/-- Lowering a statement never reads the insertion point of the final suspend. -/
theorem avoids_emitStmt (st : Stmt) : Avoids (emitStmt st) := by
  induction st with
  | other label lowers =>
    unfold emitStmt
    split
    · exact avoids_bind (avoids_create _) fun _ => avoids_ret _
    · exact avoids_reportFailure _
  | DeclStmt decls lowers =>
    unfold emitStmt
    split
    · exact avoids_bind (avoids_emitDecls _) fun _ => avoids_ret _
    · exact avoids_reportFailure _
  | seq first second ih1 ih2 =>
    unfold emitStmt
    exact avoids_andThen ih1 ih2
  | scope body ih =>
    unfold emitStmt
    exact avoids_withLexicalScope _ ih
  | whileTrue body ih =>
    unfold emitStmt
    exact avoids_withLexicalScope _ ih
  | CoreturnStmt Operand PromiseCall ih =>
    unfold emitStmt
    exact avoids_emitCoreturnStmt ih _
  | coawait E slot ign =>
    unfold emitStmt
    exact avoids_bind (avoids_emitCoawaitExpr E slot ign) fun _ => avoids_ret _
  | coyield E slot ign =>
    unfold emitStmt
    exact avoids_bind (avoids_emitCoyieldExpr E slot ign) fun _ => avoids_ret _

theorem avoids_emitBodyAndFallthrough (S : CoroutineBodyStmt) (Body : Stmt) :
    Avoids (emitBodyAndFallthrough S Body) := by
  unfold emitBodyAndFallthrough
  refine avoids_andThen (avoids_emitStmt _) (avoids_bind avoids_hasCoreturn fun _ => ?_)
  dsimp only
  split
  · split
    · exact avoids_andThen (avoids_emitStmt _) (avoids_ret _)
    · exact avoids_ret _
  · exact avoids_ret _

theorem GetParamRef.record_error (V : GetParamRef) (refs : List Decl) (f : Fault)
    (h : GetParamRef.record V refs = .error f) :
    f = .assertion "multilple declref in param move" := by
  induction refs generalizing V with
  | nil => cases h
  | cons d rest ih =>
    unfold GetParamRef.record at h
    cases hV : V.Expr with
    | none =>
      rw [hV] at h
      exact ih _ h
    | some _ =>
      rw [hV] at h
      cases h
      rfl

theorem avoids_addCopy (P : ParamReferenceReplacerRAII) (PM : Stmt) :
    Avoids (P.addCopy PM) := by
  intro s
  rw [avoids_iff]
  unfold ParamReferenceReplacerRAII.addCopy
  cases PM with
  | DeclStmt decls lowers =>
    cases decls with
    | nil => simp [M.fail, Res.faultOf]
    | cons VD tl =>
      cases tl with
      | cons _ _ => simp [M.fail, Res.faultOf]
      | nil =>
        dsimp only
        cases hvisit : GetParamRef.Visit VD.Init {} with
        | error f =>
          rw [GetParamRef.Visit_eq_record] at hvisit
          rw [GetParamRef.record_error _ _ _ hvisit]
          simp [M.fail, Res.faultOf]
        | ok Visitor =>
          dsimp only
          cases Visitor.Expr with
          | none => simp [M.fail, Res.faultOf]
          | some PD =>
            dsimp only
            cases DenseMap.find s.LocalDeclMap PD with
            | none => simp [Res.faultOf]
            | some saved =>
              dsimp only
              cases DenseMap.find s.LocalDeclMap VD.decl with
              | none => simp [Res.faultOf]
              | some copy => simp [Res.faultOf]
  | _ => simp [M.fail, Res.faultOf]


theorem avoids_emitParamMoves (PMs : List Stmt) :
    ∀ P : ParamReferenceReplacerRAII, Avoids (emitParamMoves PMs P) := by
  induction PMs with
  | nil =>
    intro P
    exact avoids_ret _
  | cons PM rest ih =>
    intro P
    unfold emitParamMoves
    refine avoids_bind (avoids_emitStmt PM) fun r => ?_
    split
    · exact avoids_ret _
    · exact avoids_bind (avoids_addCopy P PM) fun P' => ih P'

theorem avoids_createCoroData (CoroId : Value) : Avoids (createCoroData CoroId) := by
  intro s
  rw [wp_createCoroData]
  exact ⟨fun _ => trivial, fun _ _ => by decide⟩

theorem avoids_getOrCreateBuiltin (name : String) : Avoids (getOrCreateBuiltin name) :=
  fun _ => trivial

theorem avoids_emitCoroIDBuiltinCall (nullPtr : Value) :
    Avoids (emitCoroIDBuiltinCall nullPtr) := by
  unfold emitCoroIDBuiltinCall
  exact avoids_bind avoids_get fun _ =>
    avoids_bind (avoids_getOrCreateBuiltin _) fun _ =>
      avoids_bind (avoids_create _) fun _ => avoids_create _

theorem avoids_emitCoroAllocBuiltinCall : Avoids emitCoroAllocBuiltinCall := by
  unfold emitCoroAllocBuiltinCall
  refine avoids_bind (avoids_getOrCreateBuiltin _) fun _ =>
    avoids_bind avoids_getCoroData fun Data => ?_
  split
  · exact avoids_create _
  · exact avoids_fail (by decide)

theorem avoids_emitCoroBeginBuiltinCall (frame : Value) :
    Avoids (emitCoroBeginBuiltinCall frame) := by
  unfold emitCoroBeginBuiltinCall
  refine avoids_bind (avoids_getOrCreateBuiltin _) fun _ =>
    avoids_bind avoids_getCoroData fun Data => ?_
  split
  · exact avoids_create _
  · exact avoids_fail (by decide)

theorem avoids_emitCoroutineBodyPrologue (S : CoroutineBodyStmt) :
    Avoids (emitCoroutineBodyPrologue S) := by
  unfold emitCoroutineBodyPrologue
  refine avoids_bind (avoids_create _) fun _ =>
    avoids_bind avoids_get fun _ =>
    avoids_bind (avoids_assert _ _) fun _ =>
    avoids_bind (avoids_modify _) fun _ =>
    avoids_bind (avoids_emitCoroIDBuiltinCall _) fun _ =>
    avoids_bind (avoids_createCoroData _) fun _ =>
    avoids_bind avoids_emitCoroAllocBuiltinCall fun _ =>
    avoids_bind avoids_get fun _ =>
    avoids_bind (avoids_emitAlloca _ _) fun _ =>
    avoids_bind (avoids_create _) fun _ =>
    avoids_bind (avoids_createIfOp _ ?_) fun _ =>
    avoids_bind (avoids_create _) fun _ =>
    avoids_bind (avoids_emitCoroBeginBuiltinCall _) fun _ =>
    avoids_bind (avoids_modifyCoroData _) fun _ => ?_
  · refine avoids_bind (avoids_emitScalarExpr _) fun mem => ?_
    cases mem with
    | none => exact avoids_fail (by decide)
    | some v =>
      exact avoids_bind (avoids_create _) fun _ =>
        avoids_bind (avoids_create _) fun _ => avoids_ret _
  · split
    · exact avoids_fail (by decide)
    · exact avoids_ret _

theorem avoids_destructor (P : ParamReferenceReplacerRAII) : Avoids P.destructor :=
  avoids_modify _

theorem wp_step {α : Type} {m : M α} {Q Q' : α → CIRGenFunction → Prop} {F : Fault → Prop}
    {s : CIRGenFunction} (hF : ∀ f, NotUnset f → F f) (ha : Avoids m)
    (h : M.wp m Q (fun _ => True) s) (hQ : ∀ a s', Q a s' → Q' a s') : M.wp m Q' F s :=
  wp_mono (wp_avoids ha h) hQ hF

/-- The lowering from the promise declaration to the decision on the final
suspend (lines 318-359): when the decision is reached, the `co_return`
statements lowered so far are those of `loweredCoreturns`, and no final-suspend
region has been emitted. -/
theorem emitPromiseToFinalSuspend_wp (S : CoroutineBodyStmt) (s : CIRGenFunction)
    (d : CGCoroData) (hd : s.CurCoro.Data = some d) (hk : d.CurrentAwaitKind ≠ .Final)
    (Q : LogicalResult → CIRGenFunction → Prop) (F : Fault → Prop)
    (hF : ∀ f, NotUnset f → F f) (hQ : ∀ t, Q .failure t)
    (hfin : ∀ t,
      Progress (S.loweredCoreturns s.currLexScope.HasCoreturn)
        (S.flagAtFinal s.currLexScope.HasCoreturn) s t →
      M.wp (emitFinalSuspend S) Q F t) :
    M.wp (emitPromiseToFinalSuspend S) Q F s := by
  unfold emitPromiseToFinalSuspend
  rw [wp_andThen]
  refine wp_step hF (avoids_emitStmt _) (emitStmt_step _ hk S.PromiseDeclStmt s ⟨d, hd, rfl⟩)
    (fun r t1 h => ?_)
  refine ⟨fun _ => hQ _, fun hr => ?_⟩
  obtain ⟨he1, hn1, d1, hd1, hk1⟩ := h hr
  have p1 := progress_stmt (progress_refl hd) he1 hn1
  rw [wp_bind, wp_get, wp_bind, wp_assert]
  refine ⟨fun _ => ?_, fun _ => hF _ (by decide)⟩
  rw [wp_bind]
  have step2 : M.wp (match t1.ReturnValue with
      | some addr => emitAnyExprToMem S.ReturnValue addr
      | none => M.ret ())
      (fun _ t' => t'.CurCoro = t1.CurCoro ∧ t'.currLexScope = t1.currLexScope ∧
        NoFinalAwait t1 t') NotUnset t1 := by
    cases t1.ReturnValue with
    | none => exact ⟨rfl, rfl, chains_noFinalAwait.refl _⟩
    | some addr => exact wp_avoids (avoids_emitAnyExprToMem _ _) (emitAnyExprToMem_frame _ _ _)
  refine wp_mono step2 (fun _ t2 h => ?_) hF
  obtain ⟨hc2, hs2, hn2⟩ := h
  have p2 := progress_frame p1 hc2 (by rw [hs2]) hn2
  have hd2 : t2.CurCoro.Data = some d1 := by rw [hc2, hd1]
  rw [wp_bind]
  refine wp_step hF (avoids_modifyCoroData _) (wp_setKind .Init p2 _ fun t3 p3 hk3 => ?_)
    (fun _ _ h => h)
  rw [wp_andThen]
  refine wp_step hF (avoids_emitStmt _) (emitStmt_step _ (by decide) S.InitSuspendStmt t3 hk3)
    (fun r t4 h => ?_)
  refine ⟨fun _ => hQ _, fun hr => ?_⟩
  obtain ⟨he4, hn4, _⟩ := h hr
  have p4 := progress_stmt p3 he4 hn4
  rw [wp_bind]
  refine wp_step hF (avoids_modifyCoroData _) (wp_setKind .User p4 _ fun t5 p5 hk5 => ?_)
    (fun _ _ h => h)
  rw [wp_bind]
  have step6 : M.wp (if S.ExceptionHandler.isSome
      then M.assert (!t1.missing.unhandledException) "NYI" else M.ret ())
      (fun _ t' => t' = t5) NotUnset t5 := by
    split
    · rw [wp_assert]
      exact ⟨fun _ => rfl, fun _ => by decide⟩
    · rfl
  refine wp_mono step6 (fun _ t6 h => ?_) hF
  subst h
  rw [wp_andThen]
  refine wp_step hF (avoids_emitBodyAndFallthrough _ _)
    (emitBodyAndFallthrough_spec S S.Body .User (by decide) p5 hk5) (fun r t7 h => ?_)
  refine ⟨fun _ => hQ _, fun hr => ?_⟩
  have p7 := h hr
  have hN : (0 + S.PromiseDeclStmt.coreturns + S.InitSuspendStmt.coreturns + S.Body.coreturns +
      match S.FallthroughHandler with
      | some OnFallthrough =>
        if s.currLexScope.HasCoreturn ||
            (false || S.PromiseDeclStmt.coreturnInScope || S.InitSuspendStmt.coreturnInScope ||
              S.Body.coreturnInScope) then 0
        else OnFallthrough.coreturns
      | none => 0) = S.loweredCoreturns s.currLexScope.HasCoreturn := by
    unfold CoroutineBodyStmt.loweredCoreturns CoroutineBodyStmt.handlerCoreturns
      CoroutineBodyStmt.flagAfterBody
    cases S.FallthroughHandler <;> simp [Bool.or_assoc]
  have hFl : (s.currLexScope.HasCoreturn ||
      (false || S.PromiseDeclStmt.coreturnInScope || S.InitSuspendStmt.coreturnInScope ||
        S.Body.coreturnInScope ||
      match S.FallthroughHandler with
      | some OnFallthrough =>
        if s.currLexScope.HasCoreturn ||
            (false || S.PromiseDeclStmt.coreturnInScope || S.InitSuspendStmt.coreturnInScope ||
              S.Body.coreturnInScope) then false
        else OnFallthrough.coreturnInScope
      | none => false)) = S.flagAtFinal s.currLexScope.HasCoreturn := by
    unfold CoroutineBodyStmt.flagAtFinal CoroutineBodyStmt.flagAfterBody
    cases S.FallthroughHandler with
    | none => simp [Bool.or_assoc]
    | some OnFallthrough =>
      cases s.currLexScope.HasCoreturn <;> cases S.PromiseDeclStmt.coreturnInScope <;>
        cases S.InitSuspendStmt.coreturnInScope <;> cases S.Body.coreturnInScope <;> simp
  refine hfin t7 (progress_cast p7 hN ?_)
  rw [hFl]
  unfold CoroutineBodyStmt.flagAtFinal CoroutineBodyStmt.flagAfterBody
  cases s.currLexScope.HasCoreturn <;> simp

theorem chains_prologueKeep : Chains PrologueKeep :=
  ⟨fun s => ⟨rfl, chains_noFinalAwait.refl s, fun h => h⟩,
   fun _ _ _ h1 h2 => ⟨h2.1.trans h1.1, chains_noFinalAwait.trans _ _ _ h1.2.1 h2.2.1,
     fun h => h2.2.2 (h1.2.2 h)⟩⟩

theorem prologueKeep_of_eq {s t : CIRGenFunction} (h1 : t.currLexScope = s.currLexScope)
    (h2 : t.trace = s.trace) (h3 : t.CurCoro = s.CurCoro) : PrologueKeep s t :=
  ⟨h1, grows_of_trace_eq h2, fun ⟨d, hd, h⟩ => ⟨d, by rw [h3, hd], h⟩⟩

theorem builderStable_prologueKeep : BuilderStable (fun _ => False) PrologueKeep :=
  { chains_prologueKeep with
    op := fun s pt k hk => ⟨rfl,
      grows_mono (noFinal_of_awaitsIn fun h => h)
        ((builderStable_grows fun _ => False).op s pt k hk), fun h => h⟩
    block := fun _ => prologueKeep_of_eq rfl rfl rfl
    insertPt := fun _ _ => prologueKeep_of_eq rfl rfl rfl }

theorem keeps_getOrCreateBuiltin {R : CIRGenFunction → CIRGenFunction → Prop}
    (hg : ∀ s g, R s { s with globals := g }) (name : String) :
    Keeps R (getOrCreateBuiltin name) :=
  keeps_modify fun s => hg s _

theorem keeps_emitCoroAllocBuiltinCall {A : AwaitKind → Prop}
    {R : CIRGenFunction → CIRGenFunction → Prop} (h : BuilderStable A R)
    (hg : ∀ s g, R s { s with globals := g }) : Keeps R emitCoroAllocBuiltinCall := by
  have hc := h.toChains
  unfold emitCoroAllocBuiltinCall
  refine keeps_bind hc (keeps_getOrCreateBuiltin hg _) fun _ =>
    keeps_bind hc (keeps_getCoroData hc) fun Data => ?_
  split
  · exact keeps_create h (Admits.of_not_await rfl)
  · exact keeps_fail hc _

theorem keeps_emitCoroBeginBuiltinCall {A : AwaitKind → Prop}
    {R : CIRGenFunction → CIRGenFunction → Prop} (h : BuilderStable A R)
    (hg : ∀ s g, R s { s with globals := g }) (frame : Value) :
    Keeps R (emitCoroBeginBuiltinCall frame) := by
  have hc := h.toChains
  unfold emitCoroBeginBuiltinCall
  refine keeps_bind hc (keeps_getOrCreateBuiltin hg _) fun _ =>
    keeps_bind hc (keeps_getCoroData hc) fun Data => ?_
  split
  · exact keeps_create h (Admits.of_not_await rfl)
  · exact keeps_fail hc _

theorem keeps_emitCoroIDBuiltinCall {A : AwaitKind → Prop}
    {R : CIRGenFunction → CIRGenFunction → Prop} (h : BuilderStable A R)
    (hg : ∀ s g, R s { s with globals := g }) (nullPtr : Value) :
    Keeps R (emitCoroIDBuiltinCall nullPtr) := by
  have hc := h.toChains
  unfold emitCoroIDBuiltinCall
  exact keeps_bind hc (keeps_get hc) fun _ =>
    keeps_bind hc (keeps_getOrCreateBuiltin hg _) fun _ =>
      keeps_bind hc (keeps_create h (Admits.of_not_await rfl)) fun _ =>
        keeps_create h (Admits.of_not_await rfl)

theorem wp_bind_keeps {α β : Type} {R : CIRGenFunction → CIRGenFunction → Prop}
    (hc : Chains R) {m : M α} (hm : Keeps R m) {k : α → M β}
    {Q : β → CIRGenFunction → Prop} {s t : CIRGenFunction} (hst : R s t)
    (h : ∀ a t', R s t' → M.wp (k a) Q (fun _ => True) t') :
    M.wp (M.bind m k) Q (fun _ => True) t := by
  rw [wp_bind]
  exact wp_mono (wp_of_keeps hm t) (fun a t' h' => h a t' (hc.trans _ _ _ hst h'))
    (fun _ h => h)

/-- The set-up of the coroutine frame (lines 250-291): it leaves a fresh
coroutine record, the current lexical scope as it was, and no final-suspend
region. -/
theorem emitCoroutineBodyPrologue_spec (S : CoroutineBodyStmt) (s : CIRGenFunction) :
    M.wp (emitCoroutineBodyPrologue S)
      (fun _ t => t.currLexScope = s.currLexScope ∧ NoFinalAwait s t ∧ FreshCoro t)
      (fun _ => True) s := by
  have hb := builderStable_prologueKeep
  have hc := chains_prologueKeep
  have hg : ∀ s g, PrologueKeep s { s with globals := g } :=
    fun _ _ => prologueKeep_of_eq rfl rfl rfl
  have hna : ∀ {k : OpKind},
      (match k with | .await _ _ _ _ => true | .br _ => true | _ => false) = false →
      Keeps PrologueKeep (create k) := fun hk => keeps_create hb (Admits.of_not_await hk)
  unfold emitCoroutineBodyPrologue
  refine wp_bind_keeps hc (hna rfl) (hc.refl s) fun nullPtrCst t1 h1 => ?_
  rw [wp_bind, wp_get, wp_bind, wp_assert]
  refine ⟨fun _ => ?_, fun _ => trivial⟩
  refine wp_bind_keeps hc
    (keeps_modify (f := fun s' => { s' with CoroutineAttr := true })
      fun _ => prologueKeep_of_eq rfl rfl rfl) h1 fun _ t2 h2 => ?_
  refine wp_bind_keeps hc (keeps_emitCoroIDBuiltinCall hb hg _) h2 fun coroId t3 h3 => ?_
  rw [wp_bind, wp_createCoroData]
  refine ⟨fun _ => ?_, fun _ _ => trivial⟩
  have h4 : PrologueKeep s { t3 with CurCoro := { Data := some { CoroId := some coroId } } } :=
    ⟨h3.1, h3.2.1, fun _ => ⟨_, rfl, rfl, rfl, rfl⟩⟩
  have hfresh : FreshCoro { t3 with CurCoro := { Data := some { CoroId := some coroId } } } :=
    ⟨_, rfl, rfl, rfl, rfl⟩
  generalize ({ t3 with CurCoro := { Data := some { CoroId := some coroId } } } :
    CIRGenFunction) = t4 at h4 hfresh ⊢
  refine wp_bind_keeps hc (keeps_emitCoroAllocBuiltinCall hb hg) (hc.refl t4)
    fun coroAlloc t5 h5 => ?_
  rw [wp_bind, wp_get]
  refine wp_bind_keeps hc (keeps_emitAlloca hb _ _) h5 fun storeAddr t6 h6 => ?_
  refine wp_bind_keeps hc (hna rfl) h6 fun _ t7 h7 => ?_
  refine wp_bind_keeps hc (keeps_createIfOp hb _ ?_) h7 fun _ t8 h8 => ?_
  · refine keeps_bind hc (keeps_emitScalarExpr hb _) fun mem => ?_
    cases mem with
    | none => exact keeps_fail hc _
    | some v =>
      exact keeps_bind hc (hna rfl) fun _ =>
        keeps_bind hc (hna rfl) fun _ => keeps_ret hc _
  refine wp_bind_keeps hc (hna rfl) h8 fun frame t9 h9 => ?_
  refine wp_bind_keeps hc (keeps_emitCoroBeginBuiltinCall hb hg _) h9 fun coroBegin t10 h10 => ?_
  refine wp_bind_keeps hc (keeps_modifyCoroData hc fun s d hd =>
    ⟨rfl, grows_of_trace_eq rfl, fun ⟨d', hd', hk, hcnt, hip⟩ => ?_⟩) h10 fun _ t11 h11 => ?_
  · rw [hd] at hd'
    cases hd'
    exact ⟨_, rfl, hk, hcnt, hip⟩
  split
  · trivial
  · have hall := hc.trans _ _ _ h4 h11
    exact ⟨hall.1, hall.2.1, h11.2.2 hfresh⟩


theorem chains_frameKeep : Chains FrameKeep :=
  ⟨fun s => ⟨rfl, rfl, chains_noFinalAwait.refl s⟩,
   fun _ _ _ h1 h2 => ⟨h2.1.trans h1.1, h2.2.1.trans h1.2.1,
     chains_noFinalAwait.trans _ _ _ h1.2.2 h2.2.2⟩⟩

theorem frameKeep_of_eq {s t : CIRGenFunction} (h1 : t.CurCoro = s.CurCoro)
    (h2 : t.currLexScope = s.currLexScope) (h3 : t.trace = s.trace) : FrameKeep s t :=
  ⟨h1, h2, grows_of_trace_eq h3⟩

theorem builderStable_frameKeep : BuilderStable (fun _ => False) FrameKeep :=
  { chains_frameKeep with
    op := fun s pt k hk => ⟨rfl, rfl,
      grows_mono (noFinal_of_awaitsIn fun h => h)
        ((builderStable_grows fun _ => False).op s pt k hk)⟩
    block := fun _ => frameKeep_of_eq rfl rfl rfl
    insertPt := fun _ _ => frameKeep_of_eq rfl rfl rfl }

theorem keeps_addCopy {R : CIRGenFunction → CIRGenFunction → Prop} (hc : Chains R)
    (hd : DeclMapStable R) (P : ParamReferenceReplacerRAII) (PM : Stmt) :
    Keeps R (P.addCopy PM) := by
  intro s
  unfold ParamReferenceReplacerRAII.addCopy
  cases PM with
  | DeclStmt decls lowers =>
    cases decls with
    | nil => exact hc.refl s
    | cons VD tl =>
      cases tl with
      | cons _ _ => exact hc.refl s
      | nil =>
        dsimp only
        cases GetParamRef.Visit VD.Init {} with
        | error f => exact hc.refl s
        | ok Visitor =>
          dsimp only
          cases Visitor.Expr with
          | none => exact hc.refl s
          | some PD =>
            dsimp only
            cases DenseMap.find s.LocalDeclMap PD with
            | none => exact hc.refl s
            | some saved =>
              dsimp only
              cases DenseMap.find s.LocalDeclMap VD.decl with
              | none => exact hc.refl s
              | some copy => exact hd s _
  | _ => exact hc.refl s

/-- The parameter copies (lines 312-316): when all of them are lowered, the
coroutine record and the current scope are as before, and no final-suspend
region was emitted. -/
theorem emitParamMoves_frame (PMs : List Stmt) :
    ∀ (P : ParamReferenceReplacerRAII) (s : CIRGenFunction),
      M.wp (emitParamMoves PMs P) (fun res t => res.1 = .success → FrameKeep s t)
        (fun _ => True) s := by
  have hb := builderStable_frameKeep
  have hc := chains_frameKeep
  have hd : DeclMapStable FrameKeep := fun _ _ => frameKeep_of_eq rfl rfl rfl
  induction PMs with
  | nil =>
    intro P s
    exact fun _ => hc.refl s
  | cons PM rest ih =>
    intro P s
    unfold emitParamMoves
    have hrest : ∀ (r : LogicalResult) (t : CIRGenFunction), FrameKeep s t →
        M.wp (if r.failed then M.ret (.failure, P)
              else M.bind (P.addCopy PM) fun P' => emitParamMoves rest P')
          (fun res t' => res.1 = .success → FrameKeep s t') (fun _ => True) t := by
      intro r t hst
      split
      · intro h
        cases h
      · refine wp_bind_keeps hc (keeps_addCopy hc hd P PM) hst fun P' t' h' => ?_
        exact wp_mono (ih P' t') (fun res t'' h hr => hc.trans _ _ _ h' (h hr)) (fun _ h => h)
    cases PM with
    | DeclStmt decls lowers =>
      refine wp_bind_keeps hc ?_ (hc.refl s) fun r t h => hrest r t h
      unfold emitStmt
      split
      · exact keeps_bind hc (keeps_emitDecls hb hd decls) fun _ => keeps_ret hc _
      · exact keeps_reportFailure (fun s l =>
          ⟨rfl, rfl, [.failed l], rfl, by simp [Event.isFinalAwait]⟩) _
    | _ =>
      rw [wp_bind]
      refine wp_of_forall_ok fun r t _ => ?_
      split
      · intro h
        cases h
      · rw [wp_bind]
        trivial

/-- When no `co_return` was lowered and the insertion point of the final
suspend was never set, a successful decision on the final suspend changes
nothing: the final suspend is not lowered. -/
theorem emitFinalSuspend_skip (S : CoroutineBodyStmt) {f : Bool} {s t : CIRGenFunction}
    {d : CGCoroData} (hd : s.CurCoro.Data = some d) (hip : d.FinalSuspendInsPoint = none)
    (hp : Progress 0 f s t) :
    M.wp (emitFinalSuspend S) (fun r t' => r = .success → t' = t) (fun _ => True) t := by
  obtain ⟨d0, dt, hd0, hdt, hc, hi, hset, hf, hnf⟩ := hp
  rw [hd] at hd0
  cases hd0
  unfold emitFinalSuspend
  rw [wp_bind, wp_hasCoreturn, wp_bind, wp_getCoroData]
  refine ⟨fun dt' hdt' => ?_, fun _ => trivial⟩
  rw [hdt] at hdt'
  cases hdt'
  dsimp only
  split
  · rw [wp_bind, wp_modifyCoroData]
    refine ⟨fun dt' hdt' => ?_, fun _ => trivial⟩
    rw [hdt] at hdt'
    cases hdt'
    rw [wp_andThen, wp_withInsertionGuard, wp_bind, wp_getCoroData]
    refine ⟨fun d1 hd1 => ?_, fun _ => trivial⟩
    cases hd1
    dsimp only
    rw [hi rfl, hip]
    trivial
  · intro _
    rfl

theorem finalSuspendLowered_append {s t t' : CIRGenFunction} (h : NoFinalAwait s t)
    (h' : ∃ seg, t'.trace = t.trace ++ seg) :
    finalSuspendLowered s t' = finalSuspendLowered t t' := by
  obtain ⟨seg0, e0, hp⟩ := h
  obtain ⟨seg, e⟩ := h'
  unfold finalSuspendLowered
  have e1 : t'.trace = s.trace ++ (seg0 ++ seg) := by rw [e, e0, List.append_assoc]
  rw [newEvents_of_trace_eq e, newEvents_of_trace_eq e1]
  have h0 : seg0.any Event.isFinalAwait = false := by simpa using hp
  rw [List.any_append, h0, Bool.false_or]

/-- The lowering of a coroutine body up to the decision on the final suspend
(lines 248-359): a postcondition that holds after the decision and the final
suspend, whenever the decision is reached, holds after `emitCoroutineBody`. -/
theorem emitCoroutineBody_wp (S : CoroutineBodyStmt) (s : CIRGenFunction)
    (Q : LogicalResult → CIRGenFunction → Prop) (F : Fault → Prop)
    (hF : ∀ f, NotUnset f → F f) (hQ : ∀ t, Q .failure t)
    (hmap : ∀ r t m, Q r t → Q r { t with LocalDeclMap := m })
    (hfin : ∀ t0 t, FreshCoro t0 → t0.currLexScope = s.currLexScope → NoFinalAwait s t0 →
      Progress (S.loweredCoreturns s.currLexScope.HasCoreturn)
        (S.flagAtFinal s.currLexScope.HasCoreturn) t0 t →
      M.wp (emitFinalSuspend S) Q F t) :
    M.wp (emitCoroutineBody S) Q F s := by
  unfold emitCoroutineBody
  rw [wp_bind]
  refine wp_step hF (avoids_emitCoroutineBodyPrologue S) (emitCoroutineBodyPrologue_spec S s)
    (fun _ t1 h1 => ?_)
  obtain ⟨hs1, hn1, hf1⟩ := h1
  unfold emitCoroutineBodyBlock
  rw [wp_bind, wp_bind, wp_get, wp_bind, wp_assert]
  refine ⟨fun _ => ?_, fun _ => hF _ (by decide)⟩
  rw [wp_bind, wp_assert]
  refine ⟨fun _ => ?_, fun _ => hF _ (by decide)⟩
  rw [wp_bind, wp_assert]
  refine ⟨fun _ => ?_, fun _ => hF _ (by decide)⟩
  rw [wp_bind]
  refine wp_step hF (avoids_emitParamMoves _ _) (emitParamMoves_frame S.ParamMoves {} t1)
    (fun copies t2 h2 => ?_)
  split
  · exact hQ _
  · rename_i hnf
    have hsucc : copies.1 = .success := by
      cases hc : copies.1 with
      | success => rfl
      | failure => rw [hc] at hnf; exact absurd rfl hnf
    obtain ⟨hc2, hs2, hn2⟩ := h2 hsucc
    obtain ⟨d, hd, hk, hcnt, hip⟩ := hf1
    have hd2 : t2.CurCoro.Data = some d := by rw [hc2, hd]
    rw [wp_bind]
    refine emitPromiseToFinalSuspend_wp S t2 d hd2 (by rw [hk]; decide) _ F hF (fun _ => hQ _)
      fun t hp => ?_
    rw [hs2, hs1] at hp
    refine wp_mono (hfin t2 t ⟨d, hd2, hk, hcnt, hip⟩ (by rw [hs2, hs1])
      (chains_noFinalAwait.trans _ _ _ hn1 hn2) hp) (fun r t' h => ?_) (fun _ h => h)
    exact hmap _ _ _ h

/-! ## The decision on the final suspend (C2, C3, C4, C5) -/

theorem coreturnInScope_of_coreturns_zero (st : Stmt) (h : st.coreturns = 0) :
    st.coreturnInScope = false := by
  induction st with
  | seq first second ih1 ih2 =>
    simp only [Stmt.coreturns] at h
    simp only [Stmt.coreturnInScope, ih1 (by omega), ih2 (by omega), Bool.or_self]
  | CoreturnStmt Operand PromiseCall _ =>
    simp only [Stmt.coreturns] at h
    omega
  | _ => rfl

/-- C2 (evaluation at the failing input): the coroutine `fallsThrough`, whose
body `co_await a;` runs to its end without `co_return` and has no fallthrough
handler, is lowered successfully; when the final suspend is decided on, no
`co_return` is recorded in the current scope, which is the test
`emitBodyAndFallthrough` uses for "can fall through", and `CoreturnCount` is 0;
no final-suspend region is emitted. -/
theorem fallthrough_without_coreturn_skips_final_suspend :
    (emitCoroutineBody Example.fallsThrough Example.context).returns .success = true ∧
    (emitCoroutineBody Example.fallsThrough Example.context).state.currLexScope.HasCoreturn
      = false ∧
    coreturnCount (emitCoroutineBody Example.fallsThrough Example.context).state = some 0 ∧
    finalSuspendLowered Example.context
      (emitCoroutineBody Example.fallsThrough Example.context).state = false := by
  decide!

/-- C3 (counterexample): the coroutine `infiniteLoop`, whose body is
`while (true) { co_await b; }` with no `co_return` anywhere in it, is lowered
successfully, a final-suspend region is emitted and `CoreturnCount` is 1
afterwards: the implicit `co_return;` of the fallthrough handler is lowered. -/
theorem infinite_loop_with_handler_lowers_final_suspend :
    Example.infiniteLoop.Body = .whileTrue (Example.coawait 20) ∧
    Example.infiniteLoop.Body.coreturns = 0 ∧
    (emitCoroutineBody Example.infiniteLoop Example.context).returns .success = true ∧
    finalSuspendLowered Example.context
      (emitCoroutineBody Example.infiniteLoop Example.context).state = true ∧
    coreturnCount (emitCoroutineBody Example.infiniteLoop Example.context).state = some 1 := by
  refine ⟨rfl, rfl, ?_⟩
  decide!

/-- C3 (amended): for every coroutine whose body is an infinite loop
containing no `co_return`, and whose promise declaration, initial suspend and
fallthrough handler (if any) contain no `co_return` either, a successful
`emitCoroutineBody` emits no final-suspend region and `CoreturnCount` is 0
afterwards. -/
theorem infinite_loop_skips_final_suspend (S : CoroutineBodyStmt) (loopBody : Stmt)
    (hBody : S.Body = .whileTrue loopBody) (hLoop : loopBody.coreturns = 0)
    (hPromise : S.PromiseDeclStmt.coreturns = 0) (hInit : S.InitSuspendStmt.coreturns = 0)
    (hHandler : ∀ OnFallthrough, S.FallthroughHandler = some OnFallthrough →
      OnFallthrough.coreturns = 0)
    (s s' : CIRGenFunction) (h : emitCoroutineBody S s = .ok .success s') :
    finalSuspendLowered s s' = false ∧ coreturnCount s' = some 0 := by
  have hN : S.loweredCoreturns s.currLexScope.HasCoreturn = 0 := by
    unfold CoroutineBodyStmt.loweredCoreturns CoroutineBodyStmt.handlerCoreturns
    rw [hPromise, hInit, hBody]
    cases hH : S.FallthroughHandler with
    | none => simp [Stmt.coreturns, hLoop]
    | some OnFallthrough => simp [Stmt.coreturns, hLoop, hHandler _ hH]
  have hwp : M.wp (emitCoroutineBody S)
      (fun r t => r = .success → finalSuspendLowered s t = false ∧ coreturnCount t = some 0)
      (fun _ => True) s := by
    refine emitCoroutineBody_wp S s _ _ (fun _ _ => trivial) (fun _ hr => by cases hr)
      (fun _ _ _ h => h) fun t0 t hfresh _ hn0 hp => ?_
    obtain ⟨d0, hd0, _, hcnt0, hip0⟩ := hfresh
    rw [hN] at hp
    refine wp_mono (emitFinalSuspend_skip S hd0 hip0 hp) (fun r t' ht hr => ?_) (fun _ h => h)
    rw [ht hr]
    obtain ⟨d, dt, hd, hdt, hc, _, _, _, hnf⟩ := hp
    rw [hd0] at hd
    cases hd
    refine ⟨finalSuspendLowered_of_noFinalAwait (chains_noFinalAwait.trans _ _ _ hn0 hnf), ?_⟩
    unfold coreturnCount
    rw [hdt, Option.map_some', hc, hcnt0, bump_zero]
  exact wp_of_eq hwp h rfl

theorem infinite_loop_skips_final_suspend_witness :
    finalSuspendLowered Example.context
        (emitCoroutineBody Example.infiniteLoopNoHandler Example.context).state = false ∧
      coreturnCount (emitCoroutineBody Example.infiniteLoopNoHandler Example.context).state
        = some 0 :=
  infinite_loop_skips_final_suspend Example.infiniteLoopNoHandler (Example.coawait 20) rfl rfl
    rfl rfl (fun _ h => by cases h) Example.context _
    (Res.eq_ok_of_returns (by decide!))

/-- C4 (evaluation at the failing input): the coroutine `plainBody`, whose body
is one plain statement, contains no `co_return` and has no fallthrough handler,
is lowered successfully, and no final-suspend region is emitted. -/
theorem body_without_coreturn_skips_final_suspend :
    Example.plainBody.Body.coreturns = 0 ∧
    Example.plainBody.FallthroughHandler = none ∧
    (emitCoroutineBody Example.plainBody Example.context).returns .success = true ∧
    finalSuspendLowered Example.context
      (emitCoroutineBody Example.plainBody Example.context).state = false := by
  refine ⟨rfl, rfl, ?_⟩
  decide!


/-- C5: for every coroutine body that contains at least one `co_return`
statement and whose final-suspend statement is a `co_await`, after a successful
`emitCoroutineBody` the counter `CoreturnCount` equals the number of
`co_return` statements that were lowered (those of the promise declaration,
the initial suspend and the body, and those of the fallthrough handler when it
is lowered), a number the `unsigned` counter can hold, and a final-suspend
region is emitted. -/
theorem coreturnCount_is_number_lowered (S : CoroutineBodyStmt) (E : CoroutineSuspendExpr)
    (slot : AggValueSlot) (ign : Bool) (hF : S.FinalSuspendStmt = .coawait E slot ign)
    (hBody : 0 < S.Body.coreturns) (s s' : CIRGenFunction)
    (hN : S.loweredCoreturns s.currLexScope.HasCoreturn < 2 ^ 32)
    (h : emitCoroutineBody S s = .ok .success s') :
    coreturnCount s' = some (S.loweredCoreturns s.currLexScope.HasCoreturn) ∧
    finalSuspendLowered s s' = true := by
  have hpos : 0 < S.loweredCoreturns s.currLexScope.HasCoreturn := by
    unfold CoroutineBodyStmt.loweredCoreturns
    omega
  have hwp : M.wp (emitCoroutineBody S)
      (fun r t => r = .success →
        coreturnCount t = some (S.loweredCoreturns s.currLexScope.HasCoreturn) ∧
        finalSuspendLowered s t = true)
      (fun _ => True) s := by
    refine emitCoroutineBody_wp S s _ _ (fun _ _ => trivial) (fun _ hr => by cases hr)
      (fun _ _ _ h => h) fun t0 t hfresh _ hn0 hp => ?_
    obtain ⟨d0, hd0, _, hcnt0, _⟩ := hfresh
    refine wp_mono (emitFinalSuspend_spec S E slot ign hF hd0 hp) (fun r t' ht hr => ?_)
      (fun _ h => h)
    obtain ⟨d', hd', hc', _, hl', _, hseg⟩ := ht hr
    have hcount : d'.CoreturnCount = S.loweredCoreturns s.currLexScope.HasCoreturn := by
      rw [hc', hcnt0]
      unfold bump
      rw [if_neg (by omega), Nat.zero_add, Nat.mod_eq_of_lt hN]
    refine ⟨?_, ?_⟩
    · unfold coreturnCount
      rw [hd', Option.map_some', hcount]
    · rw [finalSuspendLowered_append hn0 hseg, hl', hcount]
      simp [hpos]
  exact wp_of_eq hwp h rfl

theorem coreturnCount_is_number_lowered_witness :
    coreturnCount (emitCoroutineBody Example.coroutine Example.context).state = some 1 ∧
    finalSuspendLowered Example.context
      (emitCoroutineBody Example.coroutine Example.context).state = true :=
  coreturnCount_is_number_lowered Example.coroutine (Example.suspend 40 true)
    { isIgnored := true } true rfl (by decide) Example.context _ (by decide)
    (Res.eq_ok_of_returns (by decide!))

theorem getBestAllocaInsertPoint_block (ops : List Op) (b : BlockId) :
    (getBestAllocaInsertPoint ops b).block = b := by
  unfold getBestAllocaInsertPoint
  split
  · rfl
  · next o rest heq =>
    have h1 : o ∈ ((blockOps ops b).reverse.takeWhile fun o => !o.isAlloca).reverse := by
      rw [heq]
      exact List.mem_cons_self _ _
    have h2 : o ∈ (blockOps ops b).reverse :=
      (List.takeWhile_prefix _).subset (List.mem_reverse.mp h1)
    have h3 : o ∈ blockOps ops b := List.mem_reverse.mp h2
    unfold blockOps at h3
    simpa using (List.mem_filter.mp h3).2

/-- What the lowering of a suspend point in value mode returns and emits:
after the events of `suspendPointEvents`, for a resume expression of type void
only the `yield` that ends the resume region; otherwise the temporary slot in
the block `scopeParentBlock`, the store of the resume value to it, and the
`yield`. -/
theorem emitSuspendExpression_value (Coro : CGCoroData) (S : CoroutineSuspendExpr)
    (Kind : AwaitKind) (aggSlot : AggValueSlot) (ignoreResult : Bool)
    (scopeParentBlock : BlockId) (tmp : Option Value)
    (s s' : CIRGenFunction) (res : LValueOrRValue × Option Value)
    (h : emitSuspendExpression Coro S Kind aggSlot ignoreResult scopeParentBlock tmp false s
          = .ok res s') :
    ∃ common ready suspend resume,
      s'.insertPt = s.insertPt ∧
      ((S.ResumeExpr.isVoidType = true ∧
        s'.trace = s.trace ++
          suspendPointEvents S Kind s.nextId s.insertPt.block s.nextBlock common ready suspend
            resume ++
          [.created { id := s.nextId + 7, block := s.nextBlock + 2, kind := .yield }] ∧
        s'.nextId = s.nextId + 8 ∧ res = ({ RV := .scalar none }, tmp)) ∨
       (S.ResumeExpr.isVoidType = false ∧
        s'.trace = s.trace ++
          suspendPointEvents S Kind s.nextId s.insertPt.block s.nextBlock common ready suspend
            resume ++
          [.created { id := s.nextId + 7, block := scopeParentBlock,
                      kind := .alloca "__coawait_resume_rval" },
           .created { id := s.nextId + 8, block := s.nextBlock + 2,
                      kind := .store (s.nextId + 6) (s.nextId + 7) },
           .created { id := s.nextId + 9, block := s.nextBlock + 2, kind := .yield }] ∧
        s'.nextId = s.nextId + 10 ∧
        res = ({ RV := .scalar (some (s.nextId + 6)) }, some (s.nextId + 7)))) := by
  apply ok_of_wp h
  simp only [emitSuspendExpression, OpaqueValueMappingData.bind, OpaqueValueMappingData.unbind,
    createAwaitOp, emitScalarExpr, evaluateExprAsBool, wp_bind, wp_lowerExpr, wp_modify,
    wp_ret, wp_fail, wp_create, wp_freshBlock, wp_inRegion, implies_true, and_true]
  intro common hcommon ready hready suspend hsuspend
  cases hv : S.SuspendExpr.isVoidType
  · simp [wp_fail]
  · simp only [if_true, wp_bind, wp_create, wp_ret]
    split
    · simp [wp_fail]
    · simp only [wp_ret, Bool.false_eq_true, if_false, emitAnyExpr]
      cases hk : S.ResumeExpr.evalKind
      · simp only [emitScalarExpr, wp_bind, wp_lowerExpr, wp_ret, implies_true, and_true]
        intro resume hresume
        cases hrv : S.ResumeExpr.isVoidType
        · simp only [Bool.false_eq_true, if_false, wp_bind, wp_get, wp_emitAlloca, wp_create,
            wp_ret]
          intro hres hs'
          subst hs'
          subst hres
          refine ⟨common, ready, suspend, resume, rfl, Or.inr ⟨trivial, ?_, ?_, ?_⟩⟩
          · simp [suspendPointEvents, InsertPoint.block_atEnd, Nat.add_assoc,
              getBestAllocaInsertPoint_block]
          · simp [Nat.add_assoc]
          · simp [Nat.add_assoc]
        · simp only [if_true, wp_ret, wp_create]
          intro hres hs'
          subst hs'
          subst hres
          refine ⟨common, ready, suspend, resume, rfl, Or.inl ⟨trivial, ?_, ?_, rfl⟩⟩
          · simp [suspendPointEvents, InsertPoint.block_atEnd, Nat.add_assoc]
          · simp [Nat.add_assoc]
      · simp [wp_bind, wp_lowerExpr, wp_ret, RValue.getScalarVal, wp_fail]
      · simp [wp_bind, wp_lowerExpr, wp_ret, RValue.getScalarVal, wp_fail]

/-! ## The result of a suspend point (C11, C12) -/

/-- The three ways in which `emitSuspendExpr` returns: for a resume expression
of type void nothing beyond the await construct; for a resume value that the
caller ignores the temporary slot and the store; otherwise the slot, the store
and, after the construct, the reload, whose value is handed back. -/
theorem emitSuspendExpr_value (E : CoroutineSuspendExpr) (kind : AwaitKind)
    (aggSlot : AggValueSlot) (ignoreResult : Bool) (s s' : CIRGenFunction) (rv : RValue)
    (h : emitSuspendExpr E kind aggSlot ignoreResult s = .ok rv s') :
    ∃ common ready suspend resume,
      (E.ResumeExpr.isVoidType = true ∧
        s'.trace = s.trace ++
          suspendPointEvents E kind s.nextId s.insertPt.block s.nextBlock common ready suspend
            resume ++
          [.created { id := s.nextId + 7, block := s.nextBlock + 2, kind := .yield }] ∧
        rv = .scalar none) ∨
      (E.ResumeExpr.isVoidType = false ∧ ignoreResult = true ∧
        s'.trace = s.trace ++
          suspendPointEvents E kind s.nextId s.insertPt.block s.nextBlock common ready suspend
            resume ++
          [.created { id := s.nextId + 7, block := s.currLexScope.EntryBlock,
                      kind := .alloca "__coawait_resume_rval" },
           .created { id := s.nextId + 8, block := s.nextBlock + 2,
                      kind := .store (s.nextId + 6) (s.nextId + 7) },
           .created { id := s.nextId + 9, block := s.nextBlock + 2, kind := .yield }] ∧
        rv = .scalar (some (s.nextId + 6))) ∨
      (E.ResumeExpr.isVoidType = false ∧ ignoreResult = false ∧
        s'.trace = s.trace ++
          suspendPointEvents E kind s.nextId s.insertPt.block s.nextBlock common ready suspend
            resume ++
          [.created { id := s.nextId + 7, block := s.currLexScope.EntryBlock,
                      kind := .alloca "__coawait_resume_rval" },
           .created { id := s.nextId + 8, block := s.nextBlock + 2,
                      kind := .store (s.nextId + 6) (s.nextId + 7) },
           .created { id := s.nextId + 9, block := s.nextBlock + 2, kind := .yield },
           .created { id := s.nextId + 10, block := s.insertPt.block,
                      kind := .load (s.nextId + 7) }] ∧
        rv = .scalar (some (s.nextId + 10))) := by
  apply ok_of_wp h
  unfold emitSuspendExpr
  simp only [wp_bind, wp_getEntryBlock, wp_getCoroData, implies_true, and_true]
  intro d _
  refine wp_of_forall_ok fun res s1 h1 => ?_
  obtain ⟨common, ready, suspend, resume, hpt, hcase⟩ :=
    emitSuspendExpression_value _ _ _ _ _ _ _ _ _ _ h1
  rcases hcase with ⟨hv, htr, _, hres⟩ | ⟨hv, htr, hid, hres⟩
  · subst hres
    simp only [RValue.isIgnored, Bool.or_true, if_true, wp_ret]
    rintro rfl rfl
    exact ⟨common, ready, suspend, resume, Or.inl ⟨hv, htr, rfl⟩⟩
  · subst hres
    cases ignoreResult
    · simp only [RValue.isIgnored, Bool.or_false, Bool.false_eq_true, if_false, RValue.isScalar,
        if_true, wp_bind, wp_create, wp_ret]
      rintro rfl rfl
      refine ⟨common, ready, suspend, resume, Or.inr (Or.inr ⟨hv, trivial, ?_, ?_⟩)⟩
      · simp [htr, hpt, hid]
      · rw [hid]
    · simp only [Bool.true_or, if_true, wp_ret]
      rintro rfl rfl
      exact ⟨common, ready, suspend, resume, Or.inr (Or.inl ⟨hv, trivial, htr, rfl⟩)⟩

/-- C11: when a suspend point is lowered in value mode with `ignoreResult`
false and its resume expression yields a value `v` (it is not of type void;
`v` is operation `n + 6`, the lowering of the resume expression), then
`emitSuspendExpr` emits, after the await construct up to the resume
expression, exactly: one temporary slot, in the entry block of the enclosing
lexical scope, which is none of the three region blocks of the await
construct; the store of `v` to that slot, in the resume region; the `yield`
that ends the resume region; and, back at the insertion point of before the
construct, a load of that same slot.  The value of the load is what is handed
back. -/
theorem resume_value_stored_and_reloaded (E : CoroutineSuspendExpr) (kind : AwaitKind)
    (aggSlot : AggValueSlot) (s s' : CIRGenFunction) (rv : RValue)
    (hValue : E.ResumeExpr.isVoidType = false)
    (h : emitSuspendExpr E kind aggSlot false s = .ok rv s') :
    (∃ common ready suspend resume,
      s'.trace = s.trace ++
        suspendPointEvents E kind s.nextId s.insertPt.block s.nextBlock common ready suspend
          resume ++
        [.created { id := s.nextId + 7, block := s.currLexScope.EntryBlock,
                    kind := .alloca "__coawait_resume_rval" },
         .created { id := s.nextId + 8, block := s.nextBlock + 2,
                    kind := .store (s.nextId + 6) (s.nextId + 7) },
         .created { id := s.nextId + 9, block := s.nextBlock + 2, kind := .yield },
         .created { id := s.nextId + 10, block := s.insertPt.block,
                    kind := .load (s.nextId + 7) }]) ∧
    rv = .scalar (some (s.nextId + 10)) ∧
    (s.currLexScope.EntryBlock < s.nextBlock →
      s.currLexScope.EntryBlock ∉ [s.nextBlock, s.nextBlock + 1, s.nextBlock + 2]) := by
  obtain ⟨common, ready, suspend, resume, hcase⟩ := emitSuspendExpr_value E kind aggSlot false s s' rv h
  refine ⟨?_, ?_, fun hlt => ?_⟩
  · rcases hcase with ⟨hv, _⟩ | ⟨_, hi, _⟩ | ⟨_, _, htr, _⟩
    · rw [hValue] at hv
      cases hv
    · cases hi
    · exact ⟨common, ready, suspend, resume, htr⟩
  · rcases hcase with ⟨hv, _⟩ | ⟨_, hi, _⟩ | ⟨_, _, _, hrv⟩
    · rw [hValue] at hv
      cases hv
    · cases hi
    · exact hrv
  · intro hmem
    simp only [List.mem_cons, List.mem_singleton, List.not_mem_nil, or_false] at hmem
    rcases hmem with h | h | h <;> rw [h] at hlt <;> simp at hlt

theorem resume_value_stored_and_reloaded_witness :
    (∃ common ready suspend resume,
      (emitSuspendExpr (Example.suspend 20 false) .User { isIgnored := true } false
          Example.contextInCoroutine).state.trace
        = Example.contextInCoroutine.trace ++
        suspendPointEvents (Example.suspend 20 false) .User Example.contextInCoroutine.nextId
          Example.contextInCoroutine.insertPt.block Example.contextInCoroutine.nextBlock
          common ready suspend resume ++
        [.created { id := Example.contextInCoroutine.nextId + 7,
                    block := Example.contextInCoroutine.currLexScope.EntryBlock,
                    kind := .alloca "__coawait_resume_rval" },
         .created { id := Example.contextInCoroutine.nextId + 8,
                    block := Example.contextInCoroutine.nextBlock + 2,
                    kind := .store (Example.contextInCoroutine.nextId + 6)
                      (Example.contextInCoroutine.nextId + 7) },
         .created { id := Example.contextInCoroutine.nextId + 9,
                    block := Example.contextInCoroutine.nextBlock + 2, kind := .yield },
         .created { id := Example.contextInCoroutine.nextId + 10,
                    block := Example.contextInCoroutine.insertPt.block,
                    kind := .load (Example.contextInCoroutine.nextId + 7) }]) ∧
    (RValue.scalar (some 10)) = .scalar (some (Example.contextInCoroutine.nextId + 10)) :=
  have h := resume_value_stored_and_reloaded (Example.suspend 20 false) .User
    { isIgnored := true } Example.contextInCoroutine _ (.scalar (some 10)) (by decide)
    (Res.eq_ok_of_returns (by decide!))
  ⟨h.1, h.2.1⟩

/-- C12 (counterexample): the suspend point `Example.suspend 20 false`, whose
resume expression yields a value, is lowered in value mode with `ignoreResult`
true: the lowering returns, and a temporary slot and a store are among the
operations it emitted; no load is. -/
theorem ignored_resume_value_is_stored :
    (emitSuspendExpr (Example.suspend 20 false) .User { isIgnored := true } true
      Example.contextInCoroutine).returns (.scalar (some 6)) = true ∧
    (newEvents Example.contextInCoroutine
      (emitSuspendExpr (Example.suspend 20 false) .User { isIgnored := true } true
        Example.contextInCoroutine).state).any Event.isAlloca = true ∧
    (newEvents Example.contextInCoroutine
      (emitSuspendExpr (Example.suspend 20 false) .User { isIgnored := true } true
        Example.contextInCoroutine).state).any Event.isStore = true ∧
    (newEvents Example.contextInCoroutine
      (emitSuspendExpr (Example.suspend 20 false) .User { isIgnored := true } true
        Example.contextInCoroutine).state).any Event.isLoad = false := by
  decide!

/-- C12 (amended): when a suspend point is lowered in value mode with
`ignoreResult` true, `emitSuspendExpr` emits no reload, whatever value the
resume expression lowers to; and when that value is the ignored one (a resume
expression of type void) it allocates no temporary slot and emits no store. -/
theorem ignored_result_is_not_reloaded (E : CoroutineSuspendExpr) (kind : AwaitKind)
    (aggSlot : AggValueSlot) (s s' : CIRGenFunction) (rv : RValue)
    (h : emitSuspendExpr E kind aggSlot true s = .ok rv s') :
    (newEvents s s').any Event.isLoad = false ∧
    (E.ResumeExpr.isVoidType = true →
      (newEvents s s').any Event.isAlloca = false ∧
      (newEvents s s').any Event.isStore = false) := by
  obtain ⟨common, ready, suspend, resume, hcase⟩ := emitSuspendExpr_value E kind aggSlot true s s' rv h
  rcases hcase with ⟨_, htr, _⟩ | ⟨hv, _, htr, _⟩ | ⟨_, hi, _⟩
  · rw [List.append_assoc] at htr
    rw [newEvents_of_trace_eq htr]
    simp [suspendPointEvents, Event.isLoad, Event.isAlloca, Event.isStore]
  · rw [List.append_assoc] at htr
    rw [newEvents_of_trace_eq htr]
    simp [suspendPointEvents, Event.isLoad, hv]
  · cases hi

theorem ignored_result_is_not_reloaded_witness :
    (newEvents Example.contextInCoroutine
      (emitSuspendExpr (Example.suspend 20 true) .User { isIgnored := true } true
        Example.contextInCoroutine).state).any Event.isLoad = false ∧
    ((Example.suspend 20 true).ResumeExpr.isVoidType = true →
      (newEvents Example.contextInCoroutine
        (emitSuspendExpr (Example.suspend 20 true) .User { isIgnored := true } true
          Example.contextInCoroutine).state).any Event.isAlloca = false ∧
      (newEvents Example.contextInCoroutine
        (emitSuspendExpr (Example.suspend 20 true) .User { isIgnored := true } true
          Example.contextInCoroutine).state).any Event.isStore = false) :=
  ignored_result_is_not_reloaded (Example.suspend 20 true) .User { isIgnored := true }
    Example.contextInCoroutine _ (.scalar none) (Res.eq_ok_of_returns (by decide!))

/-! ## Parameter copies rebind the parameter (C14) -/

theorem DenseMap.find_assign_self {V : Type} (m : List (Nat × V)) (k : Nat) (v v0 : V)
    (h : DenseMap.find m k = some v0) : DenseMap.find (DenseMap.assign m k v) k = some v := by
  unfold DenseMap.find DenseMap.assign at *
  induction m with
  | nil => simp [List.lookup] at h
  | cons kv rest ih =>
    obtain ⟨k', v'⟩ := kv
    by_cases hk : k' = k
    · subst hk
      simp [List.lookup_cons]
    · have hne : (k == k') = false := by
        simpa using fun e : k = k' => hk e.symm
      rw [List.lookup_cons, hne] at h
      rw [List.map_cons, if_neg hk, List.lookup_cons, hne]
      exact ih h

theorem DenseMap.find_assign_of_ne {V : Type} (m : List (Nat × V)) (k k' : Nat) (v : V)
    (h : k' ≠ k) : DenseMap.find (DenseMap.assign m k v) k' = DenseMap.find m k' := by
  unfold DenseMap.find DenseMap.assign
  induction m with
  | nil => rfl
  | cons kv rest ih =>
    obtain ⟨k0, v0⟩ := kv
    by_cases hk : k0 = k
    · subst hk
      have hne : (k' == k0) = false := by simpa using h
      rw [List.map_cons, if_pos rfl, List.lookup_cons, List.lookup_cons, hne]
      exact ih
    · rw [List.map_cons, if_neg hk, List.lookup_cons, List.lookup_cons]
      cases k' == k0
      · exact ih
      · rfl

theorem DenseMap.find_insert_self_of_unbound {V : Type} (m : List (Nat × V)) (k : Nat) (v : V)
    (h : DenseMap.find m k = none) : DenseMap.find (DenseMap.insert m k v) k = some v := by
  unfold DenseMap.find DenseMap.insert at *
  rw [h]
  dsimp only
  induction m with
  | nil => simp [List.lookup]
  | cons kv rest ih =>
    obtain ⟨k', v'⟩ := kv
    simp only [List.lookup_cons, List.cons_append] at h ⊢
    cases hk : (k == k') with
    | true => simp [hk] at h
    | false =>
      simp only [hk] at h ⊢
      exact ih h

/-- C14: `addCopy` on the declaration statement of a copy `C`.  When the
initializer of `C` refers to exactly one declaration `P`, and the map binds
`P` (to `saved`) and `C` (to `copy`), `addCopy` returns; it has saved the
binding of `P` (by `insert`, so a binding saved for `P` earlier stays), the map
now binds `P` to `copy`, `C` is still bound to `copy`, every binding other than
that of `P` is as it was, and nothing but the map has changed.  When the
initializer refers to no declaration, or to more than one, `addCopy` ends in an
assertion failure. -/
theorem addCopy_rebinds_parameter (R : ParamReferenceReplacerRAII) (VD : VarDecl)
    (lowers : Bool) (s : CIRGenFunction) :
    (∀ PD saved copy, VD.Init.declRefs = [PD] →
      DenseMap.find s.LocalDeclMap PD = some saved →
      DenseMap.find s.LocalDeclMap VD.decl = some copy →
      ∃ R' s', R.addCopy (.DeclStmt [VD] lowers) s = .ok R' s' ∧
        R'.SavedLocals = DenseMap.insert R.SavedLocals PD saved ∧
        (DenseMap.find R.SavedLocals PD = none →
          DenseMap.find R'.SavedLocals PD = some saved) ∧
        DenseMap.find s'.LocalDeclMap PD = some copy ∧
        DenseMap.find s'.LocalDeclMap VD.decl = some copy ∧
        (∀ k, k ≠ PD → DenseMap.find s'.LocalDeclMap k = DenseMap.find s.LocalDeclMap k) ∧
        s' = { s with LocalDeclMap := s'.LocalDeclMap }) ∧
    (VD.Init.declRefs = [] →
      R.addCopy (.DeclStmt [VD] lowers) s = .fault (.assertion "Visitor.Expr") s) ∧
    (2 ≤ VD.Init.declRefs.length →
      R.addCopy (.DeclStmt [VD] lowers) s
        = .fault (.assertion "multilple declref in param move") s) := by
  refine ⟨fun PD saved copy hrefs hP hC => ?_, fun hrefs => ?_, fun hrefs => ?_⟩
  · have hvisit : GetParamRef.Visit VD.Init {} = .ok { Expr := some PD } := by
      rw [GetParamRef.Visit_eq_record, hrefs]
      rfl
    refine ⟨{ SavedLocals := DenseMap.insert R.SavedLocals PD saved },
      { s with LocalDeclMap := DenseMap.assign s.LocalDeclMap PD copy }, ?_, rfl,
      fun h => DenseMap.find_insert_self_of_unbound _ _ _ h,
      DenseMap.find_assign_self _ _ _ _ hP, ?_,
      fun k hk => DenseMap.find_assign_of_ne _ _ _ _ hk, rfl⟩
    · simp only [ParamReferenceReplacerRAII.addCopy, hvisit, hP, hC]
    · by_cases hk : VD.decl = PD
      · rw [hk]
        exact DenseMap.find_assign_self _ _ _ _ hP
      · rw [DenseMap.find_assign_of_ne _ _ _ _ hk, hC]
  · have hvisit : GetParamRef.Visit VD.Init {} = .ok { Expr := none } := by
      rw [GetParamRef.Visit_eq_record, hrefs]
      rfl
    simp only [ParamReferenceReplacerRAII.addCopy, hvisit]
    rfl
  · have hvisit : GetParamRef.Visit VD.Init {}
        = .error (.assertion "multilple declref in param move") := by
      rw [GetParamRef.Visit_eq_record]
      cases hr : VD.Init.declRefs with
      | nil => rw [hr] at hrefs; simp at hrefs
      | cons d rest =>
        cases rest with
        | nil => rw [hr] at hrefs; simp at hrefs
        | cons d' rest' => rfl
    simp only [ParamReferenceReplacerRAII.addCopy, hvisit]
    rfl

/-- C14, at `Example.copyOfParam` in `Example.contextWithCopy`: the parameter
(declaration 3) is rebound from 1000 to the address 12 of its copy. -/
theorem addCopy_rebinds_parameter_witness :
    ∃ R' s', ({} : ParamReferenceReplacerRAII).addCopy (.DeclStmt [Example.copyOfParam] true)
        Example.contextWithCopy = .ok R' s' ∧
      R'.SavedLocals = DenseMap.insert [] 3 1000 ∧
      DenseMap.find s'.LocalDeclMap 3 = some 12 ∧
      DenseMap.find s'.LocalDeclMap Example.copyOfParam.decl = some 12 :=
  have h := (addCopy_rebinds_parameter {} Example.copyOfParam true Example.contextWithCopy).1
    3 1000 12 (by decide) (by decide) (by decide)
  match h with
  | ⟨R', s', h1, h2, _, h4, h5, _⟩ => ⟨R', s', h1, h2, h4, h5⟩

/-! ## The insertion point of the final suspend is set when it is read (C15) -/

theorem coreturns_pos_of_coreturnInScope (st : Stmt) (h : st.coreturnInScope = true) :
    0 < st.coreturns := by
  by_contra h0
  have := coreturnInScope_of_coreturns_zero st (by omega)
  rw [this] at h
  cases h

theorem loweredCoreturns_pos_of_flagAtFinal (S : CoroutineBodyStmt)
    (h : S.flagAtFinal false = true) : 0 < S.loweredCoreturns false := by
  unfold CoroutineBodyStmt.flagAtFinal at h
  unfold CoroutineBodyStmt.loweredCoreturns CoroutineBodyStmt.handlerCoreturns
  cases hb : S.flagAfterBody false with
  | true =>
    have hb' := hb
    unfold CoroutineBodyStmt.flagAfterBody at hb'
    simp only [Bool.false_or, Bool.or_eq_true] at hb'
    rcases hb' with (h1 | h1) | h1
    · have := coreturns_pos_of_coreturnInScope _ h1
      omega
    · have := coreturns_pos_of_coreturnInScope _ h1
      omega
    · have := coreturns_pos_of_coreturnInScope _ h1
      omega
  | false =>
    rw [hb] at h
    cases hH : S.FallthroughHandler with
    | none =>
      rw [hH] at h
      simp at h
    | some OnFallthrough =>
      rw [hH] at h
      simp only [Bool.false_or] at h
      have := coreturns_pos_of_coreturnInScope _ h
      simp only [Bool.false_eq_true, if_false]
      omega

/-- C15: `createCoroData` leaves `FinalSuspendInsPoint` without a value; and
when no `co_return` is recorded in the current scope at the start, as it is at
the start of every function body, `emitCoroutineBody` never reads
`FinalSuspendInsPoint` while it is unset: it does not end in the fault of that
read, because a positive decision on the final suspend means that a
`co_return` has been lowered to its end, which sets it. -/
theorem finalSuspendInsPoint_never_read_unset (S : CoroutineBodyStmt) (s : CIRGenFunction)
    (hScope : s.currLexScope.HasCoreturn = false) :
    (∀ CoroId d, (createCoroData CoroId s).state.CurCoro.Data = some d → s.CurCoro.Data = none →
      d.FinalSuspendInsPoint = none) ∧
    (emitCoroutineBody S s).faultOf
      ≠ some (.undefinedBehaviour "FinalSuspendInsPoint is not set") := by
  refine ⟨fun CoroId d hd hnone => ?_, ?_⟩
  · simp only [createCoroData, hnone, Res.state] at hd
    cases hd
    rfl
  rw [← avoids_iff]
  refine emitCoroutineBody_wp S s _ _ (fun _ h => h) (fun _ => trivial) (fun _ _ _ _ => trivial)
    fun t0 t hfresh hs0 _ hp => ?_
  obtain ⟨d0, hd0, _, hcnt0, _⟩ := hfresh
  obtain ⟨d, dt, hd, hdt, hc, _, hset, hf, _⟩ := hp
  rw [hd0] at hd
  cases hd
  rw [hScope] at hc hset hf
  rw [hs0, hScope] at hf
  unfold emitFinalSuspend
  rw [wp_bind, wp_hasCoreturn, wp_bind, wp_getCoroData]
  refine ⟨fun dt' hdt' => ?_, fun _ => by decide⟩
  rw [hdt] at hdt'
  cases hdt'
  dsimp only
  split
  · rename_i hcond
    have hpos : 0 < S.loweredCoreturns false := by
      rw [Bool.or_eq_true] at hcond
      rcases hcond with h1 | h1
      · rw [hf, Bool.false_or] at h1
        exact loweredCoreturns_pos_of_flagAtFinal S h1
      · rw [hc, hcnt0] at h1
        by_contra h0
        have h2 : S.loweredCoreturns false = 0 := by omega
        rw [h2, bump_zero] at h1
        simp at h1
    obtain ⟨br, hbr⟩ := hset hpos
    rw [wp_bind, wp_modifyCoroData]
    refine ⟨fun dt' hdt' => ?_, fun _ => by decide⟩
    rw [hdt] at hdt'
    cases hdt'
    rw [wp_andThen, wp_withInsertionGuard, wp_bind, wp_getCoroData]
    refine ⟨fun d1 hd1 => ?_, fun _ => by decide⟩
    cases hd1
    dsimp only
    rw [hbr]
    dsimp only
    rw [wp_bind, wp_setInsertionPoint]
    exact wp_mono (avoids_emitStmt _ _) (fun _ _ _ => ⟨fun _ => trivial, fun _ => trivial⟩)
      (fun _ h => h)
  · trivial

theorem finalSuspendInsPoint_never_read_unset_witness :
    (emitCoroutineBody Example.coroutine Example.context).faultOf
      ≠ some (.undefinedBehaviour "FinalSuspendInsPoint is not set") :=
  (finalSuspendInsPoint_never_read_unset Example.coroutine Example.context (by decide)).2

/-! ## A failure of the engine stops the lowering (C9) -/

theorem builderStable_reportless : BuilderStable (fun _ => True) Reportless :=
  { chains_grows _ with
    op := fun s pt k _ =>
      ⟨[.created { id := s.nextId, block := pt.block, kind := k }], rfl, by simp [Event.isFailed]⟩
    block := fun _ => grows_of_trace_eq rfl
    insertPt := fun _ _ => grows_of_trace_eq rfl }

theorem noFailure_append {a b : List Event} (ha : NoFailure a) (hb : NoFailure b) :
    NoFailure (a ++ b) := by
  intro ev hev
  rcases List.mem_append.mp hev with h | h
  · exact ha ev h
  · exact hb ev h

theorem stops_of_keeps {α : Type} {failed : α → Prop} {m : M α} (h : Keeps Reportless m) :
    StopsAtFailure failed m := by
  intro s
  obtain ⟨seg, e, hp⟩ := h s
  exact ⟨seg, e, Or.inl hp⟩

theorem stops_ret {α : Type} {failed : α → Prop} (a : α) : StopsAtFailure failed (M.ret a) :=
  fun s => ⟨[], by simp [M.ret, Res.state], Or.inl (by intro _ h; cases h)⟩

theorem stops_fail {α : Type} {failed : α → Prop} (f : Fault) :
    StopsAtFailure failed (M.fail f : M α) :=
  fun s => ⟨[], by simp [M.fail, Res.state], Or.inl (by intro _ h; cases h)⟩

theorem stops_reportFailure (label : Nat) :
    StopsAtFailure (fun r => r = LogicalResult.failure) (reportFailure label) :=
  fun s => ⟨[.failed label], rfl,
    Or.inr ⟨[], label, .failure, rfl, (by intro _ h; cases h), rfl, rfl⟩⟩

/-- Sequencing: after a failing result of the first call the second one adds
no event and hands the failure on; otherwise the second call stops at its
first failure. -/
theorem stops_bind {α β : Type} (fa : α → Prop) {fb : β → Prop} {m : M α} {k : α → M β}
    (hm : StopsAtFailure fa m)
    (hk1 : ∀ a, fa a → ∀ s, ∃ b s', k a s = .ok b s' ∧ fb b ∧ s'.trace = s.trace)
    (hk2 : ∀ a, ¬ fa a → StopsAtFailure fb (k a)) : StopsAtFailure fb (M.bind m k) := by
  intro s
  obtain ⟨seg1, e1, h1⟩ := hm s
  unfold M.bind
  cases hms : m s with
  | fault f s1 =>
    rw [hms] at e1 h1
    refine ⟨seg1, e1, ?_⟩
    rcases h1 with h1 | ⟨seg', l, a, _, _, hok, _⟩
    · exact Or.inl h1
    · cases hok
  | ok a s1 =>
    rw [hms] at e1 h1
    simp only [Res.state] at e1
    dsimp only
    by_cases hfa : fa a
    · obtain ⟨b, s', hk, hfb, htr⟩ := hk1 a hfa s1
      rw [hk]
      refine ⟨seg1, by simp only [Res.state]; rw [htr, e1], ?_⟩
      rcases h1 with h1 | ⟨seg', l, a', hs, hn, _, _⟩
      · exact Or.inl h1
      · exact Or.inr ⟨seg', l, b, hs, hn, rfl, hfb⟩
    · have hno : NoFailure seg1 := by
        rcases h1 with h1 | ⟨seg', l, a', _, _, hok, hfa'⟩
        · exact h1
        · simp only [Res.state] at hok
          cases hok
          exact (hfa hfa').elim
      obtain ⟨seg2, e2, h2⟩ := hk2 a hfa s1
      refine ⟨seg1 ++ seg2, by rw [e2, e1, List.append_assoc], ?_⟩
      rcases h2 with h2 | ⟨seg', l, b, hs, hn, hok, hfb⟩
      · exact Or.inl (noFailure_append hno h2)
      · refine Or.inr ⟨seg1 ++ seg', l, b, by rw [hs, List.append_assoc],
          noFailure_append hno hn, hok, hfb⟩

theorem stops_bind_frame {α β : Type} {fb : β → Prop} {m : M α} {k : α → M β}
    (hm : Keeps Reportless m) (hk : ∀ a, StopsAtFailure fb (k a)) :
    StopsAtFailure fb (M.bind m k) :=
  stops_bind (fun _ => False) (stops_of_keeps hm) (fun _ h => h.elim) fun a _ => hk a

theorem stops_andThen {m k : M LogicalResult}
    (hm : StopsAtFailure (fun r => r = LogicalResult.failure) m)
    (hk : StopsAtFailure (fun r => r = LogicalResult.failure) k) :
    StopsAtFailure (fun r => r = LogicalResult.failure) (M.andThen m k) := by
  unfold M.andThen
  refine stops_bind _ hm (fun a ha s => ?_) (fun a ha => ?_)
  · subst ha
    exact ⟨.failure, s, rfl, rfl, rfl⟩
  · cases a with
    | success => exact hk
    | failure => exact (ha rfl).elim


theorem stops_withInsertionGuard {α : Type} {failed : α → Prop} {m : M α}
    (hm : StopsAtFailure failed m) : StopsAtFailure failed (withInsertionGuard m) := by
  intro s
  obtain ⟨seg, e, h⟩ := hm s
  unfold withInsertionGuard
  cases hms : m s with
  | fault f s1 =>
    rw [hms] at e h
    refine ⟨seg, e, ?_⟩
    rcases h with h | ⟨_, _, _, _, _, hok, _⟩
    · exact Or.inl h
    · cases hok
  | ok a s1 =>
    rw [hms] at e h
    refine ⟨seg, e, ?_⟩
    rcases h with h | ⟨seg', l, a', hs, hn, hok, hf⟩
    · exact Or.inl h
    · simp only [Res.state] at hok
      cases hok
      exact Or.inr ⟨seg', l, a, hs, hn, rfl, hf⟩

theorem keeps_reportless_modify {f : CIRGenFunction → CIRGenFunction}
    (hf : ∀ s, (f s).trace = s.trace) : Keeps Reportless (M.modify f) :=
  keeps_modify fun s => grows_of_trace_eq (hf s)

theorem stops_inRegion {α : Type} {failed : α → Prop} (b : BlockId) {m : M α}
    (hm : StopsAtFailure failed m) : StopsAtFailure failed (inRegion b m) :=
  stops_withInsertionGuard
    (stops_bind_frame (keeps_setInsertionPoint builderStable_reportless _) fun _ => hm)

theorem stops_withLexicalScope {α : Type} {failed : α → Prop} (mkOp : BlockId → OpKind)
    (hmk : ∀ b, Admits (fun _ => True) (mkOp b)) {body : M α}
    (hb : StopsAtFailure failed body) : StopsAtFailure failed (withLexicalScope mkOp body) := by
  have h := builderStable_reportless
  unfold withLexicalScope
  refine stops_bind_frame (keeps_freshBlock h) fun b =>
    stops_bind_frame (keeps_create h (hmk b)) fun _ =>
      stops_bind_frame (keeps_get h.toChains) fun s0 =>
        stops_bind failed
          (stops_inRegion b
            (stops_bind_frame (keeps_reportless_modify fun _ => rfl) fun _ => hb))
          (fun a ha s => ⟨a, _, rfl, ha, rfl⟩)
          fun a _ => stops_bind_frame (keeps_reportless_modify fun _ => rfl) fun _ => stops_ret a

theorem keeps_reportless_modifyCoroData (f : CGCoroData → CGCoroData) :
    Keeps Reportless (modifyCoroData f) :=
  keeps_modifyCoroData (chains_grows _) fun _ _ _ => grows_of_trace_eq rfl

theorem keeps_reportless_createOp (k : OpKind) : Keeps Reportless (createOp k) :=
  fun s => ⟨[.created { id := s.nextId, block := s.insertPt.block, kind := k }], rfl,
    by simp [Event.isFailed]⟩

theorem stops_emitCoreturnStmt {emitPromiseCall : M LogicalResult}
    (hp : StopsAtFailure (fun r => r = LogicalResult.failure) emitPromiseCall)
    (Operand : Option Expr) :
    StopsAtFailure (fun r => r = LogicalResult.failure)
      (emitCoreturnStmt emitPromiseCall Operand) := by
  have h := builderStable_reportless
  have hs : ScopeStable Reportless := fun _ _ => grows_of_trace_eq rfl
  unfold emitCoreturnStmt
  refine stops_bind_frame (keeps_reportless_modifyCoroData _) fun _ =>
    stops_bind_frame (keeps_setCoreturn hs) fun _ =>
      stops_bind_frame ?_ fun _ => stops_andThen hp ?_
  · split
    · split
      · exact keeps_emitIgnoredExpr h _
      · exact keeps_ret h.toChains _
    · exact keeps_ret h.toChains _
  · exact stops_bind_frame (keeps_getOrCreateRetBlock h hs) fun _ =>
      stops_bind_frame (keeps_reportless_createOp _) fun _ =>
        stops_bind_frame (keeps_reportless_modifyCoroData _) fun _ =>
          stops_bind_frame (keeps_createBlock h) fun _ => stops_ret _


/-- Lowering a statement stops at the first failure that the engine reports. -/
theorem stops_emitStmt (st : Stmt) :
    StopsAtFailure (fun r => r = LogicalResult.failure) (emitStmt st) := by
  have h := builderStable_reportless
  have hc := h.toChains
  induction st with
  | other label lowers =>
    unfold emitStmt
    split
    · exact stops_bind_frame (keeps_create h (Admits.of_not_await rfl)) fun _ => stops_ret _
    · exact stops_reportFailure _
  | DeclStmt decls lowers =>
    unfold emitStmt
    split
    · exact stops_bind_frame (keeps_emitDecls h (fun _ _ => grows_of_trace_eq rfl) _) fun _ =>
        stops_ret _
    · exact stops_reportFailure _
  | seq first second ih1 ih2 =>
    unfold emitStmt
    exact stops_andThen ih1 ih2
  | scope body ih =>
    unfold emitStmt
    exact stops_withLexicalScope _ (fun _ => Admits.of_not_await rfl) ih
  | whileTrue body ih =>
    unfold emitStmt
    exact stops_withLexicalScope _ (fun _ => Admits.of_not_await rfl) ih
  | CoreturnStmt Operand PromiseCall ih =>
    unfold emitStmt
    exact stops_emitCoreturnStmt ih _
  | coawait E slot ign =>
    unfold emitStmt
    exact stops_bind_frame
      (keeps_emitCoawaitExpr h (opaqueStable_grows _) (fun _ => trivial) E slot ign) fun _ =>
        stops_ret _
  | coyield E slot ign =>
    unfold emitStmt
    exact stops_bind_frame
      (keeps_emitCoyieldExpr h (opaqueStable_grows _) trivial E slot ign) fun _ => stops_ret _

theorem stops_emitBodyAndFallthrough (S : CoroutineBodyStmt) (Body : Stmt) :
    StopsAtFailure (fun r => r = LogicalResult.failure) (emitBodyAndFallthrough S Body) := by
  unfold emitBodyAndFallthrough
  refine stops_andThen (stops_emitStmt _)
    (stops_bind_frame (keeps_hasCoreturn (chains_grows _)) fun _ => ?_)
  dsimp only
  split
  · split
    · exact stops_andThen (stops_emitStmt _) (stops_ret _)
    · exact stops_ret _
  · exact stops_ret _

theorem stops_emitFinalSuspend (S : CoroutineBodyStmt) :
    StopsAtFailure (fun r => r = LogicalResult.failure) (emitFinalSuspend S) := by
  have h := builderStable_reportless
  have hc := h.toChains
  unfold emitFinalSuspend
  refine stops_bind_frame (keeps_hasCoreturn hc) fun _ =>
    stops_bind_frame (keeps_getCoroData hc) fun _ => ?_
  dsimp only
  split
  · refine stops_bind_frame (keeps_reportless_modifyCoroData _) fun _ =>
      stops_andThen (stops_withInsertionGuard
        (stops_bind_frame (keeps_getCoroData hc) fun Data' => ?_)) (stops_ret _)
    split
    · exact stops_bind_frame (keeps_setInsertionPoint h _) fun _ => stops_emitStmt _
    · exact stops_fail _
  · exact stops_ret _

theorem stops_emitPromiseToFinalSuspend (S : CoroutineBodyStmt) :
    StopsAtFailure (fun r => r = LogicalResult.failure) (emitPromiseToFinalSuspend S) := by
  have h := builderStable_reportless
  have hc := h.toChains
  unfold emitPromiseToFinalSuspend
  refine stops_andThen (stops_emitStmt _)
    (stops_bind_frame (keeps_get hc) fun s =>
      stops_bind_frame (keeps_assert hc _ _) fun _ =>
        stops_bind_frame ?_ fun _ =>
          stops_bind_frame (keeps_reportless_modifyCoroData _) fun _ =>
            stops_andThen (stops_emitStmt _)
              (stops_bind_frame (keeps_reportless_modifyCoroData _) fun _ =>
                stops_bind_frame ?_ fun _ =>
                  stops_andThen (stops_emitBodyAndFallthrough _ _) (stops_emitFinalSuspend _)))
  · split
    · exact keeps_emitAnyExprToMem h _ _
    · exact keeps_ret hc _
  · split
    · exact keeps_assert hc _ _
    · exact keeps_ret hc _

theorem stops_emitParamMoves (PMs : List Stmt) :
    ∀ P : ParamReferenceReplacerRAII,
      StopsAtFailure (fun res => res.1 = LogicalResult.failure) (emitParamMoves PMs P) := by
  induction PMs with
  | nil =>
    intro P
    exact stops_ret _
  | cons PM rest ih =>
    intro P
    unfold emitParamMoves
    refine stops_bind _ (stops_emitStmt PM) (fun r hr s => ?_) (fun r hr => ?_)
    · subst hr
      exact ⟨(.failure, P), s, rfl, rfl, rfl⟩
    · cases r with
      | failure => exact (hr rfl).elim
      | success =>
        exact stops_bind_frame
          (keeps_addCopy (chains_grows _) (fun _ _ => grows_of_trace_eq rfl) P PM) fun P' =>
            ih P'

theorem stops_emitCoroutineBodyBlock (S : CoroutineBodyStmt) :
    StopsAtFailure (fun res => res.1 = LogicalResult.failure) (emitCoroutineBodyBlock S) := by
  have hc : Chains Reportless := chains_grows _
  unfold emitCoroutineBodyBlock
  refine stops_bind_frame (keeps_get hc) fun s =>
    stops_bind_frame (keeps_assert hc _ _) fun _ =>
      stops_bind_frame (keeps_assert hc _ _) fun _ =>
        stops_bind_frame (keeps_assert hc _ _) fun _ =>
          stops_bind _ (stops_emitParamMoves _ _) (fun copies hcp t => ?_) (fun copies hcp => ?_)
  · refine ⟨(.failure, copies.2), t, ?_, rfl, rfl⟩
    rw [hcp]
    rfl
  · have hsucc : copies.1.failed = false := by
      cases hc1 : copies.1 with
      | success => rfl
      | failure => exact (hcp hc1).elim
    rw [hsucc]
    refine stops_bind _ (stops_emitPromiseToFinalSuspend S) (fun r hr t => ?_) (fun r _ => ?_)
    · exact ⟨(r, copies.2), t, rfl, hr, rfl⟩
    · exact stops_ret _


theorem keeps_createCoroData {R : CIRGenFunction → CIRGenFunction → Prop} (hc : Chains R)
    (hcoro : ∀ s c, R s { s with CurCoro := c }) (CoroId : Value) :
    Keeps R (createCoroData CoroId) := by
  intro s
  unfold createCoroData
  split
  · exact hc.refl s
  · exact hcoro s _

theorem keeps_emitCoroutineBodyPrologue {A : AwaitKind → Prop}
    {R : CIRGenFunction → CIRGenFunction → Prop} (h : BuilderStable A R)
    (hg : ∀ s g, R s { s with globals := g })
    (hattr : ∀ s, R s { s with CoroutineAttr := true })
    (hcoro : ∀ s c, R s { s with CurCoro := c }) (S : CoroutineBodyStmt) :
    Keeps R (emitCoroutineBodyPrologue S) := by
  have hc := h.toChains
  have hna : ∀ {k : OpKind},
      (match k with | .await _ _ _ _ => true | .br _ => true | _ => false) = false →
      Keeps R (create k) := fun hk => keeps_create h (Admits.of_not_await hk)
  unfold emitCoroutineBodyPrologue
  refine keeps_bind hc (hna rfl) fun _ =>
    keeps_bind hc (keeps_get hc) fun _ =>
    keeps_bind hc (keeps_assert hc _ _) fun _ =>
    keeps_bind hc (keeps_modify fun s => hattr s) fun _ =>
    keeps_bind hc (keeps_emitCoroIDBuiltinCall h hg _) fun _ =>
    keeps_bind hc (keeps_createCoroData hc hcoro _) fun _ =>
    keeps_bind hc (keeps_emitCoroAllocBuiltinCall h hg) fun _ =>
    keeps_bind hc (keeps_get hc) fun _ =>
    keeps_bind hc (keeps_emitAlloca h _ _) fun _ =>
    keeps_bind hc (hna rfl) fun _ =>
    keeps_bind hc (keeps_createIfOp h _ ?_) fun _ =>
    keeps_bind hc (hna rfl) fun _ =>
    keeps_bind hc (keeps_emitCoroBeginBuiltinCall h hg _) fun _ =>
    keeps_bind hc (keeps_modifyCoroData hc fun s d _ => hcoro s _) fun _ => ?_
  · refine keeps_bind hc (keeps_emitScalarExpr h _) fun mem => ?_
    cases mem with
    | none => exact keeps_fail hc _
    | some v =>
      exact keeps_bind hc (hna rfl) fun _ => keeps_bind hc (hna rfl) fun _ => keeps_ret hc _
  · split
    · exact keeps_fail hc _
    · exact keeps_ret hc _

/-- C9: among the events that `emitCoroutineBody` adds to the trace, a failure
report of the statement engine (for a parameter copy, the promise declaration,
the initial suspend, the body, the fallthrough handler or the final suspend,
or a statement inside one of them) can only be the last one: nothing is
lowered after it; and when there is one, `emitCoroutineBody` returns, and
returns failure. -/
theorem failure_stops_lowering (S : CoroutineBodyStmt) (s : CIRGenFunction) :
    ∃ seg, (emitCoroutineBody S s).state.trace = s.trace ++ seg ∧
      ((∀ ev ∈ seg, ev.isFailed = false) ∨
        ∃ seg' l, seg = seg' ++ [.failed l] ∧ (∀ ev ∈ seg', ev.isFailed = false) ∧
          emitCoroutineBody S s = .ok .failure (emitCoroutineBody S s).state) := by
  have hstops : StopsAtFailure (fun r => r = LogicalResult.failure) (emitCoroutineBody S) := by
    unfold emitCoroutineBody
    refine stops_bind_frame
      (keeps_emitCoroutineBodyPrologue builderStable_reportless
        (fun _ _ => grows_of_trace_eq rfl) (fun _ => grows_of_trace_eq rfl)
        (fun _ _ => grows_of_trace_eq rfl) S) fun _ =>
      stops_bind _ (stops_emitCoroutineBodyBlock S) (fun res hres t => ?_) (fun res _ => ?_)
    · exact ⟨res.1, _, rfl, hres, rfl⟩
    · exact stops_bind_frame (keeps_reportless_modify fun _ => rfl) fun _ => stops_ret _
  obtain ⟨seg, e, h⟩ := hstops s
  refine ⟨seg, e, ?_⟩
  rcases h with h | ⟨seg', l, a, hs, hn, hok, ha⟩
  · exact Or.inl h
  · subst ha
    exact Or.inr ⟨seg', l, hs, hn, hok⟩

/-- C9, at `Example.failingInit`: the engine reports a failure for the
initial-suspend statement; `emitCoroutineBody` returns failure, and the report
is the last event. -/
theorem failingInit_returns_failure :
    (emitCoroutineBody Example.failingInit Example.context).returns .failure = true ∧
    (emitCoroutineBody Example.failingInit Example.context).state.trace.getLast?
      = some (.failed 10) := by
  decide!

/-! ## The steps of `emitCoroutineBody`, one after the other -/

theorem M.bind_eq_ok {α β : Type} {m : M α} {k : α → M β} {s s' : CIRGenFunction} {b : β}
    (h : M.bind m k s = .ok b s') : ∃ a t, m s = .ok a t ∧ k a t = .ok b s' := by
  unfold M.bind at h
  cases hm : m s with
  | ok a t =>
    rw [hm] at h
    exact ⟨a, t, rfl, h⟩
  | fault f t =>
    rw [hm] at h
    cases h

theorem M.andThen_eq_ok {m k : M LogicalResult} {s s' : CIRGenFunction}
    (h : M.andThen m k s = .ok .success s') :
    ∃ t, m s = .ok .success t ∧ k t = .ok .success s' := by
  unfold M.andThen at h
  obtain ⟨r, t, hm, hk⟩ := M.bind_eq_ok h
  cases r with
  | success => exact ⟨t, hm, hk⟩
  | failure => cases hk

theorem M.assert_eq_ok {c : Bool} {msg : String} {s s' : CIRGenFunction}
    (h : M.assert c msg s = .ok () s') : c = true ∧ s' = s := by
  unfold M.assert at h
  cases c with
  | true =>
    cases h
    exact ⟨rfl, rfl⟩
  | false => cases h

theorem modifyCoroData_eq_ok {f : CGCoroData → CGCoroData} {s s' : CIRGenFunction}
    (h : modifyCoroData f s = .ok () s') :
    ∃ d, s.CurCoro.Data = some d ∧ s' = { s with CurCoro := { Data := some (f d) } } := by
  unfold modifyCoroData at h
  cases hd : s.CurCoro.Data with
  | none =>
    rw [hd] at h
    cases h
  | some d =>
    rw [hd] at h
    cases h
    exact ⟨d, rfl, rfl⟩

theorem M.get_bind_eq_ok {β : Type} {k : CIRGenFunction → M β} {s s' : CIRGenFunction} {b : β}
    (h : M.bind M.get k s = .ok b s') : k s s = .ok b s' := h

theorem M.assert_bind_eq_ok {β : Type} {c : Bool} {msg : String} {k : Unit → M β}
    {s s' : CIRGenFunction} {b : β}
    (h : M.bind (M.assert c msg) k s = .ok b s') : c = true ∧ k () s = .ok b s' := by
  obtain ⟨u, t, ha, hk⟩ := M.bind_eq_ok h
  obtain ⟨hc, rfl⟩ := M.assert_eq_ok ha
  exact ⟨hc, hk⟩

theorem modifyCoroData_bind_eq_ok {β : Type} {f : CGCoroData → CGCoroData} {k : Unit → M β}
    {s s' : CIRGenFunction} {b : β}
    (h : M.bind (modifyCoroData f) k s = .ok b s') :
    ∃ d, s.CurCoro.Data = some d ∧
      k () { s with CurCoro := { Data := some (f d) } } = .ok b s' := by
  obtain ⟨u, t, ha, hk⟩ := M.bind_eq_ok h
  obtain ⟨d, hd, rfl⟩ := modifyCoroData_eq_ok ha
  exact ⟨d, hd, hk⟩

theorem M.ret_eq_ok {α : Type} {a b : α} {s s' : CIRGenFunction}
    (h : M.ret a s = .ok b s') : a = b ∧ s = s' := by
  unfold M.ret at h
  injection h with h1 h2
  exact ⟨h1, h2⟩

/-- A successful `emitCoroutineBody` is this sequence of successful steps, each
started in the context the one before ended in: the set-up of the frame, the
parameter copies, the promise declaration, the return object (when the
function has a return value), the initial suspend with the await kind `Init`,
the body and the fallthrough handler with the kind `User`, the decision on the
final suspend with its lowering, and the destructor of the guard of the
parameter copies. -/
theorem emitCoroutineBody_steps (S : CoroutineBodyStmt) (s s' : CIRGenFunction)
    (h : emitCoroutineBody S s = .ok .success s') :
    ∃ (tFrame tCopies tPromise tRet tInit tBody tFinal : CIRGenFunction)
      (P : ParamReferenceReplacerRAII),
      emitCoroutineBodyPrologue S s = .ok () tFrame ∧
      emitParamMoves S.ParamMoves {} tFrame = .ok (.success, P) tCopies ∧
      emitStmt S.PromiseDeclStmt tCopies = .ok .success tPromise ∧
      (match tPromise.ReturnValue with
        | some addr => emitAnyExprToMem S.ReturnValue addr tPromise = .ok () tRet
        | none => tRet = tPromise) ∧
      emitStmt S.InitSuspendStmt (withAwaitKind .Init tRet) = .ok .success tInit ∧
      emitBodyAndFallthrough S S.Body (withAwaitKind .User tInit) = .ok .success tBody ∧
      emitFinalSuspend S tBody = .ok .success tFinal ∧
      P.destructor tFinal = .ok () s' := by
  unfold emitCoroutineBody at h
  obtain ⟨_, tFrame, hFrame, h⟩ := M.bind_eq_ok h
  obtain ⟨res, tBlock, hBlock, h⟩ := M.bind_eq_ok h
  obtain ⟨_, tEnd, hDestr, h⟩ := M.bind_eq_ok h
  obtain ⟨hres, hEnd⟩ := M.ret_eq_ok h
  rw [hEnd] at hDestr
  unfold emitCoroutineBodyBlock at hBlock
  have hBlock := M.get_bind_eq_ok hBlock
  have hBlock := (M.assert_bind_eq_ok hBlock).2
  have hBlock := (M.assert_bind_eq_ok hBlock).2
  have hBlock := (M.assert_bind_eq_ok hBlock).2
  obtain ⟨copies, tCopies, hCopies, hBlock⟩ := M.bind_eq_ok hBlock
  cases hcf : copies.1 with
  | failure =>
    rw [hcf] at hBlock
    simp only [LogicalResult.failed, if_true] at hBlock
    have h1 := (M.ret_eq_ok hBlock).1
    rw [← h1] at hres
    cases hres
  | success =>
    rw [hcf] at hBlock
    simp only [LogicalResult.failed, Bool.false_eq_true, if_false] at hBlock
    obtain ⟨r, tP, hPTFS, hBlock⟩ := M.bind_eq_ok hBlock
    obtain ⟨hr, hP⟩ := M.ret_eq_ok hBlock
    rw [← hr] at hres hDestr
    simp only at hres hDestr
    rw [hres, hP] at hPTFS
    unfold emitPromiseToFinalSuspend at hPTFS
    obtain ⟨tPromise, hPromise, hPTFS⟩ := M.andThen_eq_ok hPTFS
    have hPTFS := M.get_bind_eq_ok hPTFS
    have hPTFS := (M.assert_bind_eq_ok hPTFS).2
    obtain ⟨_, tRet, hRet, hPTFS⟩ := M.bind_eq_ok hPTFS
    obtain ⟨d1, hd1, hPTFS⟩ := modifyCoroData_bind_eq_ok hPTFS
    obtain ⟨tInit, hInit, hPTFS⟩ := M.andThen_eq_ok hPTFS
    obtain ⟨d2, hd2, hPTFS⟩ := modifyCoroData_bind_eq_ok hPTFS
    obtain ⟨_, tA, hA, hPTFS⟩ := M.bind_eq_ok hPTFS
    have hA' : tA = { tInit with CurCoro := { Data := some { d2 with CurrentAwaitKind := .User } } } := by
      split at hA
      · exact (M.assert_eq_ok hA).2
      · exact (M.ret_eq_ok hA).2.symm
    rw [hA'] at hPTFS
    obtain ⟨tBody, hBody, hFinal⟩ := M.andThen_eq_ok hPTFS
    have e1 : withAwaitKind .Init tRet
        = { tRet with CurCoro := { Data := some { d1 with CurrentAwaitKind := .Init } } } := by
      unfold withAwaitKind
      rw [hd1]
      rfl
    have e2 : withAwaitKind .User tInit
        = { tInit with CurCoro := { Data := some { d2 with CurrentAwaitKind := .User } } } := by
      unfold withAwaitKind
      rw [hd2]
      rfl
    refine ⟨tFrame, tCopies, tPromise, tRet, tInit, tBody, tBlock, copies.2, hFrame, ?_,
      hPromise, ?_, by rw [e1]; exact hInit, by rw [e2]; exact hBody, hFinal, hDestr⟩
    · rw [hCopies, ← hcf]
    · cases hrv : tPromise.ReturnValue with
      | none =>
        rw [hrv] at hRet
        exact (M.ret_eq_ok hRet).2.symm
      | some addr =>
        rw [hrv] at hRet
        exact hRet

/-! ## Where the builder puts an operation -/

theorem insertBefore_skip (l : List Op) (anchor new : Op) (r : List Op)
    (h : ∀ o ∈ l, o.id ≠ anchor.id) :
    insertBefore (l ++ r) anchor new = l ++ insertBefore r anchor new := by
  induction l with
  | nil => rfl
  | cons x xs ih =>
    have hx : x.id ≠ anchor.id := h x (List.mem_cons_self _ _)
    have e : insertBefore (x :: (xs ++ r)) anchor new = x :: insertBefore (xs ++ r) anchor new := by
      simp [insertBefore, hx]
    rw [List.cons_append, e, ih fun o ho => h o (List.mem_cons_of_mem _ ho), List.cons_append]

theorem insertBefore_hit (x anchor new : Op) (r : List Op) (h : x.id = anchor.id) :
    insertBefore (x :: r) anchor new = new :: x :: r := by
  simp [insertBefore, h]

theorem insertBefore_perm (ops : List Op) (anchor new : Op) :
    (insertBefore ops anchor new).Perm (new :: ops) := by
  induction ops with
  | nil => exact List.Perm.refl _
  | cons x xs ih =>
    unfold insertBefore
    split
    · exact List.Perm.refl _
    · exact (List.Perm.cons x ih).trans (List.Perm.swap new x xs)

theorem insertOp_perm (ops : List Op) (pt : InsertPoint) (new : Op) :
    (insertOp ops pt new).Perm (new :: ops) := by
  cases pt with
  | atEnd b =>
    show (ops ++ [new]).Perm (new :: ops)
    exact List.perm_append_singleton new ops
  | before anchor => exact insertBefore_perm ops anchor new

theorem mem_insertOp {ops : List Op} {pt : InsertPoint} {new o : Op} :
    o ∈ insertOp ops pt new ↔ o = new ∨ o ∈ ops := by
  rw [(insertOp_perm ops pt new).mem_iff, List.mem_cons]

/-- Creating an operation keeps the ids distinct and below the next id. -/
theorem opsWellFormed_createOpAt (pt : InsertPoint) (k : OpKind) (s : CIRGenFunction)
    (h : OpsWellFormed s) : OpsWellFormed (createOpAt pt k s).state := by
  obtain ⟨hnd, hlt⟩ := h
  refine ⟨?_, ?_⟩
  · show ((insertOp s.ops pt _).map fun o => o.id).Nodup
    refine ((insertOp_perm s.ops pt _).map _).nodup_iff.mpr ?_
    rw [List.map_cons, List.nodup_cons]
    refine ⟨?_, hnd⟩
    intro hmem
    obtain ⟨o, ho, hid⟩ := List.mem_map.mp hmem
    have := hlt o ho
    simp only at hid
    omega
  · intro o ho
    show o.id < s.nextId + 1
    rcases mem_insertOp.mp ho with rfl | ho
    · exact Nat.lt_succ_self _
    · exact Nat.lt_succ_of_lt (hlt o ho)

theorem eq_of_id_eq {ops : List Op} (h : (ops.map fun o => o.id).Nodup) {a b : Op}
    (ha : a ∈ ops) (hb : b ∈ ops) (hid : a.id = b.id) : a = b :=
  List.inj_on_of_nodup_map h ha hb hid

theorem precedes_nil_of_mem {ops : List Op} (h : (ops.map fun o => o.id).Nodup) {br : Op}
    (hbr : br ∈ ops) : Precedes [] br ops := by
  obtain ⟨pre, post, rfl⟩ := List.append_of_mem hbr
  refine ⟨pre, post, by simp, fun o ho hid => ?_⟩
  rw [List.append_nil] at ho
  have hnd : (pre ++ br :: post).Nodup := List.Nodup.of_map _ h
  have e : o = br := eq_of_id_eq h (List.mem_append_left _ ho)
    (List.mem_append_right _ (List.mem_cons_self _ _)) hid
  subst e
  rw [List.nodup_append] at hnd
  exact hnd.2.2 ho (List.mem_cons_self _ _)

theorem precedes_append {mid : List Op} {br : Op} {ops : List Op} (h : Precedes mid br ops)
    (x : Op) : Precedes mid br (ops ++ [x]) := by
  obtain ⟨pre, post, rfl, hne⟩ := h
  exact ⟨pre, post ++ [x], by simp, hne⟩

/-- An operation put before `br` comes to stand immediately before it, after
those that stood there. -/
theorem precedes_insertBefore_self {mid : List Op} {br : Op} {ops : List Op}
    (h : Precedes mid br ops) (x : Op) (hx : x.id ≠ br.id) :
    Precedes (mid ++ [x]) br (insertBefore ops br x) := by
  obtain ⟨pre, post, rfl, hne⟩ := h
  refine ⟨pre, post, ?_, ?_⟩
  · rw [insertBefore_skip _ _ _ _ hne, insertBefore_hit _ _ _ _ rfl]
    simp
  · intro o ho
    rw [← List.append_assoc, List.mem_append, List.mem_singleton] at ho
    rcases ho with ho | rfl
    · exact hne o ho
    · exact hx

/-- An operation put before another anchor leaves in place what stands
immediately before `br`, unless the anchor is `br` or one of these operations
other than the first. -/
theorem precedes_insertBefore_other {mid : List Op} {br : Op} {ops : List Op}
    (h : Precedes mid br ops) (anchor x : Op) (hx : x.id ≠ br.id)
    (hbr : br.id ≠ anchor.id) (hmid : ∀ o ∈ mid.tail, o.id ≠ anchor.id) :
    Precedes mid br (insertBefore ops anchor x) := by
  obtain ⟨pre, post, rfl, hne⟩ := h
  induction pre with
  | nil =>
    cases mid with
    | nil =>
      refine ⟨[], insertBefore post anchor x, ?_, by simp⟩
      simp [insertBefore, hbr]
    | cons m mid' =>
      by_cases hm : m.id = anchor.id
      · refine ⟨[x], post, ?_, ?_⟩
        · simp [insertBefore, hm]
        · intro o ho
          simp only [List.singleton_append, List.mem_cons] at ho
          rcases ho with rfl | ho
          · exact hx
          · exact hne o (by simpa using ho)
      · refine ⟨[], insertBefore post anchor x, ?_, ?_⟩
        · have e : ([] : List Op) ++ m :: mid' ++ br :: post = (m :: mid') ++ br :: post := rfl
          rw [e, insertBefore_skip (m :: mid') anchor x (br :: post)]
          · simp [insertBefore, hbr]
          · intro o ho
            rcases List.mem_cons.mp ho with rfl | ho
            · exact hm
            · exact hmid o ho
        · simpa using hne
  | cons p pre' ih =>
    by_cases hp : p.id = anchor.id
    · refine ⟨x :: p :: pre', post, ?_, ?_⟩
      · simp [insertBefore, hp]
      · intro o ho
        simp only [List.cons_append, List.mem_cons] at ho
        rcases ho with rfl | ho
        · exact hx
        · exact hne o (by simpa using ho)
    · obtain ⟨pre'', post'', e, hne''⟩ := ih fun o ho =>
        hne o (by simp only [List.cons_append, List.mem_cons]; exact Or.inr ho)
      refine ⟨p :: pre'', post'', ?_, ?_⟩
      · have e' : insertBefore (p :: (pre' ++ mid ++ br :: post)) anchor x
            = p :: insertBefore (pre' ++ mid ++ br :: post) anchor x := by
          simp [insertBefore, hp]
        rw [List.cons_append, List.cons_append, e', e]
        simp
      · intro o ho
        simp only [List.cons_append, List.mem_cons] at ho
        rcases ho with rfl | ho
        · exact hne o (by simp)
        · exact hne'' o ho

/-! ## The insertion point of an alloca -/

/-- The anchor of `getBestAllocaInsertPoint` is an operation of the block that
is not preceded, in the block, by an operation that is no alloca. -/
theorem getBestAllocaInsertPoint_anchor {ops : List Op} {b : BlockId} {o : Op}
    (h : getBestAllocaInsertPoint ops b = .before o) :
    ∃ D T, blockOps ops b = D ++ o :: T ∧ ∀ D' z, D = D' ++ [z] → z.isAlloca = true := by
  unfold getBestAllocaInsertPoint at h
  have hsplit : blockOps ops b
      = ((blockOps ops b).reverse.dropWhile fun o => !o.isAlloca).reverse
        ++ ((blockOps ops b).reverse.takeWhile fun o => !o.isAlloca).reverse := by
    rw [← List.reverse_append, List.takeWhile_append_dropWhile, List.reverse_reverse]
  cases hT : ((blockOps ops b).reverse.takeWhile fun o => !o.isAlloca).reverse with
  | nil =>
    rw [hT] at h
    cases h
  | cons o' T =>
    rw [hT] at h hsplit
    simp only [InsertPoint.before.injEq] at h
    subst h
    refine ⟨_, T, hsplit, fun D' z hD => ?_⟩
    have hrev : (blockOps ops b).reverse.dropWhile (fun o => !o.isAlloca) = z :: D'.reverse := by
      have := congrArg List.reverse hD
      simpa using this
    have hne : (blockOps ops b).reverse.dropWhile (fun o => !o.isAlloca) ≠ [] := by
      rw [hrev]
      simp
    have hhead := List.head_dropWhile_not (fun o : Op => !o.isAlloca) (blockOps ops b).reverse hne
    simp only [hrev, List.head_cons] at hhead
    simpa using hhead

theorem split_unique {l1 l2 r1 r2 : List Op} {y : Op} (hnd : (l1 ++ y :: r1).Nodup)
    (h : l1 ++ y :: r1 = l2 ++ y :: r2) : l1 = l2 := by
  induction l1 generalizing l2 with
  | nil =>
    cases l2 with
    | nil => rfl
    | cons z l2' =>
      simp only [List.nil_append, List.cons_append, List.cons.injEq] at h
      obtain ⟨rfl, hr⟩ := h
      rw [List.nil_append, List.nodup_cons] at hnd
      exact absurd (by rw [hr]; simp) hnd.1
  | cons x l1' ih =>
    cases l2 with
    | nil =>
      simp only [List.nil_append, List.cons_append, List.cons.injEq] at h
      obtain ⟨rfl, hr⟩ := h
      rw [List.cons_append, List.nodup_cons] at hnd
      exact absurd (by simp) hnd.1
    | cons z l2' =>
      simp only [List.cons_append, List.cons.injEq] at h
      obtain ⟨rfl, hr⟩ := h
      rw [List.cons_append, List.nodup_cons] at hnd
      rw [ih hnd.2 hr]

/-- The anchor of `getBestAllocaInsertPoint` is no operation that follows, in
its block, an operation that is no alloca. -/
theorem getBestAllocaInsertPoint_not_after {ops : List Op} {b : BlockId} {o : Op}
    (hnd : (ops.map fun o => o.id).Nodup)
    (h : getBestAllocaInsertPoint ops b = .before o) {P Q : List Op} {x y : Op}
    (hops : ops = P ++ x :: y :: Q) (hblock : x.block = y.block) (hx : x.isAlloca = false) :
    o.id ≠ y.id := by
  intro hid
  obtain ⟨D, T, hD, hlast⟩ := getBestAllocaInsertPoint_anchor h
  have ho : o ∈ blockOps ops b := by
    rw [hD]
    simp
  have ho' : o ∈ ops := (List.mem_filter.mp ho).1
  have hb : o.block = b := by simpa using (List.mem_filter.mp ho).2
  have hy : y ∈ ops := by
    rw [hops]
    simp
  have e : o = y := eq_of_id_eq hnd ho' hy hid
  subst e
  have hxb : x.block = b := by rw [hblock, hb]
  have hfil : blockOps ops b
      = ((P.filter fun o => o.block = b) ++ [x]) ++ o :: (Q.filter fun o => o.block = b) := by
    unfold blockOps
    rw [hops]
    simp [List.filter_append, List.filter_cons, hxb, hb]
  have hnd' : (blockOps ops b).Nodup := (List.Nodup.of_map _ hnd).filter _
  have hsame : D = (P.filter fun o => o.block = b) ++ [x] := by
    refine split_unique (y := o) ?_ (hD.symm.trans hfil)
    rw [← hD]
    exact hnd'
  have := hlast _ _ hsame
  rw [hx] at this
  cases this

/-- Putting an alloca at the place `getBestAllocaInsertPoint` names leaves in
place two operations of one block that stand immediately before `br`. -/
theorem precedes_insert_alloca {c a br : Op} {ops : List Op} (h : Precedes [c, a] br ops)
    (hnd : (ops.map fun o => o.id).Nodup) (hca : c.block = a.block) (hab : a.block = br.block)
    (hc : c.isAlloca = false) (ha : a.isAlloca = false) (b : BlockId) (x : Op)
    (hx : x.id ≠ br.id) :
    Precedes [c, a] br (insertOp ops (getBestAllocaInsertPoint ops b) x) := by
  cases hpt : getBestAllocaInsertPoint ops b with
  | atEnd b' => exact precedes_append h x
  | before o =>
    obtain ⟨pre, post, hops, hne⟩ := h
    refine precedes_insertBefore_other ⟨pre, post, hops, hne⟩ o x hx ?_ ?_
    · refine fun hid => getBestAllocaInsertPoint_not_after hnd hpt (P := pre ++ [c]) (Q := post)
        (x := a) (y := br) ?_ hab ha hid.symm
      rw [hops]
      simp
    · intro m hm
      simp only [List.tail_cons, List.mem_singleton] at hm
      subst hm
      refine fun hid => getBestAllocaInsertPoint_not_after hnd hpt (P := pre) (Q := br :: post)
        (x := c) (y := m) ?_ hca hc hid.symm
      rw [hops]
      simp

/-! ## Relations through the steps of the coroutine body -/

theorem Keeps.rel {α : Type} {R : CIRGenFunction → CIRGenFunction → Prop} {m : M α}
    (h : Keeps R m) {s t : CIRGenFunction} {a : α} (he : m s = .ok a t) : R s t := by
  have h1 := h s
  rw [he] at h1
  exact h1

theorem LoweringStable.emitStmt {R : CIRGenFunction → CIRGenFunction → Prop}
    (h : LoweringStable R) (st : Stmt) : Keeps R (emitStmt st) :=
  keeps_emitStmt h.toBuilderStable h.scope h.declMap h.failure h.count h.branch
    (fun E slot ign =>
      keeps_emitCoawaitExpr h.toBuilderStable h.opaqueValues (fun _ => trivial) E slot ign)
    (fun E slot ign =>
      keeps_emitCoyieldExpr h.toBuilderStable h.opaqueValues trivial E slot ign) st

theorem LoweringStable.emitParamMoves {R : CIRGenFunction → CIRGenFunction → Prop}
    (h : LoweringStable R) (PMs : List Stmt) :
    ∀ P : ParamReferenceReplacerRAII, Keeps R (emitParamMoves PMs P) := by
  have hc := h.toChains
  induction PMs with
  | nil =>
    intro P
    exact keeps_ret hc _
  | cons PM rest ih =>
    intro P
    unfold CIRGen.emitParamMoves
    refine keeps_bind hc (h.emitStmt PM) fun r => ?_
    split
    · exact keeps_ret hc _
    · exact keeps_bind hc (keeps_addCopy hc h.declMap P PM) fun P' => ih P'

theorem LoweringStable.emitBodyAndFallthrough {R : CIRGenFunction → CIRGenFunction → Prop}
    (h : LoweringStable R) (S : CoroutineBodyStmt) (Body : Stmt) :
    Keeps R (emitBodyAndFallthrough S Body) := by
  have hc := h.toChains
  unfold CIRGen.emitBodyAndFallthrough
  refine keeps_andThen hc (h.emitStmt Body) (keeps_bind hc (keeps_hasCoreturn hc) fun f => ?_)
  dsimp only
  split
  · split
    · exact keeps_andThen hc (h.emitStmt _) (keeps_ret hc _)
    · exact keeps_ret hc _
  · exact keeps_ret hc _

/-- A relation that the lowering respects holds between the context after the
set-up of the frame and the context in which the final suspend is decided on. -/
theorem LoweringStable.steps {R : CIRGenFunction → CIRGenFunction → Prop}
    (h : LoweringStable R) {S : CoroutineBodyStmt}
    {tCopies tPromise tRet tInit tBody : CIRGenFunction}
    (hPromise : CIRGen.emitStmt S.PromiseDeclStmt tCopies = .ok .success tPromise)
    (hRet : match tPromise.ReturnValue with
      | some addr => emitAnyExprToMem S.ReturnValue addr tPromise = .ok () tRet
      | none => tRet = tPromise)
    (hInit : CIRGen.emitStmt S.InitSuspendStmt (withAwaitKind .Init tRet) = .ok .success tInit)
    (hBody : CIRGen.emitBodyAndFallthrough S S.Body (withAwaitKind .User tInit)
      = .ok .success tBody) :
    R tCopies tBody := by
  have hc := h.toChains
  have r1 : R tCopies tPromise := (h.emitStmt _).rel hPromise
  have r2 : R tPromise tRet := by
    cases hrv : tPromise.ReturnValue with
    | none =>
      rw [hrv] at hRet
      rw [hRet]
      exact hc.refl _
    | some addr =>
      rw [hrv] at hRet
      exact (keeps_emitAnyExprToMem h.toBuilderStable _ _).rel hRet
  have r3 : R tRet tInit := hc.trans _ _ _ (h.kind _ _) ((h.emitStmt _).rel hInit)
  have r4 : R tInit tBody :=
    hc.trans _ _ _ (h.kind _ _) ((h.emitBodyAndFallthrough _ _).rel hBody)
  exact hc.trans _ _ _ (hc.trans _ _ _ (hc.trans _ _ _ r1 r2) r3) r4

/-! ## The ids of the operations stay distinct -/

theorem opsWellFormed_of_eq {s t : CIRGenFunction} (h1 : t.ops = s.ops)
    (h2 : t.nextId = s.nextId) (h : OpsWellFormed s) : OpsWellFormed t := by
  unfold OpsWellFormed at h ⊢
  rw [h1, h2]
  exact h

theorem chains_wellFormedKept : Chains WellFormedKept :=
  ⟨fun _ h => h, fun _ _ _ h1 h2 h => h2 (h1 h)⟩

theorem builderStable_wellFormedKept (A : AwaitKind → Prop) : BuilderStable A WellFormedKept :=
  { chains_wellFormedKept with
    op := fun s pt k _ h => opsWellFormed_createOpAt pt k s h
    block := fun _ h => opsWellFormed_of_eq rfl rfl h
    insertPt := fun _ _ h => opsWellFormed_of_eq rfl rfl h }

theorem branchStable_wellFormedKept : BranchStable WellFormedKept := by
  intro retBlock s hwf
  have h := opsWellFormed_createOpAt s.insertPt (.br retBlock) s hwf
  cases hd : s.CurCoro.Data with
  | none =>
    rw [emitBranchToRetBlock_null retBlock s hd _ rfl]
    exact opsWellFormed_of_eq rfl rfl h
  | some d =>
    rw [emitBranchToRetBlock_eq retBlock s d hd _ rfl]
    exact opsWellFormed_of_eq rfl rfl h

theorem loweringStable_wellFormedKept : LoweringStable WellFormedKept :=
  { builderStable_wellFormedKept _ with
    opaqueValues := fun _ _ h => opsWellFormed_of_eq rfl rfl h
    scope := fun _ _ h => opsWellFormed_of_eq rfl rfl h
    declMap := fun _ _ h => opsWellFormed_of_eq rfl rfl h
    failure := fun _ _ h => opsWellFormed_of_eq rfl rfl h
    count := fun _ _ _ h => opsWellFormed_of_eq rfl rfl h
    branch := branchStable_wellFormedKept
    kind := fun _ _ h => opsWellFormed_of_eq rfl rfl h }

/-! ## `FinalSuspendInsPoint` follows the branches -/

theorem recordBranches_append (ip : Option Op) (a b : List Event) :
    recordBranches ip (a ++ b) = recordBranches (recordBranches ip a) b := by
  induction a generalizing ip with
  | nil => rfl
  | cons ev rest ih =>
    cases ev with
    | created op => exact ih _
    | failed l => exact ih _

/-- The branch recorded last is the last one created. -/
theorem recordBranches_eq_some {ip : Option Op} {seg : List Event} {br : Op}
    (h : recordBranches ip seg = some br) :
    (ip = some br ∧ ∀ op, Event.created op ∈ seg → op.isBranch = false) ∨
    ∃ before after, seg = before ++ .created br :: after ∧ br.isBranch = true ∧
      ∀ op, Event.created op ∈ after → op.isBranch = false := by
  induction seg generalizing ip with
  | nil => exact Or.inl ⟨h, by simp⟩
  | cons ev rest ih =>
    cases ev with
    | failed l =>
      rcases @ih ip h with ⟨h1, h2⟩ | ⟨before, after, h1, h2, h3⟩
      · exact Or.inl ⟨h1, fun op hop => h2 op (by simpa using hop)⟩
      · exact Or.inr ⟨.failed l :: before, after, by rw [h1]; rfl, h2, h3⟩
    | created op =>
      rcases @ih (if op.isBranch then some op else ip) h with
        ⟨h1, h2⟩ | ⟨before, after, h1, h2, h3⟩
      · cases hb : op.isBranch with
        | true =>
          rw [hb] at h1
          simp only [if_true, Option.some.injEq] at h1
          subst h1
          exact Or.inr ⟨[], rest, rfl, hb, h2⟩
        | false =>
          rw [hb] at h1
          refine Or.inl ⟨by simpa using h1, fun op' hop => ?_⟩
          rcases List.mem_cons.mp hop with e | hop
          · cases e
            exact hb
          · exact h2 op' hop
      · exact Or.inr ⟨.created op :: before, after, by rw [h1]; rfl, h2, h3⟩

theorem branchTracked_of_eq {s t : CIRGenFunction} (h1 : t.trace = s.trace)
    (h2 : t.ops = s.ops)
    (h3 : ∀ d, s.CurCoro.Data = some d →
      ∃ dt, t.CurCoro.Data = some dt ∧ dt.FinalSuspendInsPoint = d.FinalSuspendInsPoint) :
    BranchTracked s t :=
  ⟨[], by rw [h1, List.append_nil], fun o ho => by rw [h2]; exact ho,
    fun _ h => (by cases h), fun d hd => h3 d hd⟩

theorem chains_branchTracked : Chains BranchTracked := by
  refine ⟨fun s => branchTracked_of_eq rfl rfl fun d hd => ⟨d, hd, rfl⟩, ?_⟩
  rintro a b c ⟨seg1, e1, m1, c1, f1⟩ ⟨seg2, e2, m2, c2, f2⟩
  refine ⟨seg1 ++ seg2, by rw [e2, e1, List.append_assoc], fun o ho => m2 o (m1 o ho), ?_, ?_⟩
  · intro op hop
    rcases List.mem_append.mp hop with h | h
    · exact m2 op (c1 op h)
    · exact c2 op h
  · intro d hd
    obtain ⟨db, hdb, hb⟩ := f1 d hd
    obtain ⟨dc, hdc, hc⟩ := f2 db hdb
    exact ⟨dc, hdc, by rw [hc, hb, recordBranches_append]⟩

theorem isBranch_of_admits {A : AwaitKind → Prop} {k : OpKind} (hk : Admits A k) (id : Nat)
    (b : BlockId) : ({ id := id, block := b, kind := k } : Op).isBranch = false := by
  unfold Op.isBranch
  cases k with
  | br dest => exact absurd rfl (hk.2 dest)
  | _ => rfl

theorem builderStable_branchTracked (A : AwaitKind → Prop) : BuilderStable A BranchTracked :=
  { chains_branchTracked with
    op := fun s pt k hk => by
      refine ⟨[.created { id := s.nextId, block := pt.block, kind := k }], rfl,
        fun o ho => mem_insertOp.mpr (Or.inr ho), fun op hop => ?_, fun d hd => ⟨d, hd, ?_⟩⟩
      · simp only [List.mem_singleton, Event.created.injEq] at hop
        subst hop
        exact mem_insertOp.mpr (Or.inl rfl)
      · simp [recordBranches, isBranch_of_admits hk]
    block := fun _ => branchTracked_of_eq rfl rfl fun d hd => ⟨d, hd, rfl⟩
    insertPt := fun _ _ => branchTracked_of_eq rfl rfl fun d hd => ⟨d, hd, rfl⟩ }

theorem branchStable_branchTracked : BranchStable BranchTracked := by
  intro retBlock s
  cases hd : s.CurCoro.Data with
  | none =>
    rw [emitBranchToRetBlock_null retBlock s hd _ rfl]
    refine ⟨[.created { id := s.nextId, block := s.insertPt.block, kind := .br retBlock }], rfl,
      fun o ho => mem_insertOp.mpr (Or.inr ho), fun op hop => ?_, fun d hd' => ?_⟩
    · simp only [List.mem_singleton, Event.created.injEq] at hop
      subst hop
      exact mem_insertOp.mpr (Or.inl rfl)
    · rw [hd] at hd'
      cases hd'
  | some d =>
    rw [emitBranchToRetBlock_eq retBlock s d hd _ rfl]
    refine ⟨[.created { id := s.nextId, block := s.insertPt.block, kind := .br retBlock }], rfl,
      fun o ho => mem_insertOp.mpr (Or.inr ho), fun op hop => ?_, fun d' hd' => ?_⟩
    · simp only [List.mem_singleton, Event.created.injEq] at hop
      subst hop
      exact mem_insertOp.mpr (Or.inl rfl)
    · exact ⟨_, rfl, by simp [recordBranches, Op.isBranch]⟩

theorem loweringStable_branchTracked : LoweringStable BranchTracked :=
  { builderStable_branchTracked _ with
    opaqueValues := fun _ _ => branchTracked_of_eq rfl rfl fun d hd => ⟨d, hd, rfl⟩
    scope := fun _ _ => branchTracked_of_eq rfl rfl fun d hd => ⟨d, hd, rfl⟩
    declMap := fun _ _ => branchTracked_of_eq rfl rfl fun d hd => ⟨d, hd, rfl⟩
    failure := fun s l => ⟨[.failed l], rfl, fun _ ho => ho, fun _ h => (by simp at h),
      fun d hd => ⟨d, hd, rfl⟩⟩
    count := fun _ d hd => branchTracked_of_eq rfl rfl fun d' hd' => by
      rw [hd] at hd'
      cases hd'
      exact ⟨_, rfl, rfl⟩
    branch := branchStable_branchTracked
    kind := fun s k => branchTracked_of_eq rfl rfl fun d hd =>
      ⟨{ d with CurrentAwaitKind := k }, by simp [withAwaitKind, hd], rfl⟩ }

theorem precedes_insertOp_atEnd {mid : List Op} {br : Op} {ops : List Op}
    (h : Precedes mid br ops) (b : BlockId) (x : Op) :
    Precedes mid br (insertOp ops (.atEnd b) x) :=
  precedes_append h x

theorem precedes_insertOp_self {mid : List Op} {br : Op} {ops : List Op}
    (h : Precedes mid br ops) (x : Op) (hx : x.id ≠ br.id) :
    Precedes (mid ++ [x]) br (insertOp ops (.before br) x) :=
  precedes_insertBefore_self h x hx

/-- The ids of the operations in a list are distinct and below `n`. -/
theorem nodup_insertOp {ops : List Op} {n : Nat} (pt : InsertPoint) (b : BlockId) (k : OpKind)
    (h : (ops.map fun o => o.id).Nodup ∧ ∀ o ∈ ops, o.id < n) :
    ((insertOp ops pt { id := n, block := b, kind := k }).map fun o => o.id).Nodup ∧
      ∀ o ∈ insertOp ops pt { id := n, block := b, kind := k }, o.id < n + 1 := by
  obtain ⟨hnd, hlt⟩ := h
  refine ⟨?_, ?_⟩
  · refine ((insertOp_perm ops pt _).map _).nodup_iff.mpr ?_
    rw [List.map_cons, List.nodup_cons]
    refine ⟨?_, hnd⟩
    intro hmem
    obtain ⟨o, ho, hid⟩ := List.mem_map.mp hmem
    have := hlt o ho
    simp only at hid
    omega
  · intro o ho
    rcases mem_insertOp.mp ho with rfl | ho
    · exact Nat.lt_succ_self _
    · exact Nat.lt_succ_of_lt (hlt o ho)

theorem emitSuspendExpression_ops (Coro : CGCoroData) (S : CoroutineSuspendExpr)
    (Kind : AwaitKind) (aggSlot : AggValueSlot) (ignoreResult : Bool)
    (scopeParentBlock : BlockId) (tmp : Option Value) (forLValue : Bool)
    (s s' : CIRGenFunction) (res : LValueOrRValue × Option Value) (br : Op)
    (hwf : OpsWellFormed s) (hpt : s.insertPt = .before br) (hbr : br ∈ s.ops)
    (h : emitSuspendExpression Coro S Kind aggSlot ignoreResult scopeParentBlock tmp forLValue s
          = .ok res s') :
    s'.insertPt = .before br ∧
    ∀ common, lookupOpaqueValues s.OpaqueValues S.CommonExpr.opaqueRefs = some common →
      Precedes
        [{ id := s.nextId, block := br.block, kind := .lowered S.CommonExpr.label common },
         { id := s.nextId + 1, block := br.block,
           kind := .await Kind s.nextBlock (s.nextBlock + 1) (s.nextBlock + 2) }] br s'.ops := by
  apply ok_of_wp h
  simp only [emitSuspendExpression, OpaqueValueMappingData.bind, OpaqueValueMappingData.unbind,
    createAwaitOp, emitScalarExpr, evaluateExprAsBool, wp_bind, wp_lowerExpr, wp_modify,
    wp_ret, wp_fail, wp_create, wp_freshBlock, wp_inRegion, implies_true, and_true]
  intro common hcommon ready hready suspend hsuspend
  have hcid : s.nextId ≠ br.id := by
    have := hwf.2 br hbr
    omega
  have hP2 : Precedes
      [{ id := s.nextId, block := br.block, kind := .lowered S.CommonExpr.label
           (common : List Value) },
       { id := s.nextId + 1, block := br.block,
         kind := .await Kind s.nextBlock (s.nextBlock + 1) (s.nextBlock + 1 + 1) }] br
      (insertOp (insertOp s.ops (.before br)
          { id := s.nextId, block := br.block, kind := .lowered S.CommonExpr.label common })
        (.before br)
        { id := s.nextId + 1, block := br.block,
          kind := .await Kind s.nextBlock (s.nextBlock + 1) (s.nextBlock + 1 + 1) }) :=
    precedes_insertOp_self
      (precedes_insertOp_self (precedes_nil_of_mem hwf.1 hbr) _ hcid) _
      (by have := hwf.2 br hbr; simp only; omega)
  have hW2 := nodup_insertOp (.before br) br.block
    (.await Kind s.nextBlock (s.nextBlock + 1) (s.nextBlock + 1 + 1))
    (nodup_insertOp (.before br) br.block (.lowered S.CommonExpr.label common) hwf)
  have hW6 := nodup_insertOp (.atEnd (s.nextBlock + 1)) (s.nextBlock + 1) .yield
    (nodup_insertOp (.atEnd (s.nextBlock + 1)) (s.nextBlock + 1)
      (.lowered S.SuspendExpr.label suspend)
      (nodup_insertOp (.atEnd s.nextBlock) s.nextBlock (.condition (s.nextId + 1 + 1))
        (nodup_insertOp (.atEnd s.nextBlock) s.nextBlock
          (.lowered S.ReadyExpr.IgnoreParens.label ready) hW2)))
  have hP6 := precedes_insertOp_atEnd (precedes_insertOp_atEnd (precedes_insertOp_atEnd
    (precedes_insertOp_atEnd hP2 s.nextBlock
      { id := s.nextId + 1 + 1, block := s.nextBlock,
        kind := .lowered S.ReadyExpr.IgnoreParens.label ready })
    s.nextBlock
      { id := s.nextId + 1 + 1 + 1, block := s.nextBlock,
        kind := .condition (s.nextId + 1 + 1) })
    (s.nextBlock + 1)
      { id := s.nextId + 1 + 1 + 1 + 1, block := s.nextBlock + 1,
        kind := .lowered S.SuspendExpr.label suspend })
    (s.nextBlock + 1)
      { id := s.nextId + 1 + 1 + 1 + 1 + 1, block := s.nextBlock + 1, kind := .yield }
  generalize hX : insertOp (insertOp (insertOp (insertOp (insertOp (insertOp s.ops (.before br)
      { id := s.nextId, block := br.block, kind := .lowered S.CommonExpr.label common })
      (.before br)
      { id := s.nextId + 1, block := br.block,
        kind := .await Kind s.nextBlock (s.nextBlock + 1) (s.nextBlock + 1 + 1) })
      (.atEnd s.nextBlock)
      { id := s.nextId + 1 + 1, block := s.nextBlock,
        kind := .lowered S.ReadyExpr.IgnoreParens.label ready })
      (.atEnd s.nextBlock)
      { id := s.nextId + 1 + 1 + 1, block := s.nextBlock,
        kind := .condition (s.nextId + 1 + 1) })
      (.atEnd (s.nextBlock + 1))
      { id := s.nextId + 1 + 1 + 1 + 1, block := s.nextBlock + 1,
        kind := .lowered S.SuspendExpr.label suspend })
      (.atEnd (s.nextBlock + 1))
      { id := s.nextId + 1 + 1 + 1 + 1 + 1, block := s.nextBlock + 1, kind := .yield } = X
    at hW6 hP6
  have hb : (InsertPoint.before br).block = br.block := rfl
  cases hv : S.SuspendExpr.isVoidType
  · simp [wp_fail]
  · simp only [if_true, wp_bind, wp_create, wp_ret]
    split
    · simp [wp_fail]
    · simp only [wp_ret]
      rw [hpt]
      simp only [InsertPoint.block_atEnd, hb]
      rw [hX]
      have hbrX : br.id < s.nextId + 1 + 1 + 1 + 1 + 1 + 1 := by
        obtain ⟨pre, post, e, _⟩ := hP6
        exact hW6.2 br (by rw [e]; simp)
      have h2 : s.nextBlock + 2 = s.nextBlock + 1 + 1 := rfl
      rw [h2]
      cases forLValue
      · simp only [Bool.false_eq_true, if_false, emitAnyExpr]
        cases hk : S.ResumeExpr.evalKind
        · simp only [emitScalarExpr, wp_bind, wp_lowerExpr, wp_ret, implies_true, and_true]
          intro resume hresume
          cases hrv : S.ResumeExpr.isVoidType
          · simp only [Bool.false_eq_true, if_false, wp_bind, wp_get, wp_emitAlloca, wp_create,
              wp_ret, InsertPoint.block_atEnd]
            intro _ hs'
            subst hs'
            refine ⟨rfl, fun common' hc' => ?_⟩
            rw [hcommon] at hc'
            cases hc'
            dsimp only
            apply precedes_insertOp_atEnd
            apply precedes_insertOp_atEnd
            refine precedes_insert_alloca ?_ ?_ ?_ ?_ ?_ ?_ _ _ ?_
            · exact precedes_insertOp_atEnd hP6 _ _
            · exact (nodup_insertOp _ _ _ hW6).1
            · rfl
            · rfl
            · rfl
            · rfl
            · simp only
              omega
          · simp only [if_true, wp_ret, wp_create, InsertPoint.block_atEnd]
            intro _ hs'
            subst hs'
            refine ⟨rfl, fun common' hc' => ?_⟩
            rw [hcommon] at hc'
            cases hc'
            dsimp only
            apply precedes_insertOp_atEnd
            exact precedes_insertOp_atEnd hP6 _ _
        · simp [wp_bind, wp_lowerExpr, wp_ret, RValue.getScalarVal, wp_fail]
        · simp [wp_bind, wp_lowerExpr, wp_ret, RValue.getScalarVal, wp_fail]
      · simp only [if_true, emitLValue, wp_bind, wp_lowerExpr, wp_ret, wp_create, implies_true,
          and_true, InsertPoint.block_atEnd]
        intro resume hresume _ hs'
        subst hs'
        refine ⟨rfl, fun common' hc' => ?_⟩
        rw [hcommon] at hc'
        cases hc'
        dsimp only
        apply precedes_insertOp_atEnd
        exact precedes_insertOp_atEnd hP6 _ _

/-- The operations of a suspend point lowered with the insertion point before
the operation `br`: the common subexpression and the await operation come to
stand immediately before `br`, followed by the reload of the result when there
is one. -/
theorem emitSuspendExpr_ops (E : CoroutineSuspendExpr) (kind : AwaitKind) (slot : AggValueSlot)
    (ign : Bool) (s s' : CIRGenFunction) (rv : RValue) (br : Op)
    (hwf : OpsWellFormed s) (hpt : s.insertPt = .before br) (hbr : br ∈ s.ops)
    (h : emitSuspendExpr E kind slot ign s = .ok rv s') :
    ∃ (common : List Value) (reload : List Op) (rest : List Event),
      Precedes
        ([{ id := s.nextId, block := br.block, kind := .lowered E.CommonExpr.label common },
          { id := s.nextId + 1, block := br.block,
            kind := .await kind s.nextBlock (s.nextBlock + 1) (s.nextBlock + 2) }] ++ reload)
        br s'.ops ∧
      (reload = [] ∨ ∃ id addr, reload = [{ id := id, block := br.block, kind := .load addr }]) ∧
      s'.trace = s.trace ++
        .created { id := s.nextId, block := br.block,
                   kind := .lowered E.CommonExpr.label common } ::
        .created { id := s.nextId + 1, block := br.block,
                   kind := .await kind s.nextBlock (s.nextBlock + 1) (s.nextBlock + 2) } ::
        rest := by
  apply ok_of_wp h
  unfold emitSuspendExpr
  simp only [wp_bind, wp_getEntryBlock, wp_getCoroData, implies_true, and_true]
  intro d _
  refine wp_of_forall_ok fun res s1 h1 => ?_
  obtain ⟨_, _, common, ready, suspend, resume, rest, hcommon, _, _, _, htr, _⟩ :=
    emitSuspendExpression_effect _ _ _ _ _ _ _ _ _ _ _ h1
  obtain ⟨hpt1, hprec⟩ := emitSuspendExpression_ops _ _ _ _ _ _ _ _ _ _ _ br hwf hpt hbr h1
  have hP := hprec common hcommon
  have hwf1 : OpsWellFormed s1 :=
    (keeps_emitSuspendExpression (builderStable_wellFormedKept fun _ => True)
      (fun _ _ h => opsWellFormed_of_eq rfl rfl h) d E trivial slot ign
      s.currLexScope.EntryBlock none false).rel h1 hwf
  have hb : s.insertPt.block = br.block := by rw [hpt]; rfl
  have htr1 : ∃ rest1, s1.trace = s.trace ++
      .created { id := s.nextId, block := br.block,
                 kind := .lowered E.CommonExpr.label common } ::
      .created { id := s.nextId + 1, block := br.block,
                 kind := .await kind s.nextBlock (s.nextBlock + 1) (s.nextBlock + 2) } ::
      rest1 := by
    rw [htr, hb]
    simp only [suspendPointEvents, List.append_assoc, List.cons_append, List.nil_append]
    exact ⟨_, rfl⟩
  obtain ⟨rest1, htr1⟩ := htr1
  split
  · rw [wp_ret]
    rintro _ rfl
    exact ⟨common, [], rest1, by simpa using hP, Or.inl rfl, htr1⟩
  · split
    · split
      · rename_i addr _
        simp only [wp_bind, wp_create, wp_ret]
        rintro _ rfl
        have hbrid : br.id < s1.nextId := by
          obtain ⟨pre, post, e, _⟩ := hP
          exact hwf1.2 br (by rw [e]; simp)
        refine ⟨common, [{ id := s1.nextId, block := br.block, kind := .load addr }],
          rest1 ++ [.created { id := s1.nextId, block := br.block, kind := .load addr }],
          ?_, Or.inr ⟨_, _, rfl⟩, ?_⟩
        · dsimp only
          rw [hpt1]
          exact precedes_insertOp_self hP _ (by simp only; omega)
        · dsimp only
          rw [htr1, hpt1]
          simp
          rfl
      · trivial
    · split <;> trivial

/-- When the final suspend is lowered (lines 362-371): the insertion point is
set, the builder is put before it, the statement is lowered with the await
kind `Final`, and the builder returns to where it was. -/
theorem emitFinalSuspend_lowered (S : CoroutineBodyStmt) (t t' : CIRGenFunction)
    (dt : CGCoroData) (hdt : t.CurCoro.Data = some dt)
    (hcond : (t.currLexScope.HasCoreturn || decide (dt.CoreturnCount > 0)) = true)
    (h : emitFinalSuspend S t = .ok .success t') :
    ∃ br t2, dt.FinalSuspendInsPoint = some br ∧
      emitStmt S.FinalSuspendStmt
        { t with CurCoro := { Data := some { dt with CurrentAwaitKind := .Final } }
                 insertPt := .before br } = .ok .success t2 ∧
      t' = { t2 with insertPt := t.insertPt } := by
  obtain ⟨k, cid, cb, fsip, cnt, eh⟩ := dt
  apply ok_of_wp h
  unfold emitFinalSuspend
  rw [wp_bind, wp_hasCoreturn, wp_bind, wp_getCoroData]
  refine ⟨fun dt' hdt' => ?_, fun _ => trivial⟩
  rw [hdt] at hdt'
  cases hdt'
  dsimp only
  rw [if_pos hcond, wp_bind, wp_modifyCoroData]
  refine ⟨fun dt' hdt' => ?_, fun _ => trivial⟩
  rw [hdt] at hdt'
  cases hdt'
  rw [wp_andThen, wp_withInsertionGuard, wp_bind, wp_getCoroData]
  refine ⟨fun d1 hd1 => ?_, fun _ => trivial⟩
  cases hd1
  dsimp only
  cases fsip with
  | none => exact trivial
  | some op =>
    dsimp only
    rw [wp_bind, wp_setInsertionPoint]
    refine wp_of_forall_ok fun r t2 h2 => ?_
    refine ⟨fun _ hr' => (by cases hr'), fun hr => ?_⟩
    rw [wp_ret]
    intro _ hs'
    subst hr
    exact ⟨op, t2, rfl, h2, hs'.symm⟩

/-- The `co_return` statements lowered between the parameter copies and the
decision on the final suspend, read off the steps of a successful lowering. -/
theorem progress_of_steps {S : CoroutineBodyStmt}
    {tCopies tPromise tRet tInit tBody : CIRGenFunction} (d : CGCoroData)
    (hd : tCopies.CurCoro.Data = some d) (hk : d.CurrentAwaitKind ≠ .Final)
    (hPromise : emitStmt S.PromiseDeclStmt tCopies = .ok .success tPromise)
    (hRet : match tPromise.ReturnValue with
      | some addr => emitAnyExprToMem S.ReturnValue addr tPromise = .ok () tRet
      | none => tRet = tPromise)
    (hInit : emitStmt S.InitSuspendStmt (withAwaitKind .Init tRet) = .ok .success tInit)
    (hBody : emitBodyAndFallthrough S S.Body (withAwaitKind .User tInit) = .ok .success tBody) :
    Progress (S.loweredCoreturns tCopies.currLexScope.HasCoreturn)
      (S.flagAtFinal tCopies.currLexScope.HasCoreturn) tCopies tBody := by
  obtain ⟨he1, hn1, d1, hd1, hk1⟩ :=
    wp_of_eq (emitStmt_step _ hk S.PromiseDeclStmt tCopies ⟨d, hd, rfl⟩) hPromise rfl
  have p1 := progress_stmt (progress_refl hd) he1 hn1
  have step2 : tRet.CurCoro = tPromise.CurCoro ∧ tRet.currLexScope = tPromise.currLexScope ∧
      NoFinalAwait tPromise tRet := by
    cases hrv : tPromise.ReturnValue with
    | none =>
      rw [hrv] at hRet
      rw [hRet]
      exact ⟨rfl, rfl, chains_noFinalAwait.refl _⟩
    | some addr =>
      rw [hrv] at hRet
      exact wp_of_eq (emitAnyExprToMem_frame _ _ _) hRet
  obtain ⟨hc2, hs2, hn2⟩ := step2
  have p2 := progress_frame p1 hc2 (by rw [hs2]) hn2
  have hd2 : tRet.CurCoro.Data = some d1 := by rw [hc2, hd1]
  have hd3 : (withAwaitKind .Init tRet).CurCoro.Data
      = some { d1 with CurrentAwaitKind := .Init } := by
    simp [withAwaitKind, hd2]
  have p3 := progress_kind .Init p2 hd2 hd3 rfl (chains_noFinalAwait.refl _)
  obtain ⟨he4, hn4, d4, hd4, _⟩ :=
    wp_of_eq (emitStmt_step .Init (by decide) S.InitSuspendStmt _ ⟨_, hd3, rfl⟩) hInit rfl
  have p4 := progress_stmt p3 he4 hn4
  have hd5 : (withAwaitKind .User tInit).CurCoro.Data
      = some { d4 with CurrentAwaitKind := .User } := by
    simp [withAwaitKind, hd4]
  have p5 := progress_kind .User p4 hd4 hd5 rfl (chains_noFinalAwait.refl _)
  have p7 := wp_of_eq (emitBodyAndFallthrough_spec S S.Body .User (by decide) p5 ⟨_, hd5, rfl⟩)
    hBody rfl
  have hN : (0 + S.PromiseDeclStmt.coreturns + S.InitSuspendStmt.coreturns + S.Body.coreturns +
      match S.FallthroughHandler with
      | some OnFallthrough =>
        if tCopies.currLexScope.HasCoreturn ||
            (false || S.PromiseDeclStmt.coreturnInScope || S.InitSuspendStmt.coreturnInScope ||
              S.Body.coreturnInScope) then 0
        else OnFallthrough.coreturns
      | none => 0) = S.loweredCoreturns tCopies.currLexScope.HasCoreturn := by
    unfold CoroutineBodyStmt.loweredCoreturns CoroutineBodyStmt.handlerCoreturns
      CoroutineBodyStmt.flagAfterBody
    cases S.FallthroughHandler <;> simp [Bool.or_assoc]
  refine progress_cast p7 hN ?_
  unfold CoroutineBodyStmt.flagAtFinal CoroutineBodyStmt.flagAfterBody
  cases S.FallthroughHandler with
  | none => cases tCopies.currLexScope.HasCoreturn <;> simp
  | some OnFallthrough =>
    cases tCopies.currLexScope.HasCoreturn <;> cases S.PromiseDeclStmt.coreturnInScope <;>
      cases S.InitSuspendStmt.coreturnInScope <;> cases S.Body.coreturnInScope <;> simp

/-! ## The final suspend is put before the branch of the last `co_return` (C13) -/

theorem isBranch_iff {o : Op} (h : o.isBranch = true) : ∃ dest, o.kind = .br dest := by
  unfold Op.isBranch at h
  cases hk : o.kind with
  | br dest => exact ⟨dest, rfl⟩
  | _ => rw [hk] at h; cases h

/-! ## The steps of the coroutine body, in order (C8) -/

theorem emitCoroutineBodyPrologue_trace (S : CoroutineBodyStmt) (s t : CIRGenFunction)
    (h : emitCoroutineBodyPrologue S s = .ok () t) :
    ∃ allocate, t.trace = s.trace ++ frameEvents S s allocate := by
  apply ok_of_wp h
  simp only [emitCoroutineBodyPrologue, emitCoroIDBuiltinCall, emitCoroAllocBuiltinCall,
    emitCoroBeginBuiltinCall, getOrCreateBuiltin, createIfOp, emitScalarExpr,
    wp_bind, wp_lowerExpr, wp_modify, wp_get, wp_assert, wp_createCoroData, wp_getCoroData,
    wp_modifyCoroData, wp_emitAlloca,
    wp_ret, wp_fail, wp_create, wp_freshBlock, wp_inRegion, implies_true, and_true]
  intro _ _ d hd
  cases hd
  simp only [wp_create]
  intro allocate _
  cases hv : S.Allocate.isVoidType
  · simp only [Bool.false_eq_true, if_false, wp_bind, wp_create, wp_ret]
    intro d hd
    cases hd
    simp only [wp_create]
    intro d hd
    cases hd
    split
    · trivial
    · rw [wp_ret]
      rintro _ rfl
      refine ⟨allocate, ?_⟩
      simp [frameEvents, InsertPoint.block_atEnd, getBestAllocaInsertPoint_block, Nat.add_assoc]
  · simp [wp_fail]

theorem trace_of_grows {p : Event → Prop} {s t : CIRGenFunction} (h : Grows p s t) :
    t.trace = s.trace ++ newEvents s t ∧ ∀ ev ∈ newEvents s t, p ev := by
  obtain ⟨seg, e, hp⟩ := h
  rw [newEvents_of_trace_eq e]
  exact ⟨e, hp⟩

/-- The body and the fallthrough handler (lines 138-159): the body is lowered,
and then the handler if there is one and no `co_return` is recorded in the
current scope. -/
theorem emitBodyAndFallthrough_steps (S : CoroutineBodyStmt) (Body : Stmt)
    (t t' : CIRGenFunction) (h : emitBodyAndFallthrough S Body t = .ok .success t') :
    ∃ tUser, emitStmt Body t = .ok .success tUser ∧
      match S.FallthroughHandler with
      | some OnFallthrough =>
        if tUser.currLexScope.HasCoreturn then t' = tUser
        else emitStmt OnFallthrough tUser = .ok .success t'
      | none => t' = tUser := by
  unfold emitBodyAndFallthrough at h
  obtain ⟨tUser, hBody, h⟩ := M.andThen_eq_ok h
  refine ⟨tUser, hBody, ?_⟩
  have h : (if (!tUser.currLexScope.HasCoreturn) = true then
      match S.FallthroughHandler with
      | some OnFallthrough => M.andThen (emitStmt OnFallthrough) (M.ret .success)
      | none => M.ret .success
    else M.ret .success) tUser = .ok .success t' := h
  cases hH : S.FallthroughHandler with
  | none =>
    rw [hH] at h
    simp only
    split at h
    · exact (M.ret_eq_ok h).2.symm
    · exact (M.ret_eq_ok h).2.symm
  | some OnFallthrough =>
    rw [hH] at h
    simp only
    cases hf : tUser.currLexScope.HasCoreturn with
    | true =>
      rw [hf] at h
      simp only [Bool.not_true, Bool.false_eq_true, if_false, if_true] at h ⊢
      exact (M.ret_eq_ok h).2.symm
    | false =>
      rw [hf] at h
      simp only [Bool.not_false, if_true, Bool.false_eq_true, if_false] at h ⊢
      obtain ⟨t2, h1, h2⟩ := M.andThen_eq_ok h
      rw [(M.ret_eq_ok h2).2] at h1
      exact h1

/-- When the final suspend is not lowered (line 362), nothing changes. -/
theorem emitFinalSuspend_not_lowered (S : CoroutineBodyStmt) (t t' : CIRGenFunction)
    (dt : CGCoroData) (hdt : t.CurCoro.Data = some dt)
    (hcond : ¬ (t.currLexScope.HasCoreturn || decide (dt.CoreturnCount > 0)) = true)
    (h : emitFinalSuspend S t = .ok .success t') : t' = t := by
  apply ok_of_wp h
  unfold emitFinalSuspend
  rw [wp_bind, wp_hasCoreturn, wp_bind, wp_getCoroData]
  refine ⟨fun dt' hdt' => ?_, fun _ => trivial⟩
  rw [hdt] at hdt'
  cases hdt'
  dsimp only
  rw [if_neg hcond, wp_ret]
  exact fun _ e => e.symm

/-- C8: a successful `emitCoroutineBody` is this sequence of steps, each
started in the context the one before ended in and each lowered once: (1) the
set-up of the frame, whose events are, in order, the coro-id call, the
coro-alloc call, the frame slot initialised to null with the conditional
allocation, and the coro-begin call; (2) the parameter copies; (3) the promise
declaration; (4) the return object, one initialisation if the function has a
return value and nothing otherwise, right after the promise declaration and
before the initial suspend; (5) the initial suspend, with the await kind
`Init`; (6) the body, with the kind `User`; (7) the fallthrough handler, if
there is one and no `co_return` is recorded in the current scope; (8) the
final suspend with the kind `Final`, if a `co_return` is recorded in the
current scope or counted.  The trace when the call returns is the trace of
before followed by the events of these steps in this order, and the await
operations of the steps (5), (6)-(7) and (8) have the kinds `Init`, `User` and
`Final` (or `Yield`, for a `co_yield`). -/
theorem lowering_steps_in_order (S : CoroutineBodyStmt) (s s' : CIRGenFunction)
    (h : emitCoroutineBody S s = .ok .success s') :
    ∃ (tFrame tCopies tPromise tRet tInit tUser tBody tFinal : CIRGenFunction)
      (P : ParamReferenceReplacerRAII) (allocate : List Value) (dt : CGCoroData),
      emitCoroutineBodyPrologue S s = .ok () tFrame ∧
      tFrame.trace = s.trace ++ frameEvents S s allocate ∧
      emitParamMoves S.ParamMoves {} tFrame = .ok (.success, P) tCopies ∧
      emitStmt S.PromiseDeclStmt tCopies = .ok .success tPromise ∧
      (match tPromise.ReturnValue with
        | some addr =>
          emitAnyExprToMem S.ReturnValue addr tPromise = .ok () tRet ∧
          newEvents tPromise tRet =
            [.created { id := tPromise.nextId, block := tPromise.insertPt.block,
                        kind := .exprToMem S.ReturnValue.label addr }]
        | none => tRet = tPromise) ∧
      emitStmt S.InitSuspendStmt (withAwaitKind .Init tRet) = .ok .success tInit ∧
      emitStmt S.Body (withAwaitKind .User tInit) = .ok .success tUser ∧
      (match S.FallthroughHandler with
        | some OnFallthrough =>
          if tUser.currLexScope.HasCoreturn then tBody = tUser
          else emitStmt OnFallthrough tUser = .ok .success tBody
        | none => tBody = tUser) ∧
      tBody.CurCoro.Data = some dt ∧
      (if tBody.currLexScope.HasCoreturn || decide (dt.CoreturnCount > 0) then
        ∃ br t2, dt.FinalSuspendInsPoint = some br ∧
          emitStmt S.FinalSuspendStmt
            { tBody with CurCoro := { Data := some { dt with CurrentAwaitKind := .Final } }
                         insertPt := .before br } = .ok .success t2 ∧
          tFinal = { t2 with insertPt := tBody.insertPt }
       else tFinal = tBody) ∧
      P.destructor tFinal = .ok () s' ∧
      (∀ ev ∈ newEvents tRet tInit, AwaitsIn (fun k => k = .Init ∨ k = .Yield) ev) ∧
      (∀ ev ∈ newEvents tInit tBody, AwaitsIn (fun k => k = .User ∨ k = .Yield) ev) ∧
      (∀ ev ∈ newEvents tBody tFinal, AwaitsIn (fun k => k = .Final ∨ k = .Yield) ev) ∧
      s'.trace = s.trace ++ frameEvents S s allocate ++ newEvents tFrame tCopies ++
        newEvents tCopies tPromise ++ newEvents tPromise tRet ++ newEvents tRet tInit ++
        newEvents tInit tUser ++ newEvents tUser tBody ++ newEvents tBody tFinal := by
  obtain ⟨tFrame, tCopies, tPromise, tRet, tInit, tBody, tFinal, P, hFrame, hCopies, hPromise,
    hRet, hInit, hBody, hFinal, hDestr⟩ := emitCoroutineBody_steps S s s' h
  obtain ⟨tUser, hUser, hHandler⟩ := emitBodyAndFallthrough_steps S S.Body _ _ hBody
  obtain ⟨allocate, htrFrame⟩ := emitCoroutineBodyPrologue_trace S s tFrame hFrame
  -- the coroutine record and its await kind, step by step
  obtain ⟨_, _, d0, hd0, hk0, _, _⟩ := wp_of_eq (emitCoroutineBodyPrologue_spec S s) hFrame
  obtain ⟨hcoro1, _, hg1⟩ := wp_of_eq (emitParamMoves_frame S.ParamMoves {} tFrame) hCopies rfl
  have hd1 : tCopies.CurCoro.Data = some d0 := by rw [hcoro1, hd0]
  obtain ⟨⟨d2, hd2, _⟩, hg2⟩ :=
    (keeps_kindTrace_emitStmt .Init S.PromiseDeclStmt).rel hPromise ⟨d0, hd1, hk0⟩
  have hret : tRet.CurCoro = tPromise.CurCoro ∧
      tRet.trace = tPromise.trace ++ newEvents tPromise tRet ∧
      match tPromise.ReturnValue with
        | some addr =>
          emitAnyExprToMem S.ReturnValue addr tPromise = .ok () tRet ∧
          newEvents tPromise tRet =
            [.created { id := tPromise.nextId, block := tPromise.insertPt.block,
                        kind := .exprToMem S.ReturnValue.label addr }]
        | none => tRet = tPromise := by
    cases hrv : tPromise.ReturnValue with
    | none =>
      rw [hrv] at hRet
      subst hRet
      exact ⟨rfl, by simp [newEvents], rfl⟩
    | some addr =>
      rw [hrv] at hRet
      have e : tRet = (createOpAt tPromise.insertPt (.exprToMem S.ReturnValue.label addr)
          tPromise).state := by
        unfold emitAnyExprToMem create createOp at hRet
        obtain ⟨_, _, h1, h2⟩ := M.bind_eq_ok hRet
        obtain ⟨_, _, h3, h4⟩ := M.bind_eq_ok h1
        rw [← (M.ret_eq_ok h2).2, ← (M.ret_eq_ok h4).2, h3]
        rfl
      have htr : tRet.trace = tPromise.trace ++
          [.created { id := tPromise.nextId, block := tPromise.insertPt.block,
                      kind := .exprToMem S.ReturnValue.label addr }] := by
        rw [e]
        rfl
      exact ⟨by rw [e]; rfl, by rw [newEvents_of_trace_eq htr]; exact htr,
        hRet, newEvents_of_trace_eq htr⟩
  obtain ⟨hcoro3, htr3, hret⟩ := hret
  have hd3 : (withAwaitKind .Init tRet).CurCoro.Data
      = some { d2 with CurrentAwaitKind := .Init } := by
    simp [withAwaitKind, hcoro3, hd2]
  obtain ⟨⟨d4, hd4, _⟩, hg4⟩ :=
    (keeps_kindTrace_emitStmt .Init S.InitSuspendStmt).rel hInit ⟨_, hd3, rfl⟩
  have hd5 : (withAwaitKind .User tInit).CurCoro.Data
      = some { d4 with CurrentAwaitKind := .User } := by
    simp [withAwaitKind, hd4]
  obtain ⟨⟨d6, hd6, hk6⟩, hg6⟩ :=
    (keeps_kindTrace_emitStmt .User S.Body).rel hUser ⟨_, hd5, rfl⟩
  have hg7 : (∃ d, tBody.CurCoro.Data = some d ∧ d.CurrentAwaitKind = .User) ∧
      Grows (AwaitsIn fun x => x = .User ∨ x = .Yield) tUser tBody := by
    cases hH : S.FallthroughHandler with
    | none =>
      rw [hH] at hHandler
      simp only at hHandler
      subst hHandler
      exact ⟨⟨d6, hd6, hk6⟩, (chains_grows _).refl _⟩
    | some OnFallthrough =>
      rw [hH] at hHandler
      simp only at hHandler
      split at hHandler
      · subst hHandler
        exact ⟨⟨d6, hd6, hk6⟩, (chains_grows _).refl _⟩
      · exact (keeps_kindTrace_emitStmt .User OnFallthrough).rel hHandler ⟨d6, hd6, hk6⟩
  obtain ⟨⟨dt, hdt, _⟩, hg7⟩ := hg7
  -- the final suspend
  have hfinal : (if tBody.currLexScope.HasCoreturn || decide (dt.CoreturnCount > 0) then
        ∃ br t2, dt.FinalSuspendInsPoint = some br ∧
          emitStmt S.FinalSuspendStmt
            { tBody with CurCoro := { Data := some { dt with CurrentAwaitKind := .Final } }
                         insertPt := .before br } = .ok .success t2 ∧
          tFinal = { t2 with insertPt := tBody.insertPt }
       else tFinal = tBody) ∧
      Grows (AwaitsIn fun x => x = .Final ∨ x = .Yield) tBody tFinal := by
    by_cases hcond : (tBody.currLexScope.HasCoreturn || decide (dt.CoreturnCount > 0)) = true
    · rw [if_pos hcond]
      obtain ⟨br, t2, hbr, hstmt, hfin⟩ := emitFinalSuspend_lowered S tBody tFinal dt hdt hcond hFinal
      refine ⟨⟨br, t2, hbr, hstmt, hfin⟩, ?_⟩
      have hg := ((keeps_kindTrace_emitStmt .Final S.FinalSuspendStmt).rel hstmt
        ⟨_, rfl, rfl⟩).2
      rw [hfin]
      exact hg
    · rw [if_neg hcond]
      have e := emitFinalSuspend_not_lowered S tBody tFinal dt hdt hcond hFinal
      exact ⟨e, by rw [e]; exact (chains_grows _).refl _⟩
  obtain ⟨hfinal, hg8⟩ := hfinal
  -- the trace
  have e1 := (trace_of_grows hg1).1
  have e2 := (trace_of_grows hg2).1
  have e4 : tInit.trace = tRet.trace ++ newEvents tRet tInit := (trace_of_grows hg4).1
  have e6 : tUser.trace = tInit.trace ++ newEvents tInit tUser := (trace_of_grows hg6).1
  have e7 := (trace_of_grows hg7).1
  have e8 := (trace_of_grows hg8).1
  have hg67 : Grows (AwaitsIn fun x => x = .User ∨ x = .Yield) tInit tBody :=
    (chains_grows _).trans tInit tUser tBody hg6 hg7
  have hs' : s'.trace = tFinal.trace := by
    unfold ParamReferenceReplacerRAII.destructor M.modify at hDestr
    injection hDestr with _ h2
    rw [← h2]
  refine ⟨tFrame, tCopies, tPromise, tRet, tInit, tUser, tBody, tFinal, P, allocate, dt, hFrame,
    htrFrame, hCopies, hPromise, hret, hInit, hUser, hHandler, hdt, hfinal, hDestr,
    (trace_of_grows hg4).2, (trace_of_grows hg67).2, (trace_of_grows hg8).2, ?_⟩
  rw [hs', e8, e7, e6, e4, htr3, e2, e1, htrFrame]

theorem lowering_steps_in_order_witness :
    ∃ allocate rest, (emitCoroutineBody Example.coroutine Example.context).state.trace
      = frameEvents Example.coroutine Example.context allocate ++ rest := by
  obtain ⟨tFrame, tCopies, tPromise, tRet, tInit, tUser, tBody, tFinal, _, allocate, _, _, _, _,
    _, _, _, _, _, _, _, _, _, _, _, htrace⟩ :=
    lowering_steps_in_order Example.coroutine Example.context _
      (Res.eq_ok_of_returns (by decide!))
  refine ⟨allocate, newEvents tFrame tCopies ++ (newEvents tCopies tPromise ++
    (newEvents tPromise tRet ++ (newEvents tRet tInit ++ (newEvents tInit tUser ++
    (newEvents tUser tBody ++ newEvents tBody tFinal))))), htrace.trans ?_⟩
  simp only [List.append_assoc]
  rfl

/-! ## The unhandled-exception handler is never consulted (C10) -/

theorem bind_congr_keeps {α β : Type} {R : CIRGenFunction → CIRGenFunction → Prop} {m : M α}
    (hm : Keeps R m) {k k' : α → M β} {t : CIRGenFunction}
    (h : ∀ a t', R t t' → k a t' = k' a t') : M.bind m k t = M.bind m k' t := by
  have h1 := hm t
  unfold M.bind
  cases hmt : m t with
  | ok a t' =>
    rw [hmt] at h1
    exact h a t' h1
  | fault f t' => rfl

theorem loweringStable_same_missing : LoweringStable (Same fun s => s.missing) :=
  { chains_same _ with
    op := fun _ _ _ _ => rfl
    block := fun _ => rfl
    insertPt := fun _ _ => rfl
    opaqueValues := fun _ _ => rfl
    scope := fun _ _ => rfl
    declMap := fun _ _ => rfl
    failure := fun _ _ => rfl
    count := fun _ _ _ => rfl
    branch := fun retBlock s => by
      cases hd : s.CurCoro.Data with
      | none =>
        rw [emitBranchToRetBlock_null retBlock s hd _ rfl]
        rfl
      | some d =>
        rw [emitBranchToRetBlock_eq retBlock s d hd _ rfl]
        rfl
    kind := fun _ _ => rfl }

theorem emitPromiseToFinalSuspend_handler (S : CoroutineBodyStmt) (H : Option Stmt)
    (t : CIRGenFunction) (hm : t.missing.unhandledException = false) :
    emitPromiseToFinalSuspend { S with ExceptionHandler := H } t
      = emitPromiseToFinalSuspend S t := by
  unfold emitPromiseToFinalSuspend M.andThen
  refine bind_congr_keeps (loweringStable_same_missing.emitStmt S.PromiseDeclStmt) fun r t1 h1 => ?_
  have hm1 : t1.missing.unhandledException = false := by
    have : t1.missing = t.missing := h1
    rw [this, hm]
  have e : ∀ c : Bool, (if c then M.assert (!t1.missing.unhandledException) "NYI" else M.ret ())
      = M.ret () := by
    intro c
    rw [hm1]
    cases c <;> rfl
  split
  · rfl
  · show (M.bind (M.assert _ _) _) t1 = (M.bind (M.assert _ _) _) t1
    simp only [e]
    rfl

/-- C10, as the code has it: the handler that the promise type declares is
never consulted.  Whatever handler the coroutine body carries (`none` when the
promise type declares no `unhandled_exception`), `emitCoroutineBody` does
exactly what it does for the body without it, suspend points whose resume call
may throw included: the record field `ExceptionHandler`, which line 456 tests
before it raises "NYI", is set by no line of the file, and line 348 only
asserts on a feature switch.  So a lowering that succeeds without handler
succeeds with a handler, the exceptional path dropped. -/
theorem declared_handler_does_not_change_lowering (S : CoroutineBodyStmt) (H : Option Stmt)
    (s : CIRGenFunction) (hm : s.missing.unhandledException = false) :
    emitCoroutineBody { S with ExceptionHandler := H } s = emitCoroutineBody S s := by
  have hs := loweringStable_same_missing
  unfold emitCoroutineBody
  have hpro : emitCoroutineBodyPrologue { S with ExceptionHandler := H }
      = emitCoroutineBodyPrologue S := rfl
  rw [hpro]
  refine bind_congr_keeps (keeps_emitCoroutineBodyPrologue hs.toBuilderStable (fun _ _ => rfl)
    (fun _ => rfl) (fun _ _ => rfl) S) fun _ tFrame hFrame => ?_
  have hmF : tFrame.missing.unhandledException = false := by
    have : tFrame.missing = s.missing := hFrame
    rw [this, hm]
  have hblock : emitCoroutineBodyBlock { S with ExceptionHandler := H } tFrame
      = emitCoroutineBodyBlock S tFrame := by
    unfold emitCoroutineBodyBlock
    show M.bind (M.assert _ _) _ tFrame = M.bind (M.assert _ _) _ tFrame
    refine bind_congr_keeps (keeps_assert hs.toChains _ _) fun _ t1 h1 => ?_
    refine bind_congr_keeps (keeps_assert hs.toChains _ _) fun _ t2 h2 => ?_
    refine bind_congr_keeps (keeps_assert hs.toChains _ _) fun _ t3 h3 => ?_
    refine bind_congr_keeps (hs.emitParamMoves S.ParamMoves {}) fun copies t4 h4 => ?_
    have hm4 : t4.missing.unhandledException = false := by
      have e4 : t4.missing = t3.missing := h4
      have e3 : t3.missing = t2.missing := h3
      have e2 : t2.missing = t1.missing := h2
      have e1 : t1.missing = tFrame.missing := h1
      rw [e4, e3, e2, e1, hmF]
    split
    · rfl
    · unfold M.bind
      rw [emitPromiseToFinalSuspend_handler S H t4 hm4]
  unfold M.bind
  rw [hblock]

theorem declared_handler_does_not_change_lowering_witness :
    (Example.coroutineWithHandler.ExceptionHandler.isSome = true ∧
      Example.coroutineWithHandler.InitSuspendStmt
        = .coawait (Example.suspend 10 true) { isIgnored := true } true ∧
      memberCallExpressionCanThrow (Example.suspend 10 true).ResumeExpr = true) ∧
    (emitCoroutineBody Example.coroutineWithHandler Example.context).returns .success = true ∧
    (emitCoroutineBody Example.coroutineWithHandler Example.context).state.ops.any
      (fun o => match o.kind with
        | .await .Init _ _ _ => true
        | _ => false) = true := by
  refine ⟨⟨by decide, rfl, by decide⟩, ?_⟩
  have h := declared_handler_does_not_change_lowering Example.coroutine (some (.other 60 true))
    Example.context rfl
  have e : emitCoroutineBody Example.coroutineWithHandler Example.context
      = emitCoroutineBody Example.coroutine Example.context := h
  rw [e]
  exact ⟨by decide!, by decide!⟩

/-! ## The return block of the `co_return` lowered last -/

theorem M.bind_ok {α β : Type} {m : M α} {k : α → M β} {s t : CIRGenFunction} {a : α}
    (h : m s = .ok a t) : M.bind m k s = k a t := by
  unfold M.bind
  rw [h]

theorem recordBranches_isBranch {ip : Option Op} {seg : List Event} {br : Op}
    (h : recordBranches ip seg = some br) (hip : ∀ o, ip = some o → o.isBranch = true) :
    br.isBranch = true := by
  rcases recordBranches_eq_some h with ⟨h1, _⟩ | ⟨_, _, _, h2, _⟩
  · exact hip br h1
  · exact h2

theorem recordBranches_init (ip : Option Op) (seg : List Event) :
    recordBranches ip seg
      = match recordBranches none seg with
        | some o => some o
        | none => ip := by
  induction seg generalizing ip with
  | nil => cases ip <;> rfl
  | cons ev rest ih =>
    cases ev with
    | failed l => exact ih ip
    | created op =>
      show recordBranches (if op.isBranch then some op else ip) rest
        = match recordBranches (if op.isBranch then some op else none) rest with
          | some o => some o
          | none => ip
      cases hb : op.isBranch with
      | false => simpa using ih ip
      | true =>
        simp only [if_true]
        rw [ih (some op)]
        cases recordBranches none rest <;> rfl

theorem branchDest_of_isBranch {o : Op} (h : o.isBranch = true) :
    ∃ dest, o.kind = .br dest ∧ o.branchDest = some dest := by
  unfold Op.isBranch at h
  unfold Op.branchDest
  cases hk : o.kind with
  | br dest => exact ⟨dest, rfl, rfl⟩
  | _ => rw [hk] at h; cases h

theorem lastBranchDest_append (a b : List Event) :
    lastBranchDest (a ++ b)
      = match lastBranchDest b with
        | some dest => some dest
        | none => lastBranchDest a := by
  unfold lastBranchDest
  rw [recordBranches_append, recordBranches_init]
  cases hb : recordBranches none b with
  | none => rfl
  | some o =>
    obtain ⟨dest, _, hd⟩ := branchDest_of_isBranch
      (recordBranches_isBranch hb fun _ h => by cases h)
    simp [hd]

theorem lastBranchDest_of_noBranch {seg : List Event}
    (h : ∀ ev ∈ seg, ∀ op, ev = .created op → op.isBranch = false) :
    lastBranchDest seg = none := by
  unfold lastBranchDest
  cases hr : recordBranches none seg with
  | none => rfl
  | some br =>
    rcases recordBranches_eq_some hr with ⟨h1, _⟩ | ⟨before, after, hseg, hb, _⟩
    · cases h1
    · have := h (.created br) (by rw [hseg]; simp) br rfl
      rw [hb] at this
      cases this

theorem noBranch_dest {u u' : CIRGenFunction} (h : NoBranch u u') :
    u'.trace = u.trace ++ newEvents u u' ∧ lastBranchDest (newEvents u u') = none := by
  obtain ⟨seg, e, hp⟩ := h
  rw [newEvents_of_trace_eq e]
  exact ⟨e, lastBranchDest_of_noBranch hp⟩

theorem builderStable_noBranch (A : AwaitKind → Prop) : BuilderStable A NoBranch :=
  { chains_grows _ with
    op := fun s pt k hk => ⟨[.created { id := s.nextId, block := pt.block, kind := k }], rfl, by
      intro ev hev op hop
      simp only [List.mem_singleton] at hev
      subst hev
      cases hop
      exact isBranch_of_admits hk _ _⟩
    block := fun _ => grows_of_trace_eq rfl
    insertPt := fun _ _ => grows_of_trace_eq rfl }

theorem loweringStable_traceExtends : LoweringStable TraceExtends :=
  { chains_grows _ with
    op := fun s pt k _ =>
      ⟨[.created { id := s.nextId, block := pt.block, kind := k }], rfl, fun _ _ => trivial⟩
    block := fun _ => grows_of_trace_eq rfl
    insertPt := fun _ _ => grows_of_trace_eq rfl
    opaqueValues := fun _ _ => grows_of_trace_eq rfl
    scope := fun _ _ => grows_of_trace_eq rfl
    declMap := fun _ _ => grows_of_trace_eq rfl
    failure := fun s l => ⟨[.failed l], rfl, fun _ _ => trivial⟩
    count := fun _ _ _ => grows_of_trace_eq rfl
    branch := fun retBlock s => by
      cases hd : s.CurCoro.Data with
      | none =>
        rw [emitBranchToRetBlock_null retBlock s hd _ rfl]
        exact ⟨[.created { id := s.nextId, block := s.insertPt.block, kind := .br retBlock }],
          rfl, fun _ _ => trivial⟩
      | some d =>
        rw [emitBranchToRetBlock_eq retBlock s d hd _ rfl]
        exact ⟨[.created { id := s.nextId, block := s.insertPt.block, kind := .br retBlock }],
          rfl, fun _ _ => trivial⟩
    kind := fun _ _ => grows_of_trace_eq rfl }

theorem traceExtends_newEvents {u u' : CIRGenFunction} (h : TraceExtends u u') :
    u'.trace = u.trace ++ newEvents u u' := by
  obtain ⟨seg, e, _⟩ := h
  rw [newEvents_of_trace_eq e]
  exact e

theorem newEvents_trans {a b c : CIRGenFunction} (h1 : b.trace = a.trace ++ newEvents a b)
    (h2 : c.trace = b.trace ++ newEvents b c) :
    newEvents a c = newEvents a b ++ newEvents b c := by
  refine newEvents_of_trace_eq ?_
  rw [h2, h1, List.append_assoc]

theorem scopeEntry_trace (mkOp : BlockId → OpKind) (u : CIRGenFunction) :
    (scopeEntry mkOp u).trace = u.trace ++
      [.created { id := u.nextId, block := u.insertPt.block, kind := mkOp u.nextBlock }] := rfl

theorem withLexicalScope_eq_ok {α : Type} {mkOp : BlockId → OpKind} {body : M α}
    {u u' : CIRGenFunction} {a : α} (h : withLexicalScope mkOp body u = .ok a u') :
    ∃ m, body (scopeEntry mkOp u) = .ok a m ∧ u'.trace = m.trace := by
  apply ok_of_wp h
  rw [wp_withLexicalScope]
  refine wp_of_forall_ok fun a0 m hm => ?_
  rintro rfl rfl
  exact ⟨m, hm, rfl⟩

theorem lastRetBlock_seq (first second : Stmt) (u : CIRGenFunction) :
    (Stmt.seq first second).lastRetBlock u
      = match emitStmt first u with
        | .ok .success m =>
          match second.lastRetBlock m with
          | some b => some b
          | none => first.lastRetBlock u
        | _ => none := by
  rw [Stmt.lastRetBlock]

theorem lastRetBlock_scope (body : Stmt) (u : CIRGenFunction) :
    (Stmt.scope body).lastRetBlock u = body.lastRetBlock (scopeEntry .scopeOp u) := by
  rw [Stmt.lastRetBlock]

theorem lastRetBlock_whileTrue (body : Stmt) (u : CIRGenFunction) :
    (Stmt.whileTrue body).lastRetBlock u = body.lastRetBlock (scopeEntry .whileOp u) := by
  rw [Stmt.lastRetBlock]

theorem lastRetBlock_coreturn (Operand : Option Expr) (PromiseCall : Stmt)
    (u : CIRGenFunction) :
    (Stmt.CoreturnStmt Operand PromiseCall).lastRetBlock u
      = match coreturnRetBlock (emitStmt PromiseCall) Operand u with
        | .ok (some b) _ => some b
        | _ => none := by
  rw [Stmt.lastRetBlock]

/-- The steps of a `co_return` (lines 546-573), for any lowering `pre` of the
operand and any lowering `pc` of the promise call: the branch is the last
event, and it goes to the block that `getOrCreateRetBlock` returned. -/
theorem coreturn_core {pre : M Unit} {pc : M LogicalResult} (hpre : Keeps TraceExtends pre)
    (hpc : Keeps TraceExtends pc) {u u' : CIRGenFunction}
    (h : (M.bind (modifyCoroData fun d =>
            { d with CoreturnCount := (d.CoreturnCount + 1) % 2 ^ 32 }) fun _ =>
          M.bind setCoreturn fun _ =>
          M.bind pre fun _ =>
          M.andThen pc
            (M.bind getOrCreateRetBlock fun retBlock =>
             M.bind (createOp (.br retBlock)) fun br =>
             M.bind (modifyCoroData fun d => { d with FinalSuspendInsPoint := some br }) fun _ =>
             M.bind createBlock fun _ =>
             M.ret .success)) u = .ok .success u') :
    ∃ dest u5,
      (M.bind (modifyCoroData fun d =>
            { d with CoreturnCount := (d.CoreturnCount + 1) % 2 ^ 32 }) fun _ =>
          M.bind setCoreturn fun _ =>
          M.bind pre fun _ =>
          M.bind pc fun r =>
          if r.failed then M.ret none
          else M.bind getOrCreateRetBlock fun retBlock => M.ret (some retBlock)) u
        = .ok (some dest) u5 ∧
      newEvents u u' = newEvents u u5 ++
        [.created { id := u5.nextId, block := u5.insertPt.block, kind := .br dest }] := by
  have hte := loweringStable_traceExtends
  obtain ⟨_, u1, h1, h⟩ := M.bind_eq_ok h
  obtain ⟨_, u2, h2, h⟩ := M.bind_eq_ok h
  obtain ⟨_, u3, h3, h⟩ := M.bind_eq_ok h
  obtain ⟨u4, h4, h⟩ := M.andThen_eq_ok h
  obtain ⟨dest, u5, h5, h⟩ := M.bind_eq_ok h
  obtain ⟨br, u6, h6, h⟩ := M.bind_eq_ok h
  obtain ⟨_, u7, h7, h⟩ := M.bind_eq_ok h
  obtain ⟨_, u8, h8, h⟩ := M.bind_eq_ok h
  obtain ⟨-, h9⟩ := M.ret_eq_ok h
  refine ⟨dest, u5, ?_, ?_⟩
  · rw [M.bind_ok h1, M.bind_ok h2, M.bind_ok h3, M.bind_ok h4]
    simp only [LogicalResult.failed, Bool.false_eq_true, if_false]
    rw [M.bind_ok h5]
    rfl
  · have t1 := (keeps_modifyCoroData hte.toChains fun s d hd => hte.count s d hd).rel h1
    have t2 := (keeps_setCoreturn hte.scope).rel h2
    have t3 := hpre.rel h3
    have t4 := hpc.rel h4
    have t5 := (keeps_getOrCreateRetBlock hte.toBuilderStable hte.scope).rel h5
    have t15 : TraceExtends u u5 :=
      hte.trans _ _ _ (hte.trans _ _ _ (hte.trans _ _ _ (hte.trans _ _ _ t1 t2) t3) t4) t5
    have hbr : u6.trace = u5.trace ++
        [.created { id := u5.nextId, block := u5.insertPt.block, kind := .br dest }] := by
      unfold createOp createOpAt at h6
      injection h6 with e1 e2
      rw [← e2]
    have t7 : u7.trace = u6.trace := by
      obtain ⟨d, _, e⟩ := modifyCoroData_eq_ok h7
      rw [e]
    have t8 : u8.trace = u7.trace := by
      apply ok_of_wp h8
      rw [wp_createBlock]
      rintro _ rfl
      rfl
    refine newEvents_of_trace_eq ?_
    rw [← h9, t8, t7, hbr, traceExtends_newEvents t15, List.append_assoc]

/-- The branch that a successful lowering of a statement creates last goes to
the return block that `getOrCreateRetBlock` handed to the `co_return` lowered
last. -/
theorem emitStmt_lastRetBlock (st : Stmt) :
    ∀ u u' : CIRGenFunction, emitStmt st u = .ok .success u' →
      lastBranchDest (newEvents u u') = st.lastRetBlock u := by
  have hb := builderStable_noBranch fun _ => True
  have hc := hb.toChains
  have ho : OpaqueStable NoBranch := fun _ _ => grows_of_trace_eq rfl
  have hd : DeclMapStable NoBranch := fun _ _ => grows_of_trace_eq rfl
  have hf : FailureStable NoBranch := fun s l => ⟨[.failed l], rfl, by
    intro ev hev op hop
    simp only [List.mem_singleton] at hev
    subst hev
    cases hop⟩
  have hte := loweringStable_traceExtends
  induction st with
  | other label lowers =>
    intro u u' h
    have hk : Keeps NoBranch (emitStmt (.other label lowers)) := by
      unfold emitStmt
      split
      · exact keeps_bind hc (keeps_create hb (Admits.of_not_await rfl)) fun _ => keeps_ret hc _
      · exact keeps_reportFailure hf _
    exact (noBranch_dest (hk.rel h)).2
  | DeclStmt decls lowers =>
    intro u u' h
    have hk : Keeps NoBranch (emitStmt (.DeclStmt decls lowers)) := by
      unfold emitStmt
      split
      · exact keeps_bind hc (keeps_emitDecls hb hd _) fun _ => keeps_ret hc _
      · exact keeps_reportFailure hf _
    exact (noBranch_dest (hk.rel h)).2
  | coawait E slot ign =>
    intro u u' h
    have hk : Keeps NoBranch (emitStmt (.coawait E slot ign)) := by
      unfold emitStmt
      exact keeps_bind hc (keeps_emitCoawaitExpr hb ho (fun _ => trivial) E slot ign) fun _ =>
        keeps_ret hc _
    exact (noBranch_dest (hk.rel h)).2
  | coyield E slot ign =>
    intro u u' h
    have hk : Keeps NoBranch (emitStmt (.coyield E slot ign)) := by
      unfold emitStmt
      exact keeps_bind hc (keeps_emitCoyieldExpr hb ho trivial E slot ign) fun _ =>
        keeps_ret hc _
    exact (noBranch_dest (hk.rel h)).2
  | seq first second ih1 ih2 =>
    intro u u' h
    unfold emitStmt at h
    obtain ⟨m, h1, h2⟩ := M.andThen_eq_ok h
    have e1 := traceExtends_newEvents ((hte.emitStmt first).rel h1)
    have e2 := traceExtends_newEvents ((hte.emitStmt second).rel h2)
    rw [newEvents_trans e1 e2, lastBranchDest_append, ih1 u m h1, ih2 m u' h2,
      lastRetBlock_seq, h1]
  | scope body ih =>
    intro u u' h
    unfold emitStmt at h
    obtain ⟨m, hm, htr⟩ := withLexicalScope_eq_ok h
    have e2 := traceExtends_newEvents ((hte.emitStmt body).rel hm)
    have e1 : (scopeEntry .scopeOp u).trace = u.trace ++ newEvents u (scopeEntry .scopeOp u) := by
      rw [newEvents_of_trace_eq (scopeEntry_trace _ u)]
      rfl
    have e : newEvents u u' = newEvents u (scopeEntry .scopeOp u)
        ++ newEvents (scopeEntry .scopeOp u) m := by
      refine newEvents_of_trace_eq ?_
      rw [htr, e2, e1, List.append_assoc]
    rw [e, lastBranchDest_append, ih _ m hm, lastRetBlock_scope]
    cases hl : body.lastRetBlock (scopeEntry .scopeOp u) with
    | some b => rfl
    | none =>
      rw [newEvents_of_trace_eq (scopeEntry_trace _ u)]
      rfl
  | whileTrue body ih =>
    intro u u' h
    unfold emitStmt at h
    obtain ⟨m, hm, htr⟩ := withLexicalScope_eq_ok h
    have e2 := traceExtends_newEvents ((hte.emitStmt body).rel hm)
    have e1 : (scopeEntry .whileOp u).trace = u.trace ++ newEvents u (scopeEntry .whileOp u) := by
      rw [newEvents_of_trace_eq (scopeEntry_trace _ u)]
      rfl
    have e : newEvents u u' = newEvents u (scopeEntry .whileOp u)
        ++ newEvents (scopeEntry .whileOp u) m := by
      refine newEvents_of_trace_eq ?_
      rw [htr, e2, e1, List.append_assoc]
    rw [e, lastBranchDest_append, ih _ m hm, lastRetBlock_whileTrue]
    cases hl : body.lastRetBlock (scopeEntry .whileOp u) with
    | some b => rfl
    | none =>
      rw [newEvents_of_trace_eq (scopeEntry_trace _ u)]
      rfl
  | CoreturnStmt Operand PromiseCall _ =>
    intro u u' h
    unfold emitStmt emitCoreturnStmt at h
    rw [lastRetBlock_coreturn]
    unfold coreturnRetBlock
    have hpc := hte.emitStmt PromiseCall
    cases Operand with
    | none =>
      obtain ⟨dest, u5, hB, hev⟩ := coreturn_core (keeps_ret hte.toChains ()) hpc h
      rw [hev, lastBranchDest_append]
      dsimp only
      rw [hB]
      rfl
    | some RV =>
      have hpre : Keeps TraceExtends
          (if RV.isVoidType && !RV.isInitListExpr then emitIgnoredExpr RV else M.ret ()) := by
        split
        · exact keeps_emitIgnoredExpr hte.toBuilderStable _
        · exact keeps_ret hte.toChains _
      obtain ⟨dest, u5, hB, hev⟩ := coreturn_core hpre hpc h
      rw [hev, lastBranchDest_append]
      dsimp only
      rw [hB]
      rfl

theorem trace_trans {a b c : CIRGenFunction} (h1 : b.trace = a.trace ++ newEvents a b)
    (h2 : c.trace = b.trace ++ newEvents b c) :
    c.trace = a.trace ++ newEvents a c := by
  rw [newEvents_trans h1 h2, h2, h1, List.append_assoc]

/-- Between the parameter copies and the decision on the final suspend, the
branch created last goes to the return block handed to the `co_return`
lowered last, among those of the promise declaration, the initial suspend,
the body and the fallthrough handler. -/
theorem lastBranchDest_of_steps {S : CoroutineBodyStmt}
    {tCopies tPromise tRet tInit tUser tBody : CIRGenFunction}
    (hPromise : emitStmt S.PromiseDeclStmt tCopies = .ok .success tPromise)
    (hRet : match tPromise.ReturnValue with
      | some addr => emitAnyExprToMem S.ReturnValue addr tPromise = .ok () tRet
      | none => tRet = tPromise)
    (hInit : emitStmt S.InitSuspendStmt (withAwaitKind .Init tRet) = .ok .success tInit)
    (hUser : emitStmt S.Body (withAwaitKind .User tInit) = .ok .success tUser)
    (hHandler : match S.FallthroughHandler with
      | some OnFallthrough =>
        if tUser.currLexScope.HasCoreturn then tBody = tUser
        else emitStmt OnFallthrough tUser = .ok .success tBody
      | none => tBody = tUser) :
    tBody.trace = tCopies.trace ++ newEvents tCopies tBody ∧
    lastBranchDest (newEvents tCopies tBody) =
      lastOf [S.PromiseDeclStmt.lastRetBlock tCopies,
        S.InitSuspendStmt.lastRetBlock (withAwaitKind .Init tRet),
        S.Body.lastRetBlock (withAwaitKind .User tInit),
        match S.FallthroughHandler with
        | some OnFallthrough =>
          if tUser.currLexScope.HasCoreturn then none else OnFallthrough.lastRetBlock tUser
        | none => none] := by
  have hte := loweringStable_traceExtends
  have hnb := builderStable_noBranch fun _ => True
  -- the promise declaration
  have e1 := traceExtends_newEvents ((hte.emitStmt _).rel hPromise)
  have l1 := emitStmt_lastRetBlock _ _ _ hPromise
  -- the return object
  have h2 : tRet.trace = tPromise.trace ++ newEvents tPromise tRet ∧
      lastBranchDest (newEvents tPromise tRet) = none := by
    cases hrv : tPromise.ReturnValue with
    | none =>
      rw [hrv] at hRet
      rw [hRet]
      exact noBranch_dest (hnb.refl _)
    | some addr =>
      rw [hrv] at hRet
      exact noBranch_dest ((keeps_emitAnyExprToMem hnb _ _).rel hRet)
  obtain ⟨e2, l2⟩ := h2
  -- the initial suspend and the body
  have r3 : TraceExtends (withAwaitKind .Init tRet) tInit := (hte.emitStmt _).rel hInit
  have e3 : tInit.trace = tRet.trace ++ newEvents tRet tInit := traceExtends_newEvents r3
  have l3 : lastBranchDest (newEvents tRet tInit)
      = S.InitSuspendStmt.lastRetBlock (withAwaitKind .Init tRet) :=
    emitStmt_lastRetBlock _ _ _ hInit
  have r4 : TraceExtends (withAwaitKind .User tInit) tUser := (hte.emitStmt _).rel hUser
  have e4 : tUser.trace = tInit.trace ++ newEvents tInit tUser := traceExtends_newEvents r4
  have l4 : lastBranchDest (newEvents tInit tUser)
      = S.Body.lastRetBlock (withAwaitKind .User tInit) :=
    emitStmt_lastRetBlock _ _ _ hUser
  -- the fallthrough handler
  have h5 : tBody.trace = tUser.trace ++ newEvents tUser tBody ∧
      lastBranchDest (newEvents tUser tBody) =
        match S.FallthroughHandler with
        | some OnFallthrough =>
          if tUser.currLexScope.HasCoreturn then none else OnFallthrough.lastRetBlock tUser
        | none => none := by
    cases hH : S.FallthroughHandler with
    | none =>
      rw [hH] at hHandler
      simp only at hHandler ⊢
      rw [hHandler]
      exact noBranch_dest (hnb.refl _)
    | some OnFallthrough =>
      rw [hH] at hHandler
      simp only at hHandler ⊢
      cases hf : tUser.currLexScope.HasCoreturn with
      | true =>
        rw [hf] at hHandler
        simp only [if_true] at hHandler ⊢
        rw [hHandler]
        exact noBranch_dest (hnb.refl _)
      | false =>
        rw [hf] at hHandler
        simp only [Bool.false_eq_true, if_false] at hHandler ⊢
        exact ⟨traceExtends_newEvents ((hte.emitStmt _).rel hHandler),
          emitStmt_lastRetBlock _ _ _ hHandler⟩
  obtain ⟨e5, l5⟩ := h5
  have e12 := trace_trans e1 e2
  have e13 := trace_trans e12 e3
  have e14 := trace_trans e13 e4
  have e15 := trace_trans e14 e5
  refine ⟨e15, ?_⟩
  rw [newEvents_trans e14 e5, newEvents_trans e13 e4, newEvents_trans e12 e3,
    newEvents_trans e1 e2]
  simp only [lastBranchDest_append, l1, l2, l3, l4, l5, lastOf]
  cases S.FallthroughHandler with
  | none =>
    cases S.Body.lastRetBlock (withAwaitKind .User tInit) <;>
      cases S.InitSuspendStmt.lastRetBlock (withAwaitKind .Init tRet) <;> rfl
  | some OnFallthrough =>
    dsimp only
    cases tUser.currLexScope.HasCoreturn with
    | true =>
      cases S.Body.lastRetBlock (withAwaitKind .User tInit) <;>
        cases S.InitSuspendStmt.lastRetBlock (withAwaitKind .Init tRet) <;> rfl
    | false =>
      simp only [Bool.false_eq_true, if_false]
      cases OnFallthrough.lastRetBlock tUser <;>
        cases S.Body.lastRetBlock (withAwaitKind .User tInit) <;>
        cases S.InitSuspendStmt.lastRetBlock (withAwaitKind .Init tRet) <;> rfl

/-- C13: let a coroutine body whose final-suspend statement is a `co_await` be
lowered successfully, with at least one `co_return` lowered and with the
final suspend lowered, in a context whose operations have distinct ids.  Name
the contexts between the steps of the call as they follow from one another,
`t` being the one in which the final suspend is decided on and lowered.  Then
(1) in `t`, `FinalSuspendInsPoint` is the operation `br`, the last branch
that was created since the call began; (2) `br` is a branch to the block
`dest`, and `dest` is the return block that `getOrCreateRetBlock` handed to
the `co_return` lowered last, among those of the promise declaration, the
initial suspend, the body and the fallthrough handler; (3) the operations that
the final suspend puts at the insertion point, i.e. the common subexpression,
the await operation of kind `Final` and the reload of the result if there is
one, are new, are in the block of `br`, and stand immediately before `br` in
the list of operations when `emitCoroutineBody` returns. -/
theorem final_suspend_is_put_before_last_branch (S : CoroutineBodyStmt)
    (E : CoroutineSuspendExpr) (slot : AggValueSlot) (ign : Bool) (s s' : CIRGenFunction)
    (hF : S.FinalSuspendStmt = .coawait E slot ign) (hwf : OpsWellFormed s)
    (hn : 0 < S.loweredCoreturns s.currLexScope.HasCoreturn)
    (h : emitCoroutineBody S s = .ok .success s') (hlow : finalSuspendLowered s s' = true) :
    ∃ (tFrame tCopies tPromise tRet tInit tUser t tFinal : CIRGenFunction)
      (P : ParamReferenceReplacerRAII) (dt : CGCoroData) (br : Op) (dest : BlockId)
      (before after : List Event),
      emitCoroutineBodyPrologue S s = .ok () tFrame ∧
      emitParamMoves S.ParamMoves {} tFrame = .ok (.success, P) tCopies ∧
      emitStmt S.PromiseDeclStmt tCopies = .ok .success tPromise ∧
      (match tPromise.ReturnValue with
        | some addr => emitAnyExprToMem S.ReturnValue addr tPromise = .ok () tRet
        | none => tRet = tPromise) ∧
      emitStmt S.InitSuspendStmt (withAwaitKind .Init tRet) = .ok .success tInit ∧
      emitStmt S.Body (withAwaitKind .User tInit) = .ok .success tUser ∧
      (match S.FallthroughHandler with
        | some OnFallthrough =>
          if tUser.currLexScope.HasCoreturn then t = tUser
          else emitStmt OnFallthrough tUser = .ok .success t
        | none => t = tUser) ∧
      emitFinalSuspend S t = .ok .success tFinal ∧ P.destructor tFinal = .ok () s' ∧
      t.trace = s.trace ++ before ++ .created br :: after ∧
      (∀ op, Event.created op ∈ after → op.isBranch = false) ∧
      t.CurCoro.Data = some dt ∧ dt.FinalSuspendInsPoint = some br ∧
      br.kind = .br dest ∧
      lastOf [S.PromiseDeclStmt.lastRetBlock tCopies,
        S.InitSuspendStmt.lastRetBlock (withAwaitKind .Init tRet),
        S.Body.lastRetBlock (withAwaitKind .User tInit),
        match S.FallthroughHandler with
        | some OnFallthrough =>
          if tUser.currLexScope.HasCoreturn then none else OnFallthrough.lastRetBlock tUser
        | none => none] = some dest ∧
      ∃ (common : List Value) (reload pre post : List Op) (rest : List Event),
        s'.ops = pre ++
          ([{ id := t.nextId, block := br.block, kind := .lowered E.CommonExpr.label common },
            { id := t.nextId + 1, block := br.block,
              kind := .await .Final t.nextBlock (t.nextBlock + 1) (t.nextBlock + 2) }] ++ reload)
          ++ br :: post ∧
        (reload = [] ∨
          ∃ id addr, reload = [{ id := id, block := br.block, kind := .load addr }]) ∧
        (∀ o ∈ t.ops, o.id < t.nextId) ∧
        s'.trace = t.trace ++
          .created { id := t.nextId, block := br.block,
                     kind := .lowered E.CommonExpr.label common } ::
          .created { id := t.nextId + 1, block := br.block,
                     kind := .await .Final t.nextBlock (t.nextBlock + 1) (t.nextBlock + 2) } ::
          rest := by
  obtain ⟨tFrame, tCopies, tPromise, tRet, tInit, tBody, tFinal, P, hFrame, hCopies, hPromise,
    hRet, hInit, hBody, hFinal, hDestr⟩ := emitCoroutineBody_steps S s s' h
  -- the set-up of the frame and the parameter copies
  obtain ⟨hsc0, ⟨seg0, htr0, hnf0⟩, d0, hd0, hk0, hc0, hip0⟩ :=
    wp_of_eq (emitCoroutineBodyPrologue_spec S s) hFrame
  obtain ⟨hcoro1, hsc1, seg1, htr1, hnf1⟩ :=
    wp_of_eq (emitParamMoves_frame S.ParamMoves {} tFrame) hCopies rfl
  have hwKept := loweringStable_wellFormedKept
  have hwfFrame : OpsWellFormed tFrame :=
    (keeps_emitCoroutineBodyPrologue (builderStable_wellFormedKept fun _ => True)
      (fun _ _ h => opsWellFormed_of_eq rfl rfl h) (fun _ h => opsWellFormed_of_eq rfl rfl h)
      (fun _ _ h => opsWellFormed_of_eq rfl rfl h) S).rel hFrame hwf
  have hwfCopies : OpsWellFormed tCopies := (hwKept.emitParamMoves _ _).rel hCopies hwfFrame
  have hwfBody : OpsWellFormed tBody := hwKept.steps hPromise hRet hInit hBody hwfCopies
  have hd1 : tCopies.CurCoro.Data = some d0 := by rw [hcoro1, hd0]
  have hflag : tCopies.currLexScope.HasCoreturn = s.currLexScope.HasCoreturn := by
    rw [hsc1, hsc0]
  -- the co_return statements lowered, and the branches created
  have hp := progress_of_steps d0 hd1 (by rw [hk0]; decide) hPromise hRet hInit hBody
  rw [hflag] at hp
  obtain ⟨d, dt, hd, hdt, hcount, _, hset, _, hnf⟩ := hp
  rw [hd1] at hd
  cases hd
  obtain ⟨br, hbr⟩ := hset hn
  obtain ⟨seg, htr, _, hcreated, hrec⟩ :=
    loweringStable_branchTracked.steps hPromise hRet hInit hBody
  obtain ⟨dt', hdt', hrec'⟩ := hrec d0 hd1
  rw [hdt] at hdt'
  cases hdt'
  rw [hip0, hbr] at hrec'
  rcases recordBranches_eq_some hrec'.symm with ⟨hnone, _⟩ | ⟨before, after, hseg, hisbr, hafter⟩
  · cases hnone
  obtain ⟨dest, hdest⟩ := isBranch_iff hisbr
  have hbrmem : br ∈ tBody.ops := hcreated br (by rw [hseg]; simp)
  -- the final suspend is lowered
  have hs'tr : s'.trace = tFinal.trace := by
    unfold ParamReferenceReplacerRAII.destructor M.modify at hDestr
    injection hDestr with _ h2
    rw [← h2]
  have hcond : (tBody.currLexScope.HasCoreturn || decide (dt.CoreturnCount > 0)) = true := by
    by_contra hc
    have hskip : tFinal = tBody := by
      apply ok_of_wp hFinal
      unfold emitFinalSuspend
      rw [wp_bind, wp_hasCoreturn, wp_bind, wp_getCoroData]
      refine ⟨fun dt' hdt' => ?_, fun _ => trivial⟩
      rw [hdt] at hdt'
      cases hdt'
      dsimp only
      rw [if_neg hc, wp_ret]
      exact fun _ e => e.symm
    have hno : NoFinalAwait s s' := by
      obtain ⟨sg, e, hp⟩ := chains_noFinalAwait.trans _ _ _
        (chains_noFinalAwait.trans _ _ _ ⟨seg0, htr0, hnf0⟩ ⟨seg1, htr1, hnf1⟩) hnf
      exact ⟨sg, by rw [hs'tr, hskip, e], hp⟩
    rw [finalSuspendLowered_of_noFinalAwait hno] at hlow
    cases hlow
  obtain ⟨br', t2, hbr', hstmt, hfin⟩ := emitFinalSuspend_lowered S tBody tFinal dt hdt hcond hFinal
  rw [hbr] at hbr'
  cases hbr'
  rw [hF] at hstmt
  unfold emitStmt emitCoawaitExpr at hstmt
  obtain ⟨rv, t3, hsusp, hret⟩ := M.bind_eq_ok hstmt
  obtain ⟨-, rfl⟩ := M.ret_eq_ok hret
  obtain ⟨dK, tK, hget, hsusp⟩ := M.bind_eq_ok hsusp
  have hgetK : dK = { dt with CurrentAwaitKind := .Final } ∧
      tK = { tBody with CurCoro := { Data := some { dt with CurrentAwaitKind := .Final } }
                        insertPt := .before br } := by
    unfold getCoroData at hget
    simp only at hget
    injection hget with h1 h2
    exact ⟨h1.symm, h2.symm⟩
  obtain ⟨rfl, rfl⟩ := hgetK
  obtain ⟨common, reload, rest, ⟨pre, post, hops, _⟩, hreload, htrace⟩ :=
    emitSuspendExpr_ops E .Final slot ign
      { tBody with CurCoro := { Data := some { dt with CurrentAwaitKind := .Final } }
                   insertPt := .before br }
      t3 rv br (opsWellFormed_of_eq rfl rfl hwfBody) rfl hbrmem hsusp
  have hs'ops : s'.ops = t3.ops := by
    unfold ParamReferenceReplacerRAII.destructor M.modify at hDestr
    injection hDestr with _ h2
    rw [← h2, hfin]
  have hs'trace : s'.trace = t3.trace := by
    unfold ParamReferenceReplacerRAII.destructor M.modify at hDestr
    injection hDestr with _ h2
    rw [← h2, hfin]
  -- the return block of the co_return lowered last
  obtain ⟨tUser, hUser, hHandler⟩ := emitBodyAndFallthrough_steps S S.Body _ _ hBody
  have hlast := (lastBranchDest_of_steps hPromise hRet hInit hUser hHandler).2
  have hdest' : lastBranchDest (newEvents tCopies tBody) = some dest := by
    rw [newEvents_of_trace_eq htr]
    unfold lastBranchDest
    rw [← hrec']
    show br.branchDest = some dest
    unfold Op.branchDest
    rw [hdest]
  rw [hdest'] at hlast
  refine ⟨tFrame, tCopies, tPromise, tRet, tInit, tUser, tBody, tFinal, P, dt, br, dest,
    seg0 ++ seg1 ++ before, after, hFrame, hCopies, hPromise, hRet, hInit, hUser, hHandler,
    hFinal, hDestr, ?_, hafter, hdt, hbr, hdest, hlast.symm, common, reload, pre, post, rest, ?_,
    hreload, hwfBody.2, ?_⟩
  · rw [htr, hseg, htr1, htr0]
    simp only [List.append_assoc]
  · rw [hs'ops, hops]
  · rw [hs'trace, htrace]

theorem final_suspend_is_put_before_last_branch_witness :
    ∃ (br common await : Op) (dest : BlockId) (reload pre post : List Op),
      br.kind = .br dest ∧ common.block = br.block ∧ await.block = br.block ∧
      (emitCoroutineBody Example.coroutine Example.context).state.ops
        = pre ++ ([common, await] ++ reload) ++ br :: post := by
  obtain ⟨_, _, _, _, _, _, _, _, _, _, br, dest, _, _, _, _, _, _, _, _, _, _, _, _, _, _, _,
    hdest, _, _, reload, pre, post, _, hops, _⟩ :=
    final_suspend_is_put_before_last_branch Example.coroutine (Example.suspend 40 true)
      { isIgnored := true } true Example.context _ rfl
      ⟨List.nodup_nil, fun o ho => absurd ho (List.not_mem_nil o)⟩ (by decide)
      (Res.eq_ok_of_returns (by decide!)) (by decide!)
  refine ⟨br, _, _, dest, reload, pre, post, hdest, ?_, ?_, hops⟩
  · rfl
  · rfl

end CIRGen
